import Mathlib

/-!
RAID emulator: a shallow embedding of raid.go.

The Go program emulates RAID levels 0, 1, 4 and 5 over five block files.
This development embeds the disk layer, the parity engine, the four layouts and
the factory as executable Lean functions, and states the repository's
specification as theorems about them.

Conventions of the embedding.

* A byte is a natural number; the only arithmetic the program performs on bytes
  is XOR, which never leaves the byte range.
* A block number is a natural number: the non-negative values of Go's int.
* A file is the list of its bytes.  Seeking to a negative offset fails, writing
  past the end of the file fills the gap with zeros, reading past the end
  returns fewer bytes.
* The calls Seek, Read, Write and Sync can also fail for reasons of the operating
  system (a file-size limit, a full or broken device).  The functions named after
  the source (Disk.WriteBlock, Disk.ReadBlock and the methods built on them)
  describe the runs in which no such call fails; the functions with the suffix
  Under take the outcome of the operating-system calls as a parameter and
  describe every run.
* The byte offset of a block is computed in 64-bit two's complement, as the
  expression int64(blockNum) * int64(d.blockSize) is.
* A Go run-time panic (index out of range) is the outcome Err.indexOutOfRange.
* A mutating method returns the new state together with the error value
  (none for Go's nil), so that the state left behind by a failed call is visible.
-/

namespace Raid

/-! ## Constants and outcomes -/

/-- Bytes are natural numbers (values below 256 in every well-formed input). -/
abbrev Byte := Nat

/-- The constant blockSize of raid.go. -/
def blockSize : Nat := 4096

/-- The constant numDisks of raid.go. -/
def numDisks : Nat := 5

/-- Outcomes other than success: the errors raid.go returns, the failure of the
calls it makes on a file, and the run-time panic of an index out of range. -/
inductive Err where
  | sizeMismatch (expected got : Nat)
  | invalidOffset (offset : Int)
  | openFailed (filename : String)
  | unsupportedLevel (level : String)
  | indexOutOfRange
  | osError (errno : Nat)
  deriving DecidableEq, Repr

/-- Conversion of a mathematical integer to Go's int64 (two's complement wrap-around). -/
def toInt64 (n : Int) : Int := (n + 2 ^ 63) % 2 ^ 64 - 2 ^ 63

/-! ## Files -/

/-- The bytes a read of at most n bytes returns at position pos: those the file has there. -/
def fileRead (f : List Byte) (pos n : Nat) : List Byte := (f.drop pos).take n

/-- The file after writing data at position pos: a gap between the end of the file and
pos is filled with zeros, and a write of no bytes changes nothing. -/
def fileWrite (f : List Byte) (pos : Nat) (data : List Byte) : List Byte :=
  if data.length = 0 then f
  else f.take pos ++ List.replicate (pos - f.length) 0 ++ data ++ f.drop (pos + data.length)

/-! ## Disk layer -/

/-- A disk: the content of its backing file and its block size. -/
structure Disk where
  f : List Byte
  blockSize : Nat
  deriving DecidableEq, Repr

/-- The byte offset computed by WriteBlock and ReadBlock. -/
def Disk.offset (d : Disk) (blockNum : Nat) : Int :=
  toInt64 ((blockNum : Int) * (d.blockSize : Int))

/-- Disk.WriteBlock: length check, seek, write. -/
def Disk.WriteBlock (d : Disk) (blockNum : Nat) (data : List Byte) : Except Err Disk :=
  if data.length ≠ d.blockSize then
    .error (.sizeMismatch d.blockSize data.length)
  else
    let offset := d.offset blockNum
    if offset < 0 then .error (.invalidOffset offset)
    else .ok { d with f := fileWrite d.f offset.toNat data }

/-- Disk.ReadBlock: seek, read, and zero fill of the bytes that were not read. -/
def Disk.ReadBlock (d : Disk) (blockNum : Nat) : Except Err (List Byte) :=
  let offset := d.offset blockNum
  if offset < 0 then .error (.invalidOffset offset)
  else
    let got := fileRead d.f offset.toNat d.blockSize
    .ok (got ++ List.replicate (d.blockSize - got.length) 0)

/-- The expression disks[i].ReadBlock(blockNum): the index is checked first. -/
def readDisk (disks : List Disk) (i blockNum : Nat) : Except Err (List Byte) :=
  match disks[i]? with
  | none => .error .indexOutOfRange
  | some d => d.ReadBlock blockNum

/-- The statement disks[i].WriteBlock(blockNum, data): the index is checked first, and the
disks are returned as the call leaves them. -/
def writeDisk (disks : List Disk) (i blockNum : Nat) (data : List Byte) :
    List Disk × Option Err :=
  match disks[i]? with
  | none => (disks, some .indexOutOfRange)
  | some d =>
    match d.WriteBlock blockNum data with
    | .error e => (disks, some e)
    | .ok d' => (disks.set i d', none)

/-! ## File system and disk creation -/

/-- The part of the file system createDisks touches: the files by name, and the names on
which opening a file fails. -/
structure FS where
  files : List (String × List Byte)
  unopenable : List String
  deriving DecidableEq, Repr

/-- The call os.Remove(filename): a file of that name is removed; the error the call
returns when there is none is ignored by the caller. -/
def FS.remove (fs : FS) (filename : String) : FS :=
  { fs with files := fs.files.filter (fun p => p.1 != filename) }

/-- The function newDisk: open the file, creating it empty when it does not exist. -/
def newDisk (filename : String) (blockSize : Nat) (fs : FS) : FS × Except Err Disk :=
  if filename ∈ fs.unopenable then (fs, .error (.openFailed filename))
  else
    match fs.files.lookup filename with
    | some content => (fs, .ok { f := content, blockSize := blockSize })
    | none =>
      ({ fs with files := (filename, []) :: fs.files }, .ok { f := [], blockSize := blockSize })

/-- The file name of disk i: fmt.Sprintf("%s_disk%d.dat", prefix, i). -/
def diskFilename (pfx : String) (i : Nat) : String :=
  pfx ++ "_disk" ++ toString i ++ ".dat"

/-- The loop of createDisks over the remaining indices, disks being those created so far. -/
def createDisksLoop (pfx : String) (blockSize : Nat) :
    List Nat → List Disk → FS → FS × Except Err (List Disk)
  | [], disks, fs => (fs, .ok disks)
  | i :: rest, disks, fs =>
    let filename := diskFilename pfx i
    match newDisk filename blockSize (fs.remove filename) with
    | (fs', .error e) => (fs', .error e)
    | (fs', .ok d) => createDisksLoop pfx blockSize rest (disks ++ [d]) fs'

/-- The function createDisks: five disk files for one RAID level. -/
def createDisks (pfx : String) (blockSize : Nat) (fs : FS) : FS × Except Err (List Disk) :=
  createDisksLoop pfx blockSize (List.range numDisks) [] fs

/-! ## Parity engine -/

/-- The inner loop of xorBlocks, out[i] ^= b[i] for every index i of out; it panics at
the first index that b does not have. -/
def xorInto : List Byte → List Byte → Except Err (List Byte)
  | [], _ => .ok []
  | _ :: _, [] => .error .indexOutOfRange
  | o :: out, x :: b =>
    match xorInto out b with
    | .error e => .error e
    | .ok t => .ok ((o ^^^ x) :: t)

/-- The outer loop of xorBlocks over the blocks. -/
def xorLoop : List (List Byte) → List Byte → Except Err (List Byte)
  | [], out => .ok out
  | b :: rest, out =>
    match xorInto out b with
    | .error e => .error e
    | .ok out' => xorLoop rest out'

/-- The function xorBlocks: nil for no block, otherwise the XOR of all blocks over the
length of the first one. -/
def xorBlocks (blocks : List (List Byte)) : Except Err (List Byte) :=
  match blocks with
  | [] => .ok []
  | b0 :: _ => xorLoop blocks (List.replicate b0.length 0)

/-- The loop that assembles the data blocks of a stripe, slot by slot; it stops at the
first slot whose read fails. -/
def gatherLoop (slot : Nat → Except Err (List Byte)) :
    List Nat → Except Err (List (List Byte))
  | [] => .ok []
  | i :: rest =>
    match slot i with
    | .error e => .error e
    | .ok b =>
      match gatherLoop slot rest with
      | .error e => .error e
      | .ok bs => .ok (b :: bs)

/-! ## RAID 0 (striping) -/

/-- The striping array. -/
structure RAID0 where
  disks : List Disk
  deriving DecidableEq, Repr

/-- The constructor NewRAID0. -/
def NewRAID0 (pfx : String) (blockSize : Nat) (fs : FS) : FS × Except Err RAID0 :=
  match createDisks pfx blockSize fs with
  | (fs', .error e) => (fs', .error e)
  | (fs', .ok disks) => (fs', .ok { disks := disks })

/-- RAID0.Write. -/
def RAID0.Write (r : RAID0) (blockNum : Nat) (data : List Byte) : RAID0 × Option Err :=
  let diskIndex := blockNum % numDisks
  let diskBlock := blockNum / numDisks
  let res := writeDisk r.disks diskIndex diskBlock data
  ({ disks := res.1 }, res.2)

/-- RAID0.Read. -/
def RAID0.Read (r : RAID0) (blockNum : Nat) : Except Err (List Byte) :=
  let diskIndex := blockNum % numDisks
  let diskBlock := blockNum / numDisks
  readDisk r.disks diskIndex diskBlock

/-! ## RAID 1 (mirroring) -/

/-- The mirroring array. -/
structure RAID1 where
  disks : List Disk
  deriving DecidableEq, Repr

/-- The constructor NewRAID1. -/
def NewRAID1 (pfx : String) (blockSize : Nat) (fs : FS) : FS × Except Err RAID1 :=
  match createDisks pfx blockSize fs with
  | (fs', .error e) => (fs', .error e)
  | (fs', .ok disks) => (fs', .ok { disks := disks })

/-- The loop of RAID1.Write over the disks: the first failing write ends it, the disks
before it are written and those after it are untouched. -/
def RAID1.writeLoop (blockNum : Nat) (data : List Byte) : List Disk → List Disk × Option Err
  | [] => ([], none)
  | d :: rest =>
    match d.WriteBlock blockNum data with
    | .error e => (d :: rest, some e)
    | .ok d' =>
      let res := RAID1.writeLoop blockNum data rest
      (d' :: res.1, res.2)

/-- RAID1.Write. -/
def RAID1.Write (r : RAID1) (blockNum : Nat) (data : List Byte) : RAID1 × Option Err :=
  let res := RAID1.writeLoop blockNum data r.disks
  ({ disks := res.1 }, res.2)

/-- RAID1.Read. -/
def RAID1.Read (r : RAID1) (blockNum : Nat) : Except Err (List Byte) :=
  readDisk r.disks 0 blockNum

/-! ## RAID 4 (striping with dedicated parity) -/

/-- The dedicated-parity array. -/
structure RAID4 where
  disks : List Disk
  deriving DecidableEq, Repr

/-- The constructor NewRAID4. -/
def NewRAID4 (pfx : String) (blockSize : Nat) (fs : FS) : FS × Except Err RAID4 :=
  match createDisks pfx blockSize fs with
  | (fs', .error e) => (fs', .error e)
  | (fs', .ok disks) => (fs', .ok { disks := disks })

/-- RAID4.Write: gather the stripe, compute the parity, write data then parity. -/
def RAID4.Write (r : RAID4) (blockNum : Nat) (data : List Byte) : RAID4 × Option Err :=
  let dataDisks := 4
  let stripe := blockNum / dataDisks
  let offset := blockNum % dataDisks
  match gatherLoop (fun i => if i = offset then .ok data else readDisk r.disks i stripe)
      (List.range dataDisks) with
  | .error e => (r, some e)
  | .ok dataBlocks =>
    match xorBlocks dataBlocks with
    | .error e => (r, some e)
    | .ok parity =>
      match writeDisk r.disks offset stripe data with
      | (disks1, some e) => ({ disks := disks1 }, some e)
      | (disks1, none) =>
        let res := writeDisk disks1 4 stripe parity
        ({ disks := res.1 }, res.2)

/-- RAID4.Read. -/
def RAID4.Read (r : RAID4) (blockNum : Nat) : Except Err (List Byte) :=
  let dataDisks := 4
  let stripe := blockNum / dataDisks
  let offset := blockNum % dataDisks
  readDisk r.disks offset stripe

/-! ## RAID 5 (striping with distributed parity) -/

/-- The rotating-parity array. -/
structure RAID5 where
  disks : List Disk
  deriving DecidableEq, Repr

/-- The constructor NewRAID5. -/
def NewRAID5 (pfx : String) (blockSize : Nat) (fs : FS) : FS × Except Err RAID5 :=
  match createDisks pfx blockSize fs with
  | (fs', .error e) => (fs', .error e)
  | (fs', .ok disks) => (fs', .ok { disks := disks })

/-- The five results of RAID5.layout, in the order the Go function returns them. -/
structure Layout where
  dataDiskIdx : Nat
  diskBlock : Nat
  parityDiskIdx : Nat
  dataIdx : Nat
  stripe : Nat
  deriving DecidableEq, Repr

/-- RAID5.layout: the mapping of a logical block to its data disk, its block on the disk
and the parity disk of its stripe. -/
def RAID5.layout (_r : RAID5) (blockNum : Nat) : Layout :=
  let n := numDisks
  let dataPerStripe := n - 1
  let stripe := blockNum / dataPerStripe
  let dataIdx := blockNum % dataPerStripe
  let parityDiskIdx := stripe % n
  let dataDiskIdx := if dataIdx ≥ parityDiskIdx then dataIdx + 1 else dataIdx
  { dataDiskIdx := dataDiskIdx, diskBlock := stripe, parityDiskIdx := parityDiskIdx,
    dataIdx := dataIdx, stripe := stripe }

/-- RAID5.Write: gather the stripe around the parity disk, compute the parity, write data
then parity. -/
def RAID5.Write (r : RAID5) (blockNum : Nat) (data : List Byte) : RAID5 × Option Err :=
  let n := numDisks
  let dataPerStripe := n - 1
  let l := r.layout blockNum
  match gatherLoop
      (fun i =>
        if i = l.dataIdx then .ok data
        else readDisk r.disks (if i ≥ l.parityDiskIdx then i + 1 else i) l.stripe)
      (List.range dataPerStripe) with
  | .error e => (r, some e)
  | .ok dataBlocks =>
    match xorBlocks dataBlocks with
    | .error e => (r, some e)
    | .ok parity =>
      match writeDisk r.disks l.dataDiskIdx l.diskBlock data with
      | (disks1, some e) => ({ disks := disks1 }, some e)
      | (disks1, none) =>
        let res := writeDisk disks1 l.parityDiskIdx l.diskBlock parity
        ({ disks := res.1 }, res.2)

/-- RAID5.Read. -/
def RAID5.Read (r : RAID5) (blockNum : Nat) : Except Err (List Byte) :=
  let l := r.layout blockNum
  readDisk r.disks l.dataDiskIdx l.diskBlock

/-! ## The RAID interface and the factory -/

/-- The interface RAID, closed over its four implementations. -/
inductive RAID where
  | raid0 (r : RAID0)
  | raid1 (r : RAID1)
  | raid4 (r : RAID4)
  | raid5 (r : RAID5)
  deriving DecidableEq, Repr

/-- The method Write of the interface. -/
def RAID.Write : RAID → Nat → List Byte → RAID × Option Err
  | .raid0 r, b, data => let res := r.Write b data; (.raid0 res.1, res.2)
  | .raid1 r, b, data => let res := r.Write b data; (.raid1 res.1, res.2)
  | .raid4 r, b, data => let res := r.Write b data; (.raid4 res.1, res.2)
  | .raid5 r, b, data => let res := r.Write b data; (.raid5 res.1, res.2)

/-- The method Read of the interface. -/
def RAID.Read : RAID → Nat → Except Err (List Byte)
  | .raid0 r, b => r.Read b
  | .raid1 r, b => r.Read b
  | .raid4 r, b => r.Read b
  | .raid5 r, b => r.Read b

/-- The disks of an array. -/
def RAID.disks : RAID → List Disk
  | .raid0 r => r.disks
  | .raid1 r => r.disks
  | .raid4 r => r.disks
  | .raid5 r => r.disks

/-- The conversion of a constructor result to the interface type. -/
def asRAID {α : Type} (wrap : α → RAID) (res : FS × Except Err α) : FS × Except Err RAID :=
  match res with
  | (fs', .error e) => (fs', .error e)
  | (fs', .ok r) => (fs', .ok (wrap r))

/-- The factory NewRAID. -/
def NewRAID (level : String) (pfx : String) (blockSize : Nat) (fs : FS) :
    FS × Except Err RAID :=
  if level = "0" then asRAID .raid0 (NewRAID0 pfx blockSize fs)
  else if level = "1" then asRAID .raid1 (NewRAID1 pfx blockSize fs)
  else if level = "4" then asRAID .raid4 (NewRAID4 pfx blockSize fs)
  else if level = "5" then asRAID .raid5 (NewRAID5 pfx blockSize fs)
  else (fs, .error (.unsupportedLevel level))

/-! ## Specification vocabulary -/

/-- Byte j of a file, zero past its end. -/
def byteAt (f : List Byte) (j : Nat) : Byte := f.getD j 0

/-- The file of disk k, empty when there is no such disk. -/
def diskFile (disks : List Disk) (k : Nat) : List Byte :=
  match disks[k]? with
  | some d => d.f
  | none => []

/-- Byte j of the file of disk k. -/
def diskByte (disks : List Disk) (k j : Nat) : Byte := byteAt (diskFile disks k) j

/-- The XOR of byte j over the five disks. -/
def xor5 (disks : List Disk) (j : Nat) : Byte :=
  diskByte disks 0 j ^^^ diskByte disks 1 j ^^^ diskByte disks 2 j ^^^ diskByte disks 3 j ^^^
    diskByte disks 4 j

/-- The byte offset of physical block s for block size bs, as the disk layer computes it. -/
def blockPos (bs s : Nat) : Int := toInt64 ((s : Int) * (bs : Int))

/-- An array as createDisks builds it: numDisks disks of one block size. -/
def WF (bs : Nat) (disks : List Disk) : Prop :=
  disks.length = numDisks ∧ ∀ d ∈ disks, d.blockSize = bs

/-- The state invariant of the parity levels: five disks of one block size whose bytes
XOR to zero at every position. -/
def ParityInv (bs : Nat) (disks : List Disk) : Prop :=
  WF bs disks ∧ ∀ j, xor5 disks j = 0

/-- The disks of a freshly created array: numDisks empty files. -/
def freshDisks (bs : Nat) : List Disk := List.replicate numDisks { f := [], blockSize := bs }

/-- A sequence of writes, every one of which succeeds: the state it leads to, or none
when one of the writes fails. -/
def writeAll : RAID → List (Nat × List Byte) → Option RAID
  | r, [] => some r
  | r, (b, data) :: rest =>
    match r.Write b data with
    | (r', none) => writeAll r' rest
    | (_, some _) => none

/-- The physical disk of data slot i in a stripe whose parity disk is pp. -/
def slotDisk (pp i : Nat) : Nat := if i ≥ pp then i + 1 else i

/-- The write of one data block of a stripe with parity disk pp and data slot di: the
common shape of RAID4.Write (pp = 4) and RAID5.Write (pp rotating). -/
def stripeWrite (disks : List Disk) (pp di stripe : Nat) (data : List Byte) :
    List Disk × Option Err :=
  match gatherLoop
      (fun i => if i = di then .ok data else readDisk disks (slotDisk pp i) stripe)
      (List.range 4) with
  | .error e => (disks, some e)
  | .ok dataBlocks =>
    match xorBlocks dataBlocks with
    | .error e => (disks, some e)
    | .ok parity =>
      match writeDisk disks (slotDisk pp di) stripe data with
      | (disks1, some e) => (disks1, some e)
      | (disks1, none) => writeDisk disks1 pp stripe parity

/-- Byte-wise XOR of two blocks. -/
def bxor (a b : List Byte) : List Byte := List.zipWith (fun x y => x ^^^ y) a b

/-- The writes of the blocks D i into the data slots i of one stripe, in the given order of
slots: the disks they lead to, or none when one of them fails. -/
def stripeWriteAll (pp s : Nat) (D : Nat → List Byte) : List Disk → List Nat → Option (List Disk)
  | disks, [] => some disks
  | disks, i :: rest =>
    match stripeWrite disks pp i s (D i) with
    | (disks', none) => stripeWriteAll pp s D disks' rest
    | (_, some _) => none

/-- Example data: five disks of block size 2 with arbitrary prior content. -/
def exampleDisks : List Disk :=
  [{ f := [1, 2, 3], blockSize := 2 }, { f := [], blockSize := 2 },
   { f := [9, 9, 9, 9, 9, 9], blockSize := 2 }, { f := [4], blockSize := 2 },
   { f := [5, 6, 7, 8], blockSize := 2 }]

/-- Example data: the block written to data slot i. -/
def exampleBlock (i : Nat) : List Byte := [i + 1, 16 * i]

/-- The physical block that Read of logical block b addresses at the given level. -/
def physicalBlock (level : String) (b : Nat) : Nat :=
  if level = "0" then b / 5 else if level = "1" then b else b / 4

/-- A file system without files, on which every open succeeds. -/
def emptyFS : FS := { files := [], unopenable := [] }

/-- The block of n bytes of a file at position pos, zero-filled past the end of the file. -/
def blockAt (f : List Byte) (pos n : Nat) : List Byte :=
  (List.range n).map (fun i => byteAt f (pos + i))

/-- The XOR of byte i over all blocks of a sequence. -/
def xorColumn (blocks : List (List Byte)) (i : Nat) : Byte :=
  (blocks.map (fun b => b.getD i 0)).foldl (fun x y => x ^^^ y) 0

/-- A disk of the block size of raid.go over a file with the given content. -/
def diskOf (f : List Byte) : Disk := { f := f, blockSize := blockSize }

/-- The parity levels among the implementations of the interface. -/
def RAID.hasParity : RAID → Bool
  | .raid4 _ => true
  | .raid5 _ => true
  | _ => false

/-- The store that RAID4.Write and RAID5.Write read for data slot i of the stripe of
block b: store i for RAID 4, and for RAID 5 store i moved past the parity store. -/
def siblingDisk : RAID → Nat → Nat → Nat
  | .raid5 _, b, i => if i ≥ b / 4 % 5 then i + 1 else i
  | _, _, i => i

/-- The physical block that Read and Write of logical block b address on their stores. -/
def RAID.physicalBlock : RAID → Nat → Nat
  | .raid0 _, b => b / numDisks
  | .raid1 _, b => b
  | .raid4 _, b => b / 4
  | .raid5 _, b => b / 4

/-! ## The stores under failures of the operating system -/

/-- What the operating system does to the calls of one ReadBlock: nothing, or an error
from Seek, or an error (other than end of file) from Read. -/
inductive ReadFault where
  | none
  | seek (errno : Nat)
  | read (errno : Nat)
  deriving DecidableEq, Repr

/-- What the operating system does to the calls of one WriteBlock: nothing, or an error
from Seek, or an error from Write after the given number of bytes has been written, or an
error from Sync after all bytes have been written. -/
inductive WriteFault where
  | none
  | seek (errno : Nat)
  | write (written : Nat) (errno : Nat)
  | sync (errno : Nat)
  deriving DecidableEq, Repr

/-- Disk.ReadBlock with the outcome of its operating-system calls: the Seek error and
the Read error are returned to the caller. -/
def Disk.ReadBlockUnder (fault : ReadFault) (d : Disk) (blockNum : Nat) :
    Except Err (List Byte) :=
  let offset := d.offset blockNum
  if offset < 0 then .error (.invalidOffset offset)
  else
    match fault with
    | .seek errno => .error (.osError errno)
    | .read errno => .error (.osError errno)
    | .none =>
      let got := fileRead d.f offset.toNat d.blockSize
      .ok (got ++ List.replicate (d.blockSize - got.length) 0)

/-- Disk.WriteBlock with the outcome of its operating-system calls: the disk is
returned as the call leaves it, untouched by a failed Seek, partly written by a failed
Write, fully written by a failed Sync. -/
def Disk.WriteBlockUnder (fault : WriteFault) (d : Disk) (blockNum : Nat) (data : List Byte) :
    Disk × Option Err :=
  if data.length ≠ d.blockSize then
    (d, some (.sizeMismatch d.blockSize data.length))
  else
    let offset := d.offset blockNum
    if offset < 0 then (d, some (.invalidOffset offset))
    else
      match fault with
      | .seek errno => (d, some (.osError errno))
      | .write written errno =>
        ({ d with f := fileWrite d.f offset.toNat (data.take written) }, some (.osError errno))
      | .sync errno => ({ d with f := fileWrite d.f offset.toNat data }, some (.osError errno))
      | .none => ({ d with f := fileWrite d.f offset.toNat data }, none)

/-- The expression disks[i].ReadBlock(blockNum) with the outcome of its
operating-system calls. -/
def readDiskUnder (fault : ReadFault) (disks : List Disk) (i blockNum : Nat) :
    Except Err (List Byte) :=
  match disks[i]? with
  | none => .error .indexOutOfRange
  | some d => d.ReadBlockUnder fault blockNum

/-- RAID0.Read, RAID1.Read, RAID4.Read and RAID5.Read with the outcome of the
operating-system calls of their one ReadBlock. -/
def RAID.ReadUnder (fault : ReadFault) : RAID → Nat → Except Err (List Byte)
  | .raid0 r, b => readDiskUnder fault r.disks (b % numDisks) (b / numDisks)
  | .raid1 r, b => readDiskUnder fault r.disks 0 b
  | .raid4 r, b => readDiskUnder fault r.disks (b % 4) (b / 4)
  | .raid5 r, b => readDiskUnder fault r.disks (r.layout b).dataDiskIdx (r.layout b).diskBlock

/-- The loop of RAID1.Write from store i on, faults i being the outcome of the
operating-system calls of the write to store i: the first failing write ends the loop. -/
def RAID1.writeLoopUnder (faults : Nat → WriteFault) (blockNum : Nat) (data : List Byte) :
    Nat → List Disk → List Disk × Option Err
  | _, [] => ([], none)
  | i, d :: rest =>
    match d.WriteBlockUnder (faults i) blockNum data with
    | (d', some e) => (d' :: rest, some e)
    | (d', none) =>
      let res := RAID1.writeLoopUnder faults blockNum data (i + 1) rest
      (d' :: res.1, res.2)

/-- RAID1.Write with the outcome of the operating-system calls of every store. -/
def RAID1.WriteUnder (faults : Nat → WriteFault) (r : RAID1) (blockNum : Nat)
    (data : List Byte) : RAID1 × Option Err :=
  let res := RAID1.writeLoopUnder faults blockNum data 0 r.disks
  ({ disks := res.1 }, res.2)

/-- The outcome of the operating-system calls in which the write to store 2 runs out of
space (errno 28) after one byte and every other write goes through. -/
def spaceRunsOutAtStore2 (i : Nat) : WriteFault :=
  if i = 2 then .write 1 28 else .none

/-! ## Files: reading and writing byte by byte -/

theorem byteAt_fileWrite (f : List Byte) (pos : Nat) (data : List Byte) (j : Nat) :
    byteAt (fileWrite f pos data) j =
      if pos ≤ j ∧ j < pos + data.length then data.getD (j - pos) 0 else byteAt f j := by
  unfold fileWrite byteAt
  have hl := List.length_take pos f
  by_cases h0 : data.length = 0
  · have : ¬ (pos ≤ j ∧ j < pos + data.length) := by omega
    rw [if_neg this, if_pos h0]
  · simp only [h0, if_false, List.getD_eq_getElem?_getD]
    by_cases h1 : j < pos
    · have hc : ¬ (pos ≤ j ∧ j < pos + data.length) := by omega
      simp only [hc, if_false]
      by_cases h2 : j < f.length
      · rw [List.append_assoc, List.append_assoc, List.getElem?_append_left (by omega)]
        simp [List.getElem?_take, h1]
      · rw [List.append_assoc, List.append_assoc, List.getElem?_append_right (by omega),
          List.getElem?_append_left (by rw [List.length_replicate]; omega),
          List.getElem?_replicate, List.getElem?_eq_none (Nat.le_of_not_lt h2)]
        split <;> rfl
    · have hlen : (List.take pos f ++ List.replicate (pos - f.length) 0).length = pos := by
        rw [List.length_append, List.length_replicate]; omega
      by_cases h3 : j < pos + data.length
      · have hc : pos ≤ j ∧ j < pos + data.length := by omega
        simp only [hc, and_self, if_true]
        rw [List.append_assoc (List.take pos f ++ List.replicate (pos - f.length) 0),
          List.getElem?_append_right (by omega), hlen,
          List.getElem?_append_left (by omega)]
      · have hc : ¬ (pos ≤ j ∧ j < pos + data.length) := by omega
        simp only [hc, if_false]
        have hlen2 : (List.take pos f ++ List.replicate (pos - f.length) 0 ++ data).length =
            pos + data.length := by rw [List.length_append, hlen]
        rw [List.getElem?_append_right (by omega), hlen2, List.getElem?_drop]
        have : pos + data.length + (j - (pos + data.length)) = j := by omega
        rw [this]

theorem length_zeroFill (f : List Byte) (pos n : Nat) :
    (fileRead f pos n ++ List.replicate (n - (fileRead f pos n).length) 0).length = n := by
  unfold fileRead
  have hl := List.length_take n (List.drop pos f)
  rw [List.length_append, List.length_replicate]
  omega

theorem getD_zeroFill (f : List Byte) (pos n i : Nat) :
    (fileRead f pos n ++ List.replicate (n - (fileRead f pos n).length) 0).getD i 0 =
      if i < n then byteAt f (pos + i) else 0 := by
  unfold fileRead byteAt
  simp only [List.getD_eq_getElem?_getD]
  have hl := List.length_take n (List.drop pos f)
  rw [List.length_drop] at hl
  by_cases h1 : i < (List.take n (List.drop pos f)).length
  · rw [List.getElem?_append_left h1]
    have : i < n := by omega
    simp [List.getElem?_take, this, List.getElem?_drop]
  · rw [List.getElem?_append_right (by omega), List.getElem?_replicate]
    by_cases h2 : i < n
    · have h3 : f.length ≤ pos + i := by omega
      rw [if_pos h2, List.getElem?_eq_none h3]
      split <;> rfl
    · rw [if_neg h2]
      split <;> rfl

theorem eq_of_getD {a b : List Byte} (hlen : a.length = b.length)
    (h : ∀ i, i < a.length → a.getD i 0 = b.getD i 0) : a = b := by
  apply List.ext_getElem hlen
  intro n h1 h2
  have := h n h1
  rwa [List.getD_eq_getElem a 0 h1, List.getD_eq_getElem b 0 h2] at this

theorem length_blockAt (f : List Byte) (pos n : Nat) : (blockAt f pos n).length = n := by
  simp [blockAt]

theorem getD_blockAt (f : List Byte) (pos n i : Nat) :
    (blockAt f pos n).getD i 0 = if i < n then byteAt f (pos + i) else 0 := by
  unfold blockAt
  rw [List.getD_eq_getElem?_getD, List.getElem?_map]
  by_cases h : i < n
  · simp [h, List.getElem?_range h]
  · have : (List.range n)[i]? = none := List.getElem?_eq_none (by simp; omega)
    simp [h, this]

theorem zeroFill_eq_blockAt (f : List Byte) (pos n : Nat) :
    fileRead f pos n ++ List.replicate (n - (fileRead f pos n).length) 0 = blockAt f pos n := by
  apply eq_of_getD
  · rw [length_zeroFill, length_blockAt]
  · intro i _
    rw [getD_zeroFill, getD_blockAt]

/-! ## Disk layer: what a block read returns and what a block write changes -/

theorem Disk.ReadBlock_eq (d : Disk) (s : Nat) (h : 0 ≤ d.offset s) :
    d.ReadBlock s = .ok (blockAt d.f (d.offset s).toNat d.blockSize) := by
  unfold Disk.ReadBlock
  simp only [not_lt.mpr h, if_false, zeroFill_eq_blockAt]

theorem Disk.ReadBlock_error (d : Disk) (s : Nat) (h : d.offset s < 0) :
    d.ReadBlock s = .error (.invalidOffset (d.offset s)) := by
  unfold Disk.ReadBlock
  simp only [h, if_true]

theorem Disk.WriteBlock_eq (d : Disk) (s : Nat) (data : List Byte)
    (hlen : data.length = d.blockSize) (h : 0 ≤ d.offset s) :
    d.WriteBlock s data =
      .ok { f := fileWrite d.f (d.offset s).toNat data, blockSize := d.blockSize } := by
  unfold Disk.WriteBlock
  simp [hlen, not_lt.mpr h]

theorem Disk.WriteBlock_ok {d d' : Disk} {s : Nat} {data : List Byte}
    (h : d.WriteBlock s data = .ok d') :
    data.length = d.blockSize ∧ 0 ≤ d.offset s ∧
      d' = { f := fileWrite d.f (d.offset s).toNat data, blockSize := d.blockSize } := by
  unfold Disk.WriteBlock at h
  by_cases h1 : data.length = d.blockSize
  · by_cases h2 : d.offset s < 0
    · simp [h1, h2] at h
    · simp [h1, h2] at h
      exact ⟨h1, not_lt.mp h2, h.symm⟩
  · simp [h1] at h

theorem blockAt_fileWrite_same (f : List Byte) (pos : Nat) (data : List Byte) :
    blockAt (fileWrite f pos data) pos data.length = data := by
  apply eq_of_getD (length_blockAt _ _ _)
  intro i hi
  rw [length_blockAt] at hi
  rw [getD_blockAt, if_pos hi, byteAt_fileWrite, if_pos ⟨by omega, by omega⟩]
  congr 1
  omega

theorem Disk.ReadBlock_WriteBlock {d d' : Disk} {s : Nat} {data : List Byte}
    (h : d.WriteBlock s data = .ok d') : d'.ReadBlock s = .ok data := by
  obtain ⟨hlen, hoff, rfl⟩ := Disk.WriteBlock_ok h
  have hoff2 : 0 ≤ Disk.offset
      { f := fileWrite d.f (d.offset s).toNat data, blockSize := d.blockSize } s := hoff
  rw [Disk.ReadBlock_eq _ _ hoff2]
  show Except.ok (blockAt (fileWrite d.f (d.offset s).toNat data) (d.offset s).toNat d.blockSize)
    = Except.ok data
  rw [← hlen, blockAt_fileWrite_same]

/-! ## Parity engine: the loops compute the byte-wise XOR -/

theorem length_bxor (a b : List Byte) : (bxor a b).length = min a.length b.length := by
  simp [bxor]

theorem getD_bxor (a b : List Byte) (h : a.length = b.length) (i : Nat) :
    (bxor a b).getD i 0 = a.getD i 0 ^^^ b.getD i 0 := by
  unfold bxor
  simp only [List.getD_eq_getElem?_getD, List.getElem?_zipWith]
  by_cases hi : i < a.length
  · have hb : i < b.length := by omega
    simp [List.getElem?_eq_getElem hi, List.getElem?_eq_getElem hb]
  · have ha : a[i]? = none := List.getElem?_eq_none (by omega)
    have hb : b[i]? = none := List.getElem?_eq_none (by omega)
    simp [ha, hb]

theorem xorInto_eq : ∀ (out b : List Byte), out.length ≤ b.length →
    xorInto out b = .ok (bxor out b)
  | [], _, _ => by simp [xorInto, bxor]
  | _ :: _, [], h => by simp at h
  | o :: out, x :: b, h => by
    have ih := xorInto_eq out b (by simpa using h)
    simp [xorInto, ih, bxor]

theorem xorInto_short : ∀ (out b : List Byte), b.length < out.length →
    xorInto out b = .error .indexOutOfRange
  | [], _, h => by simp at h
  | _ :: _, [], _ => by simp [xorInto]
  | o :: out, x :: b, h => by
    have ih := xorInto_short out b (by simpa using h)
    simp [xorInto, ih]

theorem xorLoop_eq : ∀ (blocks : List (List Byte)) (out : List Byte),
    (∀ b ∈ blocks, b.length = out.length) →
    xorLoop blocks out = .ok (blocks.foldl bxor out)
  | [], _, _ => by simp [xorLoop]
  | b :: rest, out, h => by
    have hb : b.length = out.length := h b (by simp)
    have hlen : (bxor out b).length = out.length := by rw [length_bxor]; omega
    have ih := xorLoop_eq rest (bxor out b) (by
      intro c hc
      rw [hlen]
      exact h c (by simp [hc]))
    simp [xorLoop, xorInto_eq out b (by omega), ih]

theorem getD_replicate_zero (n i : Nat) : (List.replicate n (0 : Byte)).getD i 0 = 0 := by
  rw [List.getD_eq_getElem?_getD, List.getElem?_replicate]
  split <;> rfl

theorem xorBlocks_four (a b c d : List Byte) (n : Nat) (ha : a.length = n) (hb : b.length = n)
    (hc : c.length = n) (hd : d.length = n) :
    ∃ P, xorBlocks [a, b, c, d] = .ok P ∧ P.length = n ∧
      (∀ i, P.getD i 0 = a.getD i 0 ^^^ b.getD i 0 ^^^ c.getD i 0 ^^^ d.getD i 0) ∧
      P = bxor (bxor (bxor a b) c) d := by
  have h1 : (bxor (List.replicate n 0) a).length = n := by simp [length_bxor, ha]
  have h2 : (bxor (bxor (List.replicate n 0) a) b).length = n := by
    rw [length_bxor, h1, hb]; simp
  have h3 : (bxor (bxor (bxor (List.replicate n 0) a) b) c).length = n := by
    rw [length_bxor, h2, hc]; simp
  have h4 : (bxor (bxor (bxor (bxor (List.replicate n 0) a) b) c) d).length = n := by
    rw [length_bxor, h3, hd]; simp
  have hg : ∀ i, (bxor (bxor (bxor (bxor (List.replicate n 0) a) b) c) d).getD i 0 =
      a.getD i 0 ^^^ b.getD i 0 ^^^ c.getD i 0 ^^^ d.getD i 0 := by
    intro i
    rw [getD_bxor _ _ (by rw [h3, hd]), getD_bxor _ _ (by rw [h2, hc]),
      getD_bxor _ _ (by rw [h1, hb]), getD_bxor _ _ (by simp [ha]), getD_replicate_zero,
      Nat.zero_xor]
  have k1 : (bxor a b).length = n := by rw [length_bxor, ha, hb]; simp
  have k2 : (bxor (bxor a b) c).length = n := by rw [length_bxor, k1, hc]; simp
  have k3 : (bxor (bxor (bxor a b) c) d).length = n := by rw [length_bxor, k2, hd]; simp
  refine ⟨_, ?_, h4, hg, ?_⟩
  · show xorLoop [a, b, c, d] (List.replicate a.length 0) = _
    rw [xorLoop_eq _ _ (by
      intro x hx
      simp only [List.mem_cons, List.mem_singleton, List.not_mem_nil, or_false] at hx
      rcases hx with rfl | rfl | rfl | rfl <;> simp [*])]
    simp [List.foldl, ha]
  · apply eq_of_getD (by rw [h4, k3])
    intro i _
    rw [hg, getD_bxor _ _ (by rw [k2, hd]), getD_bxor _ _ (by rw [k1, hc]),
      getD_bxor _ _ (by rw [ha, hb])]

/-! ## The gathering loop -/

theorem gatherLoop_congr (f g : Nat → Except Err (List Byte)) :
    ∀ (l : List Nat), (∀ i ∈ l, f i = g i) → gatherLoop f l = gatherLoop g l
  | [], _ => rfl
  | i :: rest, h => by
    have ih := gatherLoop_congr f g rest (fun k hk => h k (by simp [hk]))
    simp [gatherLoop, h i (by simp), ih]

theorem gatherLoop_four (slot : Nat → Except Err (List Byte)) (a b c d : List Byte)
    (h0 : slot 0 = .ok a) (h1 : slot 1 = .ok b) (h2 : slot 2 = .ok c) (h3 : slot 3 = .ok d) :
    gatherLoop slot (List.range 4) = .ok [a, b, c, d] := by
  have hr : List.range 4 = [0, 1, 2, 3] := rfl
  simp [hr, gatherLoop, h0, h1, h2, h3]

/-! ## Lists of disks -/

theorem diskFile_set (disks : List Disk) (k k' : Nat) (d : Disk) :
    diskFile (disks.set k d) k' =
      if k = k' ∧ k < disks.length then d.f else diskFile disks k' := by
  unfold diskFile
  rw [List.getElem?_set]
  by_cases h : k = k'
  · subst h
    by_cases h2 : k < disks.length
    · simp [h2]
    · simp [h2, List.getElem?_eq_none (Nat.le_of_not_lt h2)]
  · simp [h]

theorem WF.set {bs : Nat} {disks : List Disk} (h : WF bs disks) (k : Nat) (f : List Byte) :
    WF bs (disks.set k { f := f, blockSize := bs }) := by
  refine ⟨by rw [List.length_set]; exact h.1, ?_⟩
  intro d hd
  rcases List.mem_or_eq_of_mem_set hd with h1 | h1
  · exact h.2 d h1
  · rw [h1]

theorem WF.getElem? {bs : Nat} {disks : List Disk} (h : WF bs disks) {k : Nat} (hk : k < 5) :
    ∃ d, disks[k]? = some d ∧ d.blockSize = bs ∧ d.f = diskFile disks k := by
  have hlt : k < disks.length := by rw [h.1]; exact hk
  refine ⟨disks[k], List.getElem?_eq_getElem hlt, h.2 _ (List.getElem_mem hlt), ?_⟩
  simp [diskFile, List.getElem?_eq_getElem hlt]

theorem readDisk_eq {bs : Nat} {disks : List Disk} (h : WF bs disks) {k : Nat} (hk : k < 5)
    (s : Nat) (hoff : 0 ≤ blockPos bs s) :
    readDisk disks k s = .ok (blockAt (diskFile disks k) (blockPos bs s).toNat bs) := by
  obtain ⟨d, hd, hbs, hf⟩ := h.getElem? hk
  have ho : d.offset s = blockPos bs s := by unfold Disk.offset blockPos; rw [hbs]
  unfold readDisk
  rw [hd]
  show d.ReadBlock s = _
  rw [Disk.ReadBlock_eq d s (by rw [ho]; exact hoff), ho, hbs, hf]

theorem readDisk_error {bs : Nat} {disks : List Disk} (h : WF bs disks) {k : Nat} (hk : k < 5)
    (s : Nat) (hoff : blockPos bs s < 0) :
    readDisk disks k s = .error (.invalidOffset (blockPos bs s)) := by
  obtain ⟨d, hd, hbs, _⟩ := h.getElem? hk
  have ho : d.offset s = blockPos bs s := by unfold Disk.offset blockPos; rw [hbs]
  unfold readDisk
  rw [hd]
  show d.ReadBlock s = _
  rw [Disk.ReadBlock_error d s (by rw [ho]; exact hoff), ho]

theorem writeDisk_eq {bs : Nat} {disks : List Disk} (h : WF bs disks) {k : Nat} (hk : k < 5)
    (s : Nat) (data : List Byte) (hlen : data.length = bs) (hoff : 0 ≤ blockPos bs s) :
    writeDisk disks k s data =
      (disks.set k { f := fileWrite (diskFile disks k) (blockPos bs s).toNat data,
                     blockSize := bs }, none) := by
  obtain ⟨d, hd, hbs, hf⟩ := h.getElem? hk
  have ho : d.offset s = blockPos bs s := by unfold Disk.offset blockPos; rw [hbs]
  unfold writeDisk
  rw [hd]
  simp only [Disk.WriteBlock_eq d s data (by rw [hbs]; exact hlen) (by rw [ho]; exact hoff), ho,
    hbs, hf]

theorem writeDisk_ok {disks disks' : List Disk} {k s : Nat} {data : List Byte}
    (h : writeDisk disks k s data = (disks', none)) :
    ∃ d d', disks[k]? = some d ∧ d.WriteBlock s data = .ok d' ∧ disks' = disks.set k d' := by
  unfold writeDisk at h
  cases hd : disks[k]? with
  | none => simp [hd] at h
  | some d =>
    cases hw : d.WriteBlock s data with
    | error e => simp [hd, hw] at h
    | ok d' =>
      simp [hd, hw] at h
      exact ⟨d, d', rfl, hw, h.symm⟩

theorem writeDisk_error {disks disks' : List Disk} {k s : Nat} {data : List Byte} {e : Err}
    (h : writeDisk disks k s data = (disks', some e)) : disks' = disks := by
  unfold writeDisk at h
  cases hd : disks[k]? with
  | none => simp [hd] at h; exact h.1.symm
  | some d =>
    cases hw : d.WriteBlock s data with
    | error e => simp [hd, hw] at h; exact h.1.symm
    | ok d' => simp [hd, hw] at h

theorem readDisk_set_ne (disks : List Disk) {k k' : Nat} (h : k ≠ k') (d : Disk) (s : Nat) :
    readDisk (disks.set k d) k' s = readDisk disks k' s := by
  unfold readDisk
  rw [List.getElem?_set, if_neg h]

theorem readDisk_set_same (disks : List Disk) {k : Nat} (h : k < disks.length) (d : Disk)
    (s : Nat) : readDisk (disks.set k d) k s = d.ReadBlock s := by
  unfold readDisk
  rw [List.getElem?_set]
  simp [h]

/-! ## Slots and disks of a stripe -/

theorem slotDisk_lt {pp i : Nat} (hi : i < 4) : slotDisk pp i < 5 := by
  unfold slotDisk; split <;> omega

theorem slotDisk_ne_parity (pp i : Nat) : slotDisk pp i ≠ pp := by
  unfold slotDisk; split <;> omega

theorem slotDisk_inj {pp i i' : Nat} (h : slotDisk pp i = slotDisk pp i') : i = i' := by
  unfold slotDisk at h; split at h <;> split at h <;> omega

theorem xor_split (v : Nat → Nat) {pp : Nat} (hpp : pp < 5) :
    v 0 ^^^ v 1 ^^^ v 2 ^^^ v 3 ^^^ v 4 =
      v pp ^^^ (v (slotDisk pp 0) ^^^ v (slotDisk pp 1) ^^^ v (slotDisk pp 2) ^^^
        v (slotDisk pp 3)) := by
  interval_cases pp <;> simp [slotDisk] <;> ac_rfl

/-! ## The write of one block of a stripe -/

theorem RAID4_Write_eq (r : RAID4) (b : Nat) (data : List Byte) :
    r.Write b data =
      ({ disks := (stripeWrite r.disks 4 (b % 4) (b / 4) data).1 },
        (stripeWrite r.disks 4 (b % 4) (b / 4) data).2) := by
  have hg : gatherLoop (fun i => if i = b % 4 then .ok data else readDisk r.disks i (b / 4))
      (List.range 4) =
      gatherLoop (fun i => if i = b % 4 then .ok data
        else readDisk r.disks (slotDisk 4 i) (b / 4)) (List.range 4) := by
    apply gatherLoop_congr
    intro i hi
    have : i < 4 := List.mem_range.mp hi
    have hs : slotDisk 4 i = i := by unfold slotDisk; split <;> omega
    simp only [hs]
  have h4 : slotDisk 4 (b % 4) = b % 4 := by
    unfold slotDisk; split <;> omega
  unfold RAID4.Write stripeWrite
  simp only [hg, h4]
  cases gatherLoop (fun i => if i = b % 4 then .ok data
      else readDisk r.disks (slotDisk 4 i) (b / 4)) (List.range 4) with
  | error e => rfl
  | ok blocks =>
    simp only []
    cases xorBlocks blocks with
    | error e => rfl
    | ok parity =>
      simp only []
      rcases hw : writeDisk r.disks (b % 4) (b / 4) data with ⟨disks1, _ | e⟩ <;> rfl

theorem RAID5_Write_eq (r : RAID5) (b : Nat) (data : List Byte) :
    r.Write b data =
      ({ disks := (stripeWrite r.disks (b / 4 % 5) (b % 4) (b / 4) data).1 },
        (stripeWrite r.disks (b / 4 % 5) (b % 4) (b / 4) data).2) := by
  unfold RAID5.Write stripeWrite RAID5.layout
  simp only [numDisks, Nat.add_one_sub_one]
  have hs : (if b % 4 ≥ b / 4 % 5 then b % 4 + 1 else b % 4) = slotDisk (b / 4 % 5) (b % 4) := rfl
  have hf : (fun i => if i = b % 4 then Except.ok data
        else readDisk r.disks (if i ≥ b / 4 % 5 then i + 1 else i) (b / 4)) =
      (fun i => if i = b % 4 then Except.ok data
        else readDisk r.disks (slotDisk (b / 4 % 5) i) (b / 4)) := rfl
  simp only [hs, hf]
  cases gatherLoop (fun i => if i = b % 4 then .ok data
      else readDisk r.disks (slotDisk (b / 4 % 5) i) (b / 4)) (List.range 4) with
  | error e => rfl
  | ok blocks =>
    simp only []
    cases xorBlocks blocks with
    | error e => rfl
    | ok parity =>
      simp only []
      rcases hw : writeDisk r.disks (slotDisk (b / 4 % 5) (b % 4)) (b / 4) data with
        ⟨disks1, _ | e⟩ <;> rfl

theorem stripeWrite_ok {bs : Nat} {disks disks' : List Disk} (hwf : WF bs disks)
    {pp di stripe : Nat} {data : List Byte} (hdi : di < 4)
    (h : stripeWrite disks pp di stripe data = (disks', none)) :
    data.length = bs ∧ 0 ≤ blockPos bs stripe := by
  unfold stripeWrite at h
  cases hg : gatherLoop
      (fun i => if i = di then .ok data else readDisk disks (slotDisk pp i) stripe)
      (List.range 4) with
  | error e => simp [hg] at h
  | ok blocks =>
    cases hx : xorBlocks blocks with
    | error e => simp [hg, hx] at h
    | ok parity =>
      rcases hw : writeDisk disks (slotDisk pp di) stripe data with ⟨disks1, _ | e⟩
      · obtain ⟨d, d', hd, hwb, _⟩ := writeDisk_ok hw
        obtain ⟨hlen, hoff, _⟩ := Disk.WriteBlock_ok hwb
        obtain ⟨d2, hd2, hbs, _⟩ := hwf.getElem? (@slotDisk_lt pp di hdi)
        rw [hd] at hd2
        cases hd2
        refine ⟨by rw [hlen, hbs], ?_⟩
        have ho : d.offset stripe = blockPos bs stripe := by
          unfold Disk.offset blockPos; rw [hbs]
        rw [← ho]; exact hoff
      · simp [hg, hx, hw] at h

theorem stripeWrite_spec {bs : Nat} {disks : List Disk} (hwf : WF bs disks)
    {pp di : Nat} (stripe : Nat) {data : List Byte} (hpp : pp < 5) (hdi : di < 4)
    (hlen : data.length = bs) (hoff : 0 ≤ blockPos bs stripe) :
    ∃ disks', stripeWrite disks pp di stripe data = (disks', none) ∧ WF bs disks' ∧
      (∀ k j, ¬ ((blockPos bs stripe).toNat ≤ j ∧ j < (blockPos bs stripe).toNat + bs) →
        diskByte disks' k j = diskByte disks k j) ∧
      (∀ k j, k ≠ slotDisk pp di → k ≠ pp → diskByte disks' k j = diskByte disks k j) ∧
      (∀ j, (blockPos bs stripe).toNat ≤ j → j < (blockPos bs stripe).toNat + bs →
        diskByte disks' (slotDisk pp di) j = data.getD (j - (blockPos bs stripe).toNat) 0) ∧
      (∀ j, (blockPos bs stripe).toNat ≤ j → j < (blockPos bs stripe).toNat + bs →
        xor5 disks' j = 0) := by
  generalize hp : (blockPos bs stripe).toNat = p
  -- the gathered blocks
  let blk : Nat → List Byte := fun i =>
    if i = di then data else blockAt (diskFile disks (slotDisk pp i)) p bs
  have hslot : ∀ i, i < 4 →
      (fun i => if i = di then Except.ok data else readDisk disks (slotDisk pp i) stripe) i =
        .ok (blk i) := by
    intro i hi
    by_cases h : i = di
    · simp [blk, h]
    · simp only [blk, h, if_false]
      rw [readDisk_eq hwf (slotDisk_lt hi) stripe hoff, hp]
  have hblen : ∀ i, (blk i).length = bs := by
    intro i
    by_cases h : i = di
    · simp [blk, h, hlen]
    · simp [blk, h, length_blockAt]
  have hgather := gatherLoop_four
    (fun i => if i = di then Except.ok data else readDisk disks (slotDisk pp i) stripe)
    (blk 0) (blk 1) (blk 2) (blk 3) (hslot 0 (by omega)) (hslot 1 (by omega))
    (hslot 2 (by omega)) (hslot 3 (by omega))
  obtain ⟨P, hP, hPlen, hPget, _⟩ := xorBlocks_four (blk 0) (blk 1) (blk 2) (blk 3) bs
    (hblen 0) (hblen 1) (hblen 2) (hblen 3)
  -- the two writes
  have hdd : slotDisk pp di < 5 := slotDisk_lt hdi
  have hne : slotDisk pp di ≠ pp := slotDisk_ne_parity pp di
  have hw1 := writeDisk_eq hwf hdd stripe data hlen hoff
  have hwf1 := hwf.set (slotDisk pp di) (fileWrite (diskFile disks (slotDisk pp di)) p data)
  rw [hp] at hw1
  have hw2 := writeDisk_eq hwf1 hpp stripe P hPlen hoff
  rw [hp] at hw2
  have hwf2 := hwf1.set pp (fileWrite (diskFile (disks.set (slotDisk pp di)
    { f := fileWrite (diskFile disks (slotDisk pp di)) p data, blockSize := bs }) pp) p P)
  have hrun : stripeWrite disks pp di stripe data =
      ((disks.set (slotDisk pp di)
          { f := fileWrite (diskFile disks (slotDisk pp di)) p data, blockSize := bs }).set pp
          { f := fileWrite (diskFile (disks.set (slotDisk pp di)
              { f := fileWrite (diskFile disks (slotDisk pp di)) p data, blockSize := bs }) pp)
              p P, blockSize := bs }, none) := by
    unfold stripeWrite
    simp only [hgather, hP, hw1, hw2]
  have hl5 : disks.length = 5 := hwf.1
  -- the bytes of the new disks
  have hbyte : ∀ k j, diskByte ((disks.set (slotDisk pp di)
          { f := fileWrite (diskFile disks (slotDisk pp di)) p data, blockSize := bs }).set pp
          { f := fileWrite (diskFile (disks.set (slotDisk pp di)
              { f := fileWrite (diskFile disks (slotDisk pp di)) p data, blockSize := bs }) pp)
              p P, blockSize := bs }) k j =
      if k = pp then
        (if p ≤ j ∧ j < p + bs then P.getD (j - p) 0 else diskByte disks pp j)
      else if k = slotDisk pp di then
        (if p ≤ j ∧ j < p + bs then data.getD (j - p) 0 else diskByte disks k j)
      else diskByte disks k j := by
    intro k j
    unfold diskByte
    rw [diskFile_set, diskFile_set, diskFile_set]
    simp only [List.length_set, hl5, hpp, hdd, and_true]
    by_cases h1 : k = pp
    · subst h1
      simp only [if_true, if_neg hne]
      rw [byteAt_fileWrite, hPlen]
    · rw [if_neg (Ne.symm h1), if_neg h1]
      by_cases h2 : k = slotDisk pp di
      · subst h2
        simp only [if_true]
        rw [byteAt_fileWrite, hlen]
      · rw [if_neg (Ne.symm h2), if_neg h2]
  refine ⟨_, hrun, hwf2, ?_, ?_, ?_, ?_⟩
  · intro k j hj
    rw [hbyte]
    simp only [hj, if_false]
    split
    · rename_i h; rw [h]
    · split <;> rfl
  · intro k j h1 h2
    rw [hbyte, if_neg h2, if_neg h1]
  · intro j h1 h2
    rw [hbyte, if_neg hne, if_pos rfl, if_pos ⟨h1, h2⟩]
  · intro j h1 h2
    -- every slot disk holds the gathered block
    have hsl : ∀ i, i < 4 → diskByte ((disks.set (slotDisk pp di)
          { f := fileWrite (diskFile disks (slotDisk pp di)) p data, blockSize := bs }).set pp
          { f := fileWrite (diskFile (disks.set (slotDisk pp di)
              { f := fileWrite (diskFile disks (slotDisk pp di)) p data, blockSize := bs }) pp)
              p P, blockSize := bs }) (slotDisk pp i) j = (blk i).getD (j - p) 0 := by
      intro i _
      rw [hbyte, if_neg (slotDisk_ne_parity pp i)]
      by_cases h : i = di
      · subst h
        simp only [if_true, blk]
        rw [if_pos ⟨h1, h2⟩]
      · have h3 : slotDisk pp i ≠ slotDisk pp di := fun hh => h (slotDisk_inj hh)
        rw [if_neg h3]
        simp only [blk, if_neg h]
        rw [getD_blockAt, if_pos (by omega)]
        have hj : p + (j - p) = j := by omega
        rw [hj]
        rfl
    unfold xor5
    rw [xor_split (fun k => diskByte _ k j) hpp]
    rw [hsl 0 (by omega), hsl 1 (by omega), hsl 2 (by omega), hsl 3 (by omega), hbyte,
      if_pos rfl, if_pos ⟨h1, h2⟩, hPget, Nat.xor_self]

/-! ## Freshly created arrays -/

theorem lookup_filter_ne (name : String) : ∀ (l : List (String × List Byte)),
    List.lookup name (l.filter (fun p => p.1 != name)) = none
  | [] => rfl
  | (n, c) :: rest => by
    have ih := lookup_filter_ne name rest
    by_cases h : n = name
    · rw [List.filter_cons_of_neg (by simp [h])]
      exact ih
    · have h2 : (name == n) = false := by simpa using fun hh => h hh.symm
      rw [List.filter_cons_of_pos (by simpa using h), List.lookup_cons, h2]
      exact ih

theorem newDisk_remove (name : String) (bs : Nat) (fs : FS) (h : name ∉ fs.unopenable) :
    newDisk name bs (fs.remove name) =
      ({ files := (name, []) :: (fs.remove name).files, unopenable := fs.unopenable },
        .ok { f := [], blockSize := bs }) := by
  unfold newDisk
  have h1 : name ∉ (fs.remove name).unopenable := h
  have h2 : List.lookup name (fs.remove name).files = none := lookup_filter_ne name fs.files
  simp only [h1, if_false, h2]
  rfl

theorem newDisk_unopenable (name : String) (bs : Nat) (fs : FS) (h : name ∈ fs.unopenable) :
    newDisk name bs (fs.remove name) = (fs.remove name, .error (.openFailed name)) := by
  unfold newDisk
  have h1 : name ∈ (fs.remove name).unopenable := h
  simp only [h1, if_true]

theorem createDisksLoop_ok (pfx : String) (bs : Nat) : ∀ (l : List Nat) (disks : List Disk)
    (fs fs' : FS) (ds : List Disk), createDisksLoop pfx bs l disks fs = (fs', .ok ds) →
    ds = disks ++ List.replicate l.length { f := [], blockSize := bs }
  | [], disks, fs, fs', ds, h => by
    simp [createDisksLoop] at h
    simp [h.2]
  | i :: rest, disks, fs, fs', ds, h => by
    unfold createDisksLoop at h
    by_cases hu : diskFilename pfx i ∈ fs.unopenable
    · simp [newDisk_unopenable _ bs fs hu] at h
    · simp only [newDisk_remove _ bs fs hu] at h
      have ih := createDisksLoop_ok pfx bs rest _ _ _ _ h
      rw [ih, List.append_assoc]
      rfl

theorem createDisksLoop_succeeds (pfx : String) (bs : Nat) : ∀ (l : List Nat)
    (disks : List Disk) (fs : FS), (∀ i ∈ l, diskFilename pfx i ∉ fs.unopenable) →
    ∃ fs', createDisksLoop pfx bs l disks fs =
      (fs', .ok (disks ++ List.replicate l.length { f := [], blockSize := bs }))
  | [], disks, fs, _ => ⟨fs, by simp [createDisksLoop]⟩
  | i :: rest, disks, fs, h => by
    unfold createDisksLoop
    simp only [newDisk_remove _ bs fs (h i (by simp))]
    obtain ⟨fs', ih⟩ := createDisksLoop_succeeds pfx bs rest
      (disks ++ [{ f := [], blockSize := bs }])
      { files := (diskFilename pfx i, []) :: (fs.remove (diskFilename pfx i)).files,
        unopenable := fs.unopenable }
      (fun k hk => h k (by simp [hk]))
    refine ⟨fs', ?_⟩
    rw [ih, List.append_assoc]
    rfl

theorem createDisks_ok {pfx : String} {bs : Nat} {fs fs' : FS} {ds : List Disk}
    (h : createDisks pfx bs fs = (fs', .ok ds)) : ds = freshDisks bs := by
  have := createDisksLoop_ok pfx bs _ _ _ _ _ h
  simpa [freshDisks, numDisks] using this

theorem createDisks_succeeds (pfx : String) (bs : Nat) (fs : FS)
    (h : ∀ i, i < numDisks → diskFilename pfx i ∉ fs.unopenable) :
    ∃ fs', createDisks pfx bs fs = (fs', .ok (freshDisks bs)) := by
  obtain ⟨fs', h1⟩ := createDisksLoop_succeeds pfx bs (List.range numDisks) [] fs
    (fun i hi => h i (List.mem_range.mp hi))
  exact ⟨fs', by simpa [createDisks, freshDisks, numDisks] using h1⟩

theorem WF_freshDisks (bs : Nat) : WF bs (freshDisks bs) := by
  refine ⟨by simp [freshDisks], ?_⟩
  intro d hd
  rw [List.eq_of_mem_replicate hd]

theorem diskByte_freshDisks (bs k j : Nat) : diskByte (freshDisks bs) k j = 0 := by
  unfold diskByte diskFile freshDisks byteAt
  rw [List.getElem?_replicate]
  by_cases h : k < numDisks
  · simp [h]
  · simp [h]

theorem NewRAID_ok {level pfx : String} {bs : Nat} {fs fs' : FS} {r : RAID}
    (h : NewRAID level pfx bs fs = (fs', .ok r)) :
    (level = "0" ∧ r = .raid0 { disks := freshDisks bs }) ∨
    (level = "1" ∧ r = .raid1 { disks := freshDisks bs }) ∨
    (level = "4" ∧ r = .raid4 { disks := freshDisks bs }) ∨
    (level = "5" ∧ r = .raid5 { disks := freshDisks bs }) := by
  unfold NewRAID at h
  rcases hc : createDisks pfx bs fs with ⟨fs1, e | ds⟩
  · split_ifs at h <;>
      simp [asRAID, NewRAID0, NewRAID1, NewRAID4, NewRAID5, hc] at h
  · have hds := createDisks_ok hc
    subst hds
    split_ifs at h with h0 h1 h4 h5
    · left
      simp [asRAID, NewRAID0, hc] at h
      exact ⟨h0, h.2.symm⟩
    · right; left
      simp [asRAID, NewRAID1, hc] at h
      exact ⟨h1, h.2.symm⟩
    · right; right; left
      simp [asRAID, NewRAID4, hc] at h
      exact ⟨h4, h.2.symm⟩
    · right; right; right
      simp [asRAID, NewRAID5, hc] at h
      exact ⟨h5, h.2.symm⟩
    · simp at h

/-! ## Offsets that do not wrap -/

theorem blockPos_of_lt {bs s : Nat} (h : (s : Int) * (bs : Int) < 2 ^ 63) :
    blockPos bs s = (s : Int) * (bs : Int) := by
  unfold blockPos toInt64
  have h0 : (0 : Int) ≤ (s : Int) * (bs : Int) := by positivity
  omega

theorem blockPos_nonneg_of_le {bs s b : Nat} (hs : s ≤ b) (h : (b : Int) * (bs : Int) < 2 ^ 63) :
    0 ≤ blockPos bs s := by
  have h1 : (s : Int) * (bs : Int) ≤ (b : Int) * (bs : Int) := by
    apply mul_le_mul_of_nonneg_right
    · exact_mod_cast hs
    · positivity
  rw [blockPos_of_lt (by omega)]
  positivity

/-! ## Reading back what was written -/

theorem readDisk_writeDisk {disks disks' : List Disk} {k s : Nat} {data : List Byte}
    (h : writeDisk disks k s data = (disks', none)) : readDisk disks' k s = .ok data := by
  obtain ⟨d, d', hd, hw, rfl⟩ := writeDisk_ok h
  have hk : k < disks.length := by
    by_contra hc
    rw [List.getElem?_eq_none (Nat.le_of_not_lt hc)] at hd
    cases hd
  rw [readDisk_set_same disks hk, Disk.ReadBlock_WriteBlock hw]

theorem RAID0_Read_Write {r r' : RAID0} {b : Nat} {X : List Byte}
    (h : r.Write b X = (r', none)) : r'.Read b = .ok X := by
  unfold RAID0.Write at h
  simp only [Prod.mk.injEq] at h
  have hw : writeDisk r.disks (b % numDisks) (b / numDisks) X = (r'.disks, none) := by
    rw [← h.1]
    exact Prod.ext rfl h.2
  exact readDisk_writeDisk hw

theorem RAID1.writeLoop_ok (b : Nat) (X : List Byte) : ∀ (disks disks' : List Disk),
    RAID1.writeLoop b X disks = (disks', none) →
    disks'.length = disks.length ∧ ∀ d' ∈ disks', d'.ReadBlock b = .ok X
  | [], disks', h => by
    simp [RAID1.writeLoop] at h
    subst h
    simp
  | d :: rest, disks', h => by
    unfold RAID1.writeLoop at h
    cases hw : d.WriteBlock b X with
    | error e => simp [hw] at h
    | ok d1 =>
      simp only [hw, Prod.mk.injEq] at h
      have ih := RAID1.writeLoop_ok b X rest (RAID1.writeLoop b X rest).1
        (Prod.ext rfl h.2)
      rw [← h.1]
      refine ⟨by simp [ih.1], ?_⟩
      intro d' hd'
      rcases List.mem_cons.mp hd' with h1 | h1
      · rw [h1]; exact Disk.ReadBlock_WriteBlock hw
      · exact ih.2 d' h1

theorem RAID1.writeLoop_succeeds (bs b : Nat) (X : List Byte) (hX : X.length = bs)
    (hoff : 0 ≤ blockPos bs b) : ∀ (disks : List Disk), (∀ d ∈ disks, d.blockSize = bs) →
    ∃ disks', RAID1.writeLoop b X disks = (disks', none)
  | [], _ => ⟨[], rfl⟩
  | d :: rest, h => by
    have hbs : d.blockSize = bs := h d (by simp)
    have ho : d.offset b = blockPos bs b := by unfold Disk.offset blockPos; rw [hbs]
    obtain ⟨disks', ih⟩ := RAID1.writeLoop_succeeds bs b X hX hoff rest
      (fun d' hd' => h d' (by simp [hd']))
    unfold RAID1.writeLoop
    rw [Disk.WriteBlock_eq d b X (by rw [hbs, hX]) (by rw [ho]; exact hoff)]
    simp only [ih]
    exact ⟨_, rfl⟩

theorem stripeWrite_read {disks disks' : List Disk} {pp di stripe : Nat} {X : List Byte}
    (h : stripeWrite disks pp di stripe X = (disks', none)) :
    readDisk disks' (slotDisk pp di) stripe = .ok X := by
  unfold stripeWrite at h
  cases hg : gatherLoop
      (fun i => if i = di then .ok X else readDisk disks (slotDisk pp i) stripe)
      (List.range 4) with
  | error e => simp [hg] at h
  | ok blocks =>
    cases hx : xorBlocks blocks with
    | error e => simp [hg, hx] at h
    | ok parity =>
      rcases hw : writeDisk disks (slotDisk pp di) stripe X with ⟨disks1, _ | e⟩
      · simp only [hg, hx, hw] at h
        have h1 := readDisk_writeDisk hw
        obtain ⟨p, p', _, _, rfl⟩ := writeDisk_ok h
        rw [readDisk_set_ne disks1 (Ne.symm (slotDisk_ne_parity pp di))]
        exact h1
      · simp [hg, hx, hw] at h

theorem RAID4_Read_Write {r r' : RAID4} {b : Nat} {X : List Byte}
    (h : r.Write b X = (r', none)) : r'.Read b = .ok X := by
  rw [RAID4_Write_eq] at h
  simp only [Prod.mk.injEq] at h
  have hw : stripeWrite r.disks 4 (b % 4) (b / 4) X = (r'.disks, none) := by
    rw [← h.1]
    exact Prod.ext rfl h.2
  have := stripeWrite_read hw
  have h4 : slotDisk 4 (b % 4) = b % 4 := by unfold slotDisk; split <;> omega
  rw [h4] at this
  exact this

theorem RAID5_Read_Write {r r' : RAID5} {b : Nat} {X : List Byte}
    (h : r.Write b X = (r', none)) : r'.Read b = .ok X := by
  rw [RAID5_Write_eq] at h
  simp only [Prod.mk.injEq] at h
  have hw : stripeWrite r.disks (b / 4 % 5) (b % 4) (b / 4) X = (r'.disks, none) := by
    rw [← h.1]
    exact Prod.ext rfl h.2
  exact stripeWrite_read hw

/-! ## Round trip -/

/-- C1. Round trip: on an array freshly created by NewRAID (so the level is one of "0",
"1", "4", "5"), for every block number b and every block X of the block size, a
successful Write(b, X) is followed by a Read(b) that returns exactly X; and the Write does
succeed whenever the byte offset b * blockSize is below 2^63. -/
theorem roundTrip (level pfx : String) (bs : Nat) (fs fs' : FS) (r : RAID) (b : Nat)
    (X : List Byte) (hnew : NewRAID level pfx bs fs = (fs', .ok r)) (hX : X.length = bs) :
    (∀ r', r.Write b X = (r', none) → r'.Read b = .ok X) ∧
    ((b : Int) * (bs : Int) < 2 ^ 63 → ∃ r', r.Write b X = (r', none)) := by
  have hwf := WF_freshDisks bs
  rcases NewRAID_ok hnew with ⟨_, rfl⟩ | ⟨_, rfl⟩ | ⟨_, rfl⟩ | ⟨_, rfl⟩
  · constructor
    · intro r' h
      cases r' with
      | raid0 r0 =>
        simp only [RAID.Write, Prod.mk.injEq, RAID.raid0.injEq] at h
        exact RAID0_Read_Write (Prod.ext h.1 h.2)
      | _ => simp [RAID.Write] at h
    · intro hb
      have hoff : 0 ≤ blockPos bs (b / numDisks) :=
        blockPos_nonneg_of_le (Nat.div_le_self b numDisks) hb
      have hk : b % numDisks < 5 := Nat.mod_lt _ (by decide)
      simp only [RAID.Write, RAID0.Write, writeDisk_eq hwf hk _ X hX hoff]
      exact ⟨_, rfl⟩
  · constructor
    · intro r' h
      cases r' with
      | raid1 r1 =>
        simp only [RAID.Write, Prod.mk.injEq, RAID.raid1.injEq] at h
        have hl := RAID1.writeLoop_ok b X (freshDisks bs) r1.disks (by
          unfold RAID1.Write at h
          rw [← h.1]
          exact Prod.ext rfl h.2)
        have hlen : 0 < r1.disks.length := by rw [hl.1]; simp [freshDisks, numDisks]
        show readDisk r1.disks 0 b = _
        unfold readDisk
        rw [List.getElem?_eq_getElem hlen]
        exact hl.2 _ (List.getElem_mem hlen)
      | _ => simp [RAID.Write] at h
    · intro hb
      have hoff : 0 ≤ blockPos bs b := blockPos_nonneg_of_le (Nat.le_refl b) hb
      obtain ⟨disks', h⟩ := RAID1.writeLoop_succeeds bs b X hX hoff (freshDisks bs) hwf.2
      refine ⟨.raid1 { disks := disks' }, ?_⟩
      simp only [RAID.Write, RAID1.Write, h]
  · constructor
    · intro r' h
      cases r' with
      | raid4 r4 =>
        simp only [RAID.Write, Prod.mk.injEq, RAID.raid4.injEq] at h
        exact RAID4_Read_Write (Prod.ext h.1 h.2)
      | _ => simp [RAID.Write] at h
    · intro hb
      have hoff : 0 ≤ blockPos bs (b / 4) :=
        blockPos_nonneg_of_le (Nat.div_le_self b 4) hb
      obtain ⟨disks', h, _⟩ := stripeWrite_spec hwf (b / 4) (by omega : 4 < 5)
        (Nat.mod_lt b (by decide : 0 < 4)) hX hoff
      refine ⟨.raid4 { disks := disks' }, ?_⟩
      simp only [RAID.Write, RAID4_Write_eq, h]
  · constructor
    · intro r' h
      cases r' with
      | raid5 r5 =>
        simp only [RAID.Write, Prod.mk.injEq, RAID.raid5.injEq] at h
        exact RAID5_Read_Write (Prod.ext h.1 h.2)
      | _ => simp [RAID.Write] at h
    · intro hb
      have hoff : 0 ≤ blockPos bs (b / 4) :=
        blockPos_nonneg_of_le (Nat.div_le_self b 4) hb
      obtain ⟨disks', h, _⟩ := stripeWrite_spec hwf (b / 4)
        (Nat.mod_lt (b / 4) (by decide : 0 < 5))
        (Nat.mod_lt b (by decide : 0 < 4)) hX hoff
      refine ⟨.raid5 { disks := disks' }, ?_⟩
      simp only [RAID.Write, RAID5_Write_eq, h]

/-- C1, witness: block 5 of a fresh RAID 4 array of block size 2. -/
theorem roundTrip_witness :
    NewRAID "4" "raid4_test" 2 { files := [], unopenable := [] } =
      ((NewRAID "4" "raid4_test" 2 { files := [], unopenable := [] }).1,
        .ok (.raid4 { disks := freshDisks 2 })) ∧
    [7, 9].length = 2 ∧
    (∀ r', (RAID.raid4 { disks := freshDisks 2 }).Write 5 [7, 9] = (r', none) →
      r'.Read 5 = .ok [7, 9]) ∧
    (((5 : Nat) : Int) * ((2 : Nat) : Int) < 2 ^ 63 →
      ∃ r', (RAID.raid4 { disks := freshDisks 2 }).Write 5 [7, 9] = (r', none)) :=
  ⟨rfl, rfl, roundTrip "4" "raid4_test" 2 { files := [], unopenable := [] } _ _ 5 [7, 9] rfl rfl⟩

/-! ## The parity invariant -/

theorem parity_of_xor5 {bs : Nat} {disks : List Disk} {pp : Nat}
    (hpp : pp < 5) (s : Nat)
    (hx : ∀ j, (blockPos bs s).toNat ≤ j → j < (blockPos bs s).toNat + bs → xor5 disks j = 0) :
    blockAt (diskFile disks pp) (blockPos bs s).toNat bs =
      bxor (bxor (bxor (blockAt (diskFile disks (slotDisk pp 0)) (blockPos bs s).toNat bs)
        (blockAt (diskFile disks (slotDisk pp 1)) (blockPos bs s).toNat bs))
        (blockAt (diskFile disks (slotDisk pp 2)) (blockPos bs s).toNat bs))
        (blockAt (diskFile disks (slotDisk pp 3)) (blockPos bs s).toNat bs) := by
  generalize (blockPos bs s).toNat = p at hx ⊢
  have l : ∀ k, (blockAt (diskFile disks k) p bs).length = bs := fun k => length_blockAt _ _ _
  have k1 : (bxor (blockAt (diskFile disks (slotDisk pp 0)) p bs)
      (blockAt (diskFile disks (slotDisk pp 1)) p bs)).length = bs := by
    rw [length_bxor, l, l]; simp
  have k2 : (bxor (bxor (blockAt (diskFile disks (slotDisk pp 0)) p bs)
      (blockAt (diskFile disks (slotDisk pp 1)) p bs))
      (blockAt (diskFile disks (slotDisk pp 2)) p bs)).length = bs := by
    rw [length_bxor, k1, l]; simp
  have k3 : (bxor (bxor (bxor (blockAt (diskFile disks (slotDisk pp 0)) p bs)
      (blockAt (diskFile disks (slotDisk pp 1)) p bs))
      (blockAt (diskFile disks (slotDisk pp 2)) p bs))
      (blockAt (diskFile disks (slotDisk pp 3)) p bs)).length = bs := by
    rw [length_bxor, k2, l]; simp
  apply eq_of_getD (by rw [l, k3])
  intro i hi
  rw [l] at hi
  rw [getD_bxor _ _ (by rw [k2, l]), getD_bxor _ _ (by rw [k1, l]),
    getD_bxor _ _ (by rw [l, l])]
  simp only [getD_blockAt, if_pos hi]
  have h0 := hx (p + i) (by omega) (by omega)
  unfold xor5 at h0
  rw [xor_split (fun k => diskByte disks k (p + i)) hpp] at h0
  exact Nat.xor_eq_zero.mp h0

theorem ParityInv_fresh (bs : Nat) : ParityInv bs (freshDisks bs) := by
  refine ⟨WF_freshDisks bs, ?_⟩
  intro j
  simp [xor5, diskByte_freshDisks]

theorem ParityInv_stripeWrite {bs : Nat} {disks disks' : List Disk} (h : ParityInv bs disks)
    {pp di stripe : Nat} {data : List Byte} (hpp : pp < 5) (hdi : di < 4)
    (hw : stripeWrite disks pp di stripe data = (disks', none)) : ParityInv bs disks' := by
  obtain ⟨hlen, hoff⟩ := stripeWrite_ok h.1 hdi hw
  obtain ⟨ds, hrun, hwf, hframe, _, _, hxor⟩ := stripeWrite_spec h.1 stripe hpp hdi hlen hoff
  rw [hw] at hrun
  cases hrun
  refine ⟨hwf, ?_⟩
  intro j
  by_cases hj : (blockPos bs stripe).toNat ≤ j ∧ j < (blockPos bs stripe).toNat + bs
  · exact hxor j hj.1 hj.2
  · unfold xor5
    simp only [hframe _ j hj]
    exact h.2 j

theorem writeAll_raid4 {bs : Nat} : ∀ (ws : List (Nat × List Byte)) (r4 : RAID4) (r : RAID),
    ParityInv bs r4.disks → writeAll (.raid4 r4) ws = some r →
    ∃ r4', r = .raid4 r4' ∧ ParityInv bs r4'.disks
  | [], r4, r, hinv, h => by
    simp only [writeAll, Option.some.injEq] at h
    exact ⟨r4, h.symm, hinv⟩
  | (b, data) :: rest, r4, r, hinv, h => by
    unfold writeAll at h
    simp only [RAID.Write, RAID4_Write_eq] at h
    rcases hw : stripeWrite r4.disks 4 (b % 4) (b / 4) data with ⟨disks', _ | e⟩
    · simp only [hw] at h
      exact writeAll_raid4 rest _ r
        (ParityInv_stripeWrite hinv (by omega) (Nat.mod_lt b (by decide)) hw) h
    · simp [hw] at h

theorem writeAll_raid5 {bs : Nat} : ∀ (ws : List (Nat × List Byte)) (r5 : RAID5) (r : RAID),
    ParityInv bs r5.disks → writeAll (.raid5 r5) ws = some r →
    ∃ r5', r = .raid5 r5' ∧ ParityInv bs r5'.disks
  | [], r5, r, hinv, h => by
    simp only [writeAll, Option.some.injEq] at h
    exact ⟨r5, h.symm, hinv⟩
  | (b, data) :: rest, r5, r, hinv, h => by
    unfold writeAll at h
    simp only [RAID.Write, RAID5_Write_eq] at h
    rcases hw : stripeWrite r5.disks (b / 4 % 5) (b % 4) (b / 4) data with ⟨disks', _ | e⟩
    · simp only [hw] at h
      exact writeAll_raid5 rest _ r
        (ParityInv_stripeWrite hinv (Nat.mod_lt _ (by decide)) (Nat.mod_lt b (by decide)) hw) h
    · simp [hw] at h

theorem ParityInv_stripe {bs : Nat} {disks : List Disk} (h : ParityInv bs disks) {pp : Nat}
    (hpp : pp < 5) (s : Nat) :
    (0 ≤ blockPos bs s →
      ∃ P A0 A1 A2 A3, readDisk disks pp s = .ok P ∧
        readDisk disks (slotDisk pp 0) s = .ok A0 ∧ readDisk disks (slotDisk pp 1) s = .ok A1 ∧
        readDisk disks (slotDisk pp 2) s = .ok A2 ∧ readDisk disks (slotDisk pp 3) s = .ok A3 ∧
        P.length = bs ∧ P = bxor (bxor (bxor A0 A1) A2) A3) ∧
    (blockPos bs s < 0 →
      ∀ k, k < numDisks → readDisk disks k s = .error (.invalidOffset (blockPos bs s))) := by
  constructor
  · intro hoff
    refine ⟨_, _, _, _, _, readDisk_eq h.1 hpp s hoff,
      readDisk_eq h.1 (slotDisk_lt (by omega)) s hoff,
      readDisk_eq h.1 (slotDisk_lt (by omega)) s hoff,
      readDisk_eq h.1 (slotDisk_lt (by omega)) s hoff,
      readDisk_eq h.1 (slotDisk_lt (by omega)) s hoff, length_blockAt _ _ _,
      parity_of_xor5 hpp s (fun j _ _ => h.2 j)⟩
  · intro hoff k hk
    exact readDisk_error h.1 hk s hoff

/-- C2. Parity invariant of the reachable states: in every state reached from a freshly
created RAID 4 or RAID 5 array by a sequence of successful writes, for every stripe s the
block s of the parity store (store 4 for RAID 4, store s mod 5 for RAID 5) is the
byte-wise XOR of the blocks s of the four other stores, taken in index order; the five
blocks are readable whenever the 64-bit byte offset of block s is not negative, and
otherwise no store has a block s at all. -/
theorem parityInvariant (level pfx : String) (bs : Nat) (fs fs' : FS) (r0 r : RAID)
    (ws : List (Nat × List Byte)) (s : Nat)
    (hlevel : level = "4" ∨ level = "5")
    (hnew : NewRAID level pfx bs fs = (fs', .ok r0))
    (hrun : writeAll r0 ws = some r) :
    (0 ≤ blockPos bs s →
      ∃ P A0 A1 A2 A3,
        readDisk r.disks (if level = "4" then 4 else s % 5) s = .ok P ∧
        readDisk r.disks (slotDisk (if level = "4" then 4 else s % 5) 0) s = .ok A0 ∧
        readDisk r.disks (slotDisk (if level = "4" then 4 else s % 5) 1) s = .ok A1 ∧
        readDisk r.disks (slotDisk (if level = "4" then 4 else s % 5) 2) s = .ok A2 ∧
        readDisk r.disks (slotDisk (if level = "4" then 4 else s % 5) 3) s = .ok A3 ∧
        P.length = bs ∧ P = bxor (bxor (bxor A0 A1) A2) A3) ∧
    (blockPos bs s < 0 →
      ∀ k, k < numDisks → readDisk r.disks k s = .error (.invalidOffset (blockPos bs s))) := by
  have hpp : (if level = "4" then 4 else s % 5) < 5 := by
    split
    · omega
    · exact Nat.mod_lt _ (by decide)
  rcases NewRAID_ok hnew with ⟨h0, _⟩ | ⟨h1, _⟩ | ⟨_, rfl⟩ | ⟨_, rfl⟩
  · subst h0; rcases hlevel with h | h <;> simp at h
  · subst h1; rcases hlevel with h | h <;> simp at h
  · obtain ⟨r4, rfl, hinv⟩ := writeAll_raid4 ws _ r (ParityInv_fresh bs) hrun
    exact ParityInv_stripe hinv hpp s
  · obtain ⟨r5, rfl, hinv⟩ := writeAll_raid5 ws _ r (ParityInv_fresh bs) hrun
    exact ParityInv_stripe hinv hpp s

/-- C2, witness: a fresh RAID 5 array of block size 2 after two writes into stripe 1. -/
theorem parityInvariant_witness :
    ("5" = "4" ∨ "5" = "5") ∧
    NewRAID "5" "raid5_test" 2 { files := [], unopenable := [] } =
      ((NewRAID "5" "raid5_test" 2 { files := [], unopenable := [] }).1,
        .ok (.raid5 { disks := freshDisks 2 })) ∧
    writeAll (.raid5 { disks := freshDisks 2 }) [(5, [7, 9]), (6, [1, 2])] =
      some (.raid5 { disks := [{ f := [], blockSize := 2 }, { f := [0, 0, 6, 11], blockSize := 2 },
        { f := [0, 0, 7, 9], blockSize := 2 }, { f := [0, 0, 1, 2], blockSize := 2 },
        { f := [], blockSize := 2 }] }) ∧
    readDisk [{ f := [], blockSize := 2 }, { f := [0, 0, 6, 11], blockSize := 2 },
        { f := [0, 0, 7, 9], blockSize := 2 }, { f := [0, 0, 1, 2], blockSize := 2 },
        { f := [], blockSize := 2 }] 1 1 = .ok [6, 11] ∧
    [6, 11] = bxor (bxor (bxor [0, 0] [7, 9]) [1, 2]) [0, 0] :=
  have _h := parityInvariant "5" "raid5_test" 2 { files := [], unopenable := [] } _
    (.raid5 { disks := freshDisks 2 }) _ [(5, [7, 9]), (6, [1, 2])] 1 (Or.inr rfl) rfl
    (rfl : writeAll (.raid5 { disks := freshDisks 2 }) [(5, [7, 9]), (6, [1, 2])] =
      some (.raid5 { disks := [{ f := [], blockSize := 2 }, { f := [0, 0, 6, 11], blockSize := 2 },
        { f := [0, 0, 7, 9], blockSize := 2 }, { f := [0, 0, 1, 2], blockSize := 2 },
        { f := [], blockSize := 2 }] }))
  ⟨Or.inr rfl, rfl, rfl, rfl, rfl⟩

/-! ## Writing a full stripe -/

theorem writeAll_raid4_stripe (s : Nat) (D : Nat → List Byte) : ∀ (order : List Nat)
    (r4 : RAID4), (∀ i ∈ order, i < 4) →
    writeAll (.raid4 r4) (order.map (fun i => (4 * s + i, D i))) =
      (stripeWriteAll 4 s D r4.disks order).map (fun ds => RAID.raid4 { disks := ds })
  | [], _, _ => rfl
  | i :: rest, r4, h => by
    have hi : i < 4 := h i (by simp)
    have h1 : (4 * s + i) % 4 = i := by omega
    have h2 : (4 * s + i) / 4 = s := by omega
    simp only [List.map_cons, writeAll, stripeWriteAll, RAID.Write, RAID4_Write_eq, h1, h2]
    rcases hw : stripeWrite r4.disks 4 i s (D i) with ⟨disks', _ | e⟩
    · simp only []
      exact writeAll_raid4_stripe s D rest { disks := disks' } (fun k hk => h k (by simp [hk]))
    · rfl

theorem writeAll_raid5_stripe (s : Nat) (D : Nat → List Byte) : ∀ (order : List Nat)
    (r5 : RAID5), (∀ i ∈ order, i < 4) →
    writeAll (.raid5 r5) (order.map (fun i => (4 * s + i, D i))) =
      (stripeWriteAll (s % 5) s D r5.disks order).map (fun ds => RAID.raid5 { disks := ds })
  | [], _, _ => rfl
  | i :: rest, r5, h => by
    have hi : i < 4 := h i (by simp)
    have h1 : (4 * s + i) % 4 = i := by omega
    have h2 : (4 * s + i) / 4 = s := by omega
    simp only [List.map_cons, writeAll, stripeWriteAll, RAID.Write, RAID5_Write_eq, h1, h2]
    rcases hw : stripeWrite r5.disks (s % 5) i s (D i) with ⟨disks', _ | e⟩
    · simp only []
      exact writeAll_raid5_stripe s D rest { disks := disks' } (fun k hk => h k (by simp [hk]))
    · rfl

theorem stripeWriteAll_spec {bs pp : Nat} (hpp : pp < 5) (s : Nat) (hoff : 0 ≤ blockPos bs s)
    (D : Nat → List Byte) (hD : ∀ i, i < 4 → (D i).length = bs) :
    ∀ (order : List Nat) (disks : List Disk), (∀ i ∈ order, i < 4) → WF bs disks →
    ∃ disks', stripeWriteAll pp s D disks order = some disks' ∧ WF bs disks' ∧
      (∀ i ∈ order, ∀ j, (blockPos bs s).toNat ≤ j → j < (blockPos bs s).toNat + bs →
        diskByte disks' (slotDisk pp i) j = (D i).getD (j - (blockPos bs s).toNat) 0) ∧
      (∀ k j, k ≠ pp → (∀ i ∈ order, k ≠ slotDisk pp i) →
        diskByte disks' k j = diskByte disks k j) ∧
      (order ≠ [] → ∀ j, (blockPos bs s).toNat ≤ j → j < (blockPos bs s).toNat + bs →
        xor5 disks' j = 0)
  | [], disks, _, hwf => ⟨disks, rfl, hwf, by simp, fun _ _ _ _ => rfl, by simp⟩
  | i :: rest, disks, hord, hwf => by
    have hi : i < 4 := hord i (by simp)
    obtain ⟨d1, hrun1, hwf1, _, hother1, hdata1, hxor1⟩ :=
      stripeWrite_spec hwf s hpp hi (hD i hi) hoff
    obtain ⟨d2, hrun2, hwf2, hdata2, hother2, hxor2⟩ :=
      stripeWriteAll_spec hpp s hoff D hD rest d1 (fun k hk => hord k (by simp [hk])) hwf1
    refine ⟨d2, by simp only [stripeWriteAll, hrun1, hrun2], hwf2, ?_, ?_, ?_⟩
    · intro i' hi' j hj1 hj2
      by_cases hmem : i' ∈ rest
      · exact hdata2 i' hmem j hj1 hj2
      · have hii : i' = i := by
          rcases List.mem_cons.mp hi' with h | h
          · exact h
          · exact absurd h hmem
        subst hii
        rw [hother2 _ j (slotDisk_ne_parity pp i')
          (fun k hk hh => hmem (by rw [slotDisk_inj hh]; exact hk))]
        exact hdata1 j hj1 hj2
    · intro k j hk hall
      rw [hother2 k j hk (fun i' hi' => hall i' (by simp [hi'])),
        hother1 k j (hall i (by simp)) hk]
    · intro _ j hj1 hj2
      by_cases hr : rest = []
      · subst hr
        simp only [stripeWriteAll, Option.some.injEq] at hrun2
        subst hrun2
        exact hxor1 j hj1 hj2
      · exact hxor2 hr j hj1 hj2

theorem stripeWriteAll_fails {bs pp : Nat} (s : Nat) (hoff : blockPos bs s < 0)
    (D : Nat → List Byte) {i : Nat} {rest : List Nat} (hi : i < 4) {disks : List Disk}
    (hwf : WF bs disks) : stripeWriteAll pp s D disks (i :: rest) = none := by
  unfold stripeWriteAll
  rcases hw : stripeWrite disks pp i s (D i) with ⟨disks', _ | e⟩
  · have := (stripeWrite_ok hwf hi hw).2
    omega
  · rfl

theorem stripe_full {bs pp : Nat} (hpp : pp < 5) (s : Nat) (D : Nat → List Byte)
    (hD : ∀ i, i < 4 → (D i).length = bs) {order : List Nat} (horder : order.Perm [0, 1, 2, 3])
    {disks : List Disk} (hwf : WF bs disks) :
    (∀ disks', stripeWriteAll pp s D disks order = some disks' →
      readDisk disks' pp s = .ok (bxor (bxor (bxor (D 0) (D 1)) (D 2)) (D 3)) ∧
      ∀ i, i < 4 → readDisk disks' (slotDisk pp i) s = .ok (D i)) ∧
    (0 ≤ blockPos bs s → ∃ disks', stripeWriteAll pp s D disks order = some disks') := by
  have hmem : ∀ i, i ∈ order ↔ i < 4 := by
    intro i
    rw [horder.mem_iff]
    simp only [List.mem_cons, List.mem_singleton, List.not_mem_nil, or_false]
    omega
  have hne : order ≠ [] := by
    intro h
    have := (hmem 0).mpr (by omega)
    rw [h] at this
    cases this
  by_cases hoff : 0 ≤ blockPos bs s
  · obtain ⟨d2, hrun, hwf2, hdata, _, hxor⟩ :=
      stripeWriteAll_spec hpp s hoff D hD order disks (fun i hi => (hmem i).mp hi) hwf
    refine ⟨?_, fun _ => ⟨d2, hrun⟩⟩
    intro disks' h
    rw [hrun] at h
    cases h
    have hblock : ∀ i, i < 4 →
        blockAt (diskFile d2 (slotDisk pp i)) (blockPos bs s).toNat bs = D i := by
      intro i hi
      apply eq_of_getD (by rw [length_blockAt, hD i hi])
      intro n hn
      rw [length_blockAt] at hn
      rw [getD_blockAt, if_pos hn]
      have := hdata i ((hmem i).mpr hi) ((blockPos bs s).toNat + n) (by omega) (by omega)
      rw [show (blockPos bs s).toNat + n - (blockPos bs s).toNat = n by omega] at this
      exact this
    constructor
    · rw [readDisk_eq hwf2 hpp s hoff, parity_of_xor5 hpp s (hxor hne),
        hblock 0 (by omega), hblock 1 (by omega), hblock 2 (by omega), hblock 3 (by omega)]
    · intro i hi
      rw [readDisk_eq hwf2 (slotDisk_lt hi) s hoff, hblock i hi]
  · constructor
    · intro disks' h
      cases order with
      | nil => exact absurd rfl hne
      | cons i rest =>
        rw [stripeWriteAll_fails s (not_le.mp hoff) D ((hmem i).mp (by simp)) hwf] at h
        cases h
    · intro h
      exact absurd h hoff

theorem map_eq_some_raid4 {o : Option (List Disk)} {r' : RAID}
    (h : o.map (fun ds => RAID.raid4 { disks := ds }) = some r') :
    ∃ ds, o = some ds ∧ r'.disks = ds := by
  cases o with
  | none => simp at h
  | some ds =>
    simp only [Option.map_some', Option.some.injEq] at h
    exact ⟨ds, rfl, by rw [← h]; rfl⟩

theorem map_eq_some_raid5 {o : Option (List Disk)} {r' : RAID}
    (h : o.map (fun ds => RAID.raid5 { disks := ds }) = some r') :
    ∃ ds, o = some ds ∧ r'.disks = ds := by
  cases o with
  | none => simp at h
  | some ds =>
    simp only [Option.map_some', Option.some.injEq] at h
    exact ⟨ds, rfl, by rw [← h]; rfl⟩

theorem slotDisk_four {i : Nat} (hi : i < 4) : slotDisk 4 i = i := by
  unfold slotDisk; split <;> omega

/-- C3. Dedicated parity (RAID 4): for every stripe s, every prior content of the five
stores and every four blocks D 0 .. D 3 of the block size, after the four successful
writes Write(4s+i, D i), in any order, block s of store 4 is D 0 XOR D 1 XOR D 2 XOR D 3
byte for byte and block s of data store i is D i; and the four writes do succeed when
the 64-bit byte offset of block s is not negative. -/
theorem dedicatedParity (bs : Nat) (r : RAID4) (s : Nat) (D : Nat → List Byte)
    (order : List Nat) (hwf : WF bs r.disks) (hD : ∀ i, i < 4 → (D i).length = bs)
    (horder : order.Perm [0, 1, 2, 3]) :
    (∀ r', writeAll (.raid4 r) (order.map (fun i => (4 * s + i, D i))) = some r' →
      readDisk r'.disks 4 s = .ok (bxor (bxor (bxor (D 0) (D 1)) (D 2)) (D 3)) ∧
      ∀ i, i < 4 → readDisk r'.disks i s = .ok (D i)) ∧
    (0 ≤ blockPos bs s →
      ∃ r', writeAll (.raid4 r) (order.map (fun i => (4 * s + i, D i))) = some r') := by
  have hlt : ∀ i ∈ order, i < 4 := by
    intro i hi
    have := horder.mem_iff.mp hi
    simp only [List.mem_cons, List.mem_singleton, List.not_mem_nil, or_false] at this
    omega
  have hfull := stripe_full (by omega : 4 < 5) s D hD horder hwf
  rw [writeAll_raid4_stripe s D order r hlt]
  constructor
  · intro r' h
    obtain ⟨ds, hds, hr⟩ := map_eq_some_raid4 h
    rw [hr]
    obtain ⟨h1, h2⟩ := hfull.1 ds hds
    refine ⟨h1, ?_⟩
    intro i hi
    have := h2 i hi
    rwa [slotDisk_four hi] at this
  · intro hoff
    obtain ⟨ds, hds⟩ := hfull.2 hoff
    exact ⟨_, by rw [hds]; rfl⟩

/-- C3, witness: the slots of stripe 1 written in the order 2, 0, 3, 1 over disks that
already hold data. -/
theorem dedicatedParity_witness :
    WF 2 exampleDisks ∧ (∀ i, i < 4 → (exampleBlock i).length = 2) ∧
    [2, 0, 3, 1].Perm [0, 1, 2, 3] ∧
    (∀ r', writeAll (.raid4 { disks := exampleDisks })
        ([2, 0, 3, 1].map (fun i => (4 * 1 + i, exampleBlock i))) = some r' →
      readDisk r'.disks 4 1 = .ok (bxor (bxor (bxor (exampleBlock 0) (exampleBlock 1))
        (exampleBlock 2)) (exampleBlock 3)) ∧
      ∀ i, i < 4 → readDisk r'.disks i 1 = .ok (exampleBlock i)) ∧
    (0 ≤ blockPos 2 1 →
      ∃ r', writeAll (.raid4 { disks := exampleDisks })
        ([2, 0, 3, 1].map (fun i => (4 * 1 + i, exampleBlock i))) = some r') :=
  ⟨⟨rfl, by decide⟩, fun _ _ => rfl, by decide,
    dedicatedParity 2 { disks := exampleDisks } 1 exampleBlock [2, 0, 3, 1]
      ⟨rfl, by decide⟩ (fun _ _ => rfl) (by decide)⟩

/-- C4. Rotating parity (RAID 5): for every stripe s, every prior content of the five
stores and every four blocks D 0 .. D 3 of the block size, after the four successful
writes Write(4s+i, D i), in any order, block s of store s mod 5 is
D 0 XOR D 1 XOR D 2 XOR D 3 byte for byte (and block s of the store of data slot i is
D i); and the four writes do succeed when the 64-bit byte offset of block s is not
negative. -/
theorem rotatingParity (bs : Nat) (r : RAID5) (s : Nat) (D : Nat → List Byte)
    (order : List Nat) (hwf : WF bs r.disks) (hD : ∀ i, i < 4 → (D i).length = bs)
    (horder : order.Perm [0, 1, 2, 3]) :
    (∀ r', writeAll (.raid5 r) (order.map (fun i => (4 * s + i, D i))) = some r' →
      readDisk r'.disks (s % 5) s = .ok (bxor (bxor (bxor (D 0) (D 1)) (D 2)) (D 3)) ∧
      ∀ i, i < 4 → readDisk r'.disks (r.layout (4 * s + i)).dataDiskIdx s = .ok (D i)) ∧
    (0 ≤ blockPos bs s →
      ∃ r', writeAll (.raid5 r) (order.map (fun i => (4 * s + i, D i))) = some r') := by
  have hlt : ∀ i ∈ order, i < 4 := by
    intro i hi
    have := horder.mem_iff.mp hi
    simp only [List.mem_cons, List.mem_singleton, List.not_mem_nil, or_false] at this
    omega
  have hfull := stripe_full (Nat.mod_lt s (by decide : 0 < 5)) s D hD horder hwf
  rw [writeAll_raid5_stripe s D order r hlt]
  constructor
  · intro r' h
    obtain ⟨ds, hds, hr⟩ := map_eq_some_raid5 h
    rw [hr]
    obtain ⟨h1, h2⟩ := hfull.1 ds hds
    refine ⟨h1, ?_⟩
    intro i hi
    have hl : (r.layout (4 * s + i)).dataDiskIdx = slotDisk (s % 5) i := by
      have h1 : (4 * s + i) % 4 = i := by omega
      have h2 : (4 * s + i) / 4 = s := by omega
      simp only [RAID5.layout, numDisks, Nat.add_one_sub_one, h1, h2]
      rfl
    rw [hl]
    exact h2 i hi
  · intro hoff
    obtain ⟨ds, hds⟩ := hfull.2 hoff
    exact ⟨_, by rw [hds]; rfl⟩

/-- C4, witness: the slots of stripe 7 (parity on store 2) written in the order
3, 1, 0, 2 over disks that already hold data. -/
theorem rotatingParity_witness :
    WF 2 exampleDisks ∧ (∀ i, i < 4 → (exampleBlock i).length = 2) ∧
    [3, 1, 0, 2].Perm [0, 1, 2, 3] ∧
    (∀ r', writeAll (.raid5 { disks := exampleDisks })
        ([3, 1, 0, 2].map (fun i => (4 * 7 + i, exampleBlock i))) = some r' →
      readDisk r'.disks (7 % 5) 7 = .ok (bxor (bxor (bxor (exampleBlock 0) (exampleBlock 1))
        (exampleBlock 2)) (exampleBlock 3)) ∧
      ∀ i, i < 4 →
        readDisk r'.disks (RAID5.layout { disks := exampleDisks } (4 * 7 + i)).dataDiskIdx 7 =
          .ok (exampleBlock i)) ∧
    (0 ≤ blockPos 2 7 →
      ∃ r', writeAll (.raid5 { disks := exampleDisks })
        ([3, 1, 0, 2].map (fun i => (4 * 7 + i, exampleBlock i))) = some r') :=
  ⟨⟨rfl, by decide⟩, fun _ _ => rfl, by decide,
    rotatingParity 2 { disks := exampleDisks } 7 exampleBlock [3, 1, 0, 2]
      ⟨rfl, by decide⟩ (fun _ _ => rfl) (by decide)⟩

/-! ## Size validation -/

theorem xorLoop_short : ∀ (blocks : List (List Byte)) (out : List Byte),
    (∃ b ∈ blocks, b.length < out.length) → xorLoop blocks out = .error .indexOutOfRange
  | [], _, h => by
    obtain ⟨b, hb, _⟩ := h
    cases hb
  | b :: rest, out, h => by
    unfold xorLoop
    by_cases hb : b.length < out.length
    · rw [xorInto_short out b hb]
    · rw [xorInto_eq out b (by omega)]
      have hlen : (bxor out b).length = out.length := by rw [length_bxor]; omega
      apply xorLoop_short rest
      obtain ⟨c, hc, hlt⟩ := h
      rcases List.mem_cons.mp hc with h1 | h1
      · rw [h1] at hlt
        exact absurd hlt hb
      · exact ⟨c, h1, by rw [hlen]; exact hlt⟩

theorem xorBlocks_short (b0 : List Byte) (rest : List (List Byte))
    (h : ∃ b ∈ rest, b.length < b0.length) :
    xorBlocks (b0 :: rest) = .error .indexOutOfRange := by
  show xorLoop (b0 :: rest) (List.replicate b0.length 0) = _
  apply xorLoop_short
  obtain ⟨b, hb, hlt⟩ := h
  exact ⟨b, List.mem_cons_of_mem _ hb, by simpa using hlt⟩

theorem stripeWrite_panics {bs : Nat} {disks : List Disk} (hwf : WF bs disks) {pp di : Nat}
    (hdi : di < 4) (s : Nat) (hoff : 0 ≤ blockPos bs s) (data : List Byte)
    (h : (di = 0 ∧ bs < data.length) ∨ (di ≠ 0 ∧ data.length < bs)) :
    stripeWrite disks pp di s data = (disks, some .indexOutOfRange) := by
  let blk : Nat → List Byte := fun i =>
    if i = di then data else blockAt (diskFile disks (slotDisk pp i)) (blockPos bs s).toNat bs
  have hslot : ∀ i, i < 4 →
      (fun i => if i = di then Except.ok data else readDisk disks (slotDisk pp i) s) i =
        .ok (blk i) := by
    intro i hi
    by_cases h : i = di
    · simp [blk, h]
    · simp only [blk, h, if_false]
      rw [readDisk_eq hwf (slotDisk_lt hi) s hoff]
  have hblen : ∀ i, i ≠ di → (blk i).length = bs := by
    intro i h
    simp [blk, h, length_blockAt]
  have hgather := gatherLoop_four
    (fun i => if i = di then Except.ok data else readDisk disks (slotDisk pp i) s)
    (blk 0) (blk 1) (blk 2) (blk 3) (hslot 0 (by omega)) (hslot 1 (by omega))
    (hslot 2 (by omega)) (hslot 3 (by omega))
  have hx : xorBlocks [blk 0, blk 1, blk 2, blk 3] = .error .indexOutOfRange := by
    apply xorBlocks_short
    rcases h with ⟨h0, hlong⟩ | ⟨h0, hshort⟩
    · refine ⟨blk 1, by simp, ?_⟩
      rw [hblen 1 (by omega)]
      simp only [blk, h0, if_true]
      exact hlong
    · refine ⟨blk di, ?_, ?_⟩
      · have : di = 1 ∨ di = 2 ∨ di = 3 := by omega
        rcases this with h1 | h1 | h1 <;> simp [h1]
      · rw [hblen 0 (fun hh => h0 hh.symm)]
        simp only [blk, if_true]
        exact hshort
  unfold stripeWrite
  simp only [hgather, hx]

theorem RAID0_sizeMismatch {bs : Nat} {r : RAID0} (hwf : WF bs r.disks) (b : Nat)
    (data : List Byte) (h : data.length ≠ bs) :
    r.Write b data = (r, some (.sizeMismatch bs data.length)) := by
  obtain ⟨d, hd, hbs, _⟩ := hwf.getElem? (Nat.mod_lt b (by decide : 0 < 5))
  unfold RAID0.Write writeDisk
  simp only [numDisks, hd, Disk.WriteBlock, hbs, ne_eq, h, not_false_eq_true, if_true]

theorem RAID1_sizeMismatch {bs : Nat} {r : RAID1} (hwf : WF bs r.disks) (b : Nat)
    (data : List Byte) (h : data.length ≠ bs) :
    r.Write b data = (r, some (.sizeMismatch bs data.length)) := by
  obtain ⟨ds⟩ := r
  cases ds with
  | nil => exact absurd hwf.1 (by simp [numDisks])
  | cons d rest =>
    have hbs : d.blockSize = bs := hwf.2 d (by simp)
    unfold RAID1.Write RAID1.writeLoop
    simp only [Disk.WriteBlock, hbs, ne_eq, h, not_false_eq_true, if_true]

/-- C5, the code at the failing inputs: on the arrays NewRAID creates with the block size
4096, RAID 4 given a block of 4097 bytes for block 0, and RAID 5 given a block of 4095
bytes for block 1, end in the index-out-of-range panic of xorBlocks, not in a
size-mismatch error; RAID 0 and RAID 1 return the size-mismatch error for the same
blocks. -/
theorem sizeValidation_panic :
    (NewRAID "4" "raid4_test" blockSize emptyFS).2 =
      .ok (.raid4 { disks := freshDisks blockSize }) ∧
    (NewRAID "5" "raid5_test" blockSize emptyFS).2 =
      .ok (.raid5 { disks := freshDisks blockSize }) ∧
    (RAID.raid4 { disks := freshDisks blockSize }).Write 0 (List.replicate (blockSize + 1) 0) =
      (.raid4 { disks := freshDisks blockSize }, some .indexOutOfRange) ∧
    (RAID.raid5 { disks := freshDisks blockSize }).Write 1 (List.replicate (blockSize - 1) 0) =
      (.raid5 { disks := freshDisks blockSize }, some .indexOutOfRange) ∧
    (RAID.raid0 { disks := freshDisks blockSize }).Write 0 (List.replicate (blockSize + 1) 0) =
      (.raid0 { disks := freshDisks blockSize },
        some (.sizeMismatch blockSize (blockSize + 1))) ∧
    (RAID.raid1 { disks := freshDisks blockSize }).Write 1 (List.replicate (blockSize - 1) 0) =
      (.raid1 { disks := freshDisks blockSize },
        some (.sizeMismatch blockSize (blockSize - 1))) := by
  refine ⟨rfl, rfl, ?_⟩
  have hpos : 0 < blockSize := by decide
  generalize blockSize = bs at hpos ⊢
  have hwf := WF_freshDisks bs
  have hoff : 0 ≤ blockPos bs 0 := by
    rw [blockPos_of_lt (by simp)]; simp
  have hlong : (List.replicate (bs + 1) (0 : Byte)).length ≠ bs := by
    rw [List.length_replicate]; omega
  have hshort : (List.replicate (bs - 1) (0 : Byte)).length ≠ bs := by
    rw [List.length_replicate]; omega
  refine ⟨?_, ?_, ?_, ?_⟩
  · simp only [RAID.Write, RAID4_Write_eq]
    rw [stripeWrite_panics hwf (by omega) 0 hoff _
      (Or.inl ⟨rfl, by rw [List.length_replicate]; omega⟩)]
  · simp only [RAID.Write, RAID5_Write_eq]
    rw [stripeWrite_panics hwf (by omega) 0 hoff _
      (Or.inr ⟨by omega, by rw [List.length_replicate]; omega⟩)]
  · simp only [RAID.Write]
    rw [@RAID0_sizeMismatch bs { disks := freshDisks bs } hwf 0 _ hlong, List.length_replicate]
  · simp only [RAID.Write]
    rw [@RAID1_sizeMismatch bs { disks := freshDisks bs } hwf 1 _ hshort, List.length_replicate]

/-! ## Mirroring -/

/-- C6. Mirroring: on an array of five stores of one block size, after a successful
RAID1.Write(b, X) a direct ReadBlock(b) on each of the five stores 0..4 returns X; and
for a block X of the block size the write does succeed when the 64-bit byte offset of
block b is not negative. -/
theorem mirroring (bs : Nat) (r : RAID1) (b : Nat) (X : List Byte) (hwf : WF bs r.disks)
    (hX : X.length = bs) :
    (∀ r', r.Write b X = (r', none) →
      ∀ k, k < numDisks → readDisk r'.disks k b = .ok X) ∧
    (0 ≤ blockPos bs b → ∃ r', r.Write b X = (r', none)) := by
  constructor
  · intro r' h k hk
    unfold RAID1.Write at h
    simp only [Prod.mk.injEq] at h
    have hl := RAID1.writeLoop_ok b X r.disks r'.disks (by
      rw [← h.1]
      exact Prod.ext rfl h.2)
    have hlen : k < r'.disks.length := by rw [hl.1, hwf.1]; exact hk
    unfold readDisk
    rw [List.getElem?_eq_getElem hlen]
    exact hl.2 _ (List.getElem_mem hlen)
  · intro hoff
    obtain ⟨disks', h⟩ := RAID1.writeLoop_succeeds bs b X hX hoff r.disks hwf.2
    exact ⟨{ disks := disks' }, by simp only [RAID1.Write, h]⟩

/-- C6, witness: block 3 written to five mirrors that already hold different data. -/
theorem mirroring_witness :
    WF 2 exampleDisks ∧ [7, 9].length = 2 ∧
    (∀ r', RAID1.Write { disks := exampleDisks } 3 [7, 9] = (r', none) →
      ∀ k, k < numDisks → readDisk r'.disks k 3 = .ok [7, 9]) ∧
    (0 ≤ blockPos 2 3 → ∃ r', RAID1.Write { disks := exampleDisks } 3 [7, 9] = (r', none)) :=
  ⟨⟨rfl, by decide⟩, rfl, mirroring 2 { disks := exampleDisks } 3 [7, 9] ⟨rfl, by decide⟩ rfl⟩

/-! ## Striping -/

/-- C7. Striping map: RAID0.Write(b, X) is the one physical write of X at physical block
b div 5 of store b mod 5 (no other store changes, the result of the call is the result
of that WriteBlock), and RAID0.Read(b) is the read of that same location; in particular
blocks 0..4 are block 0 of the stores 0..4 and block 5 is block 1 of store 0. -/
theorem stripingMap (r : RAID0) (b : Nat) (X : List Byte) :
    (∀ k, k ≠ b % 5 → (r.Write b X).1.disks[k]? = r.disks[k]?) ∧
    (∀ d d', r.disks[b % 5]? = some d → d.WriteBlock (b / 5) X = .ok d' →
      r.Write b X = ({ disks := r.disks.set (b % 5) d' }, none)) ∧
    (∀ d e, r.disks[b % 5]? = some d → d.WriteBlock (b / 5) X = .error e →
      r.Write b X = (r, some e)) ∧
    (∀ d, r.disks[b % 5]? = some d → r.Read b = d.ReadBlock (b / 5)) ∧
    (∀ c d, c < 5 → r.disks[c]? = some d →
      r.Read c = d.ReadBlock 0 ∧
      (r.Write c X).1.disks[c]? = (match d.WriteBlock 0 X with
        | .ok d' => some d'
        | .error _ => some d)) ∧
    (∀ d, r.disks[0]? = some d →
      r.Read 5 = d.ReadBlock 1 ∧
      (r.Write 5 X).1.disks[0]? = (match d.WriteBlock 1 X with
        | .ok d' => some d'
        | .error _ => some d)) := by
  have hread : ∀ (c : Nat) (d : Disk), r.disks[c % 5]? = some d →
      r.Read c = d.ReadBlock (c / 5) := by
    intro c d hd
    simp only [RAID0.Read, readDisk, numDisks, hd]
  have hwrite : ∀ (c : Nat) (d : Disk), r.disks[c % 5]? = some d →
      (r.Write c X).1.disks[c % 5]? = (match d.WriteBlock (c / 5) X with
        | .ok d' => some d'
        | .error _ => some d) := by
    intro c d hd
    have hlt : c % 5 < r.disks.length := by
      by_contra hc
      rw [List.getElem?_eq_none (Nat.le_of_not_lt hc)] at hd
      cases hd
    simp only [RAID0.Write, writeDisk, numDisks, hd]
    cases d.WriteBlock (c / 5) X with
    | error e => simp only [hd]
    | ok d' => simp only [List.getElem?_set, hlt, if_true]
  refine ⟨?_, ?_, ?_, hread b, ?_, ?_⟩
  · intro k hk
    simp only [RAID0.Write, writeDisk, numDisks]
    cases hd : r.disks[b % 5]? with
    | none => rfl
    | some d =>
      simp only []
      cases d.WriteBlock (b / 5) X with
      | error e => rfl
      | ok d' => simp only [List.getElem?_set, if_neg (Ne.symm hk)]
  · intro d d' hd hw
    simp only [RAID0.Write, writeDisk, numDisks, hd, hw]
  · intro d e hd hw
    simp only [RAID0.Write, writeDisk, numDisks, hd, hw]
  · intro c d hc hd
    have h1 : c % 5 = c := Nat.mod_eq_of_lt hc
    have h2 : c / 5 = 0 := Nat.div_eq_of_lt hc
    have hr := hread c d (by rw [h1]; exact hd)
    have hw := hwrite c d (by rw [h1]; exact hd)
    rw [h1, h2] at hw
    rw [h2] at hr
    exact ⟨hr, hw⟩
  · intro d hd
    exact ⟨hread 5 d hd, hwrite 5 d hd⟩

/-! ## The layout of RAID 5 -/

/-- C8. Rotating-parity layout: RAID5.layout(b) returns stripe = b div 4,
dataIdx = b mod 4, parityDiskIdx = stripe mod 5, diskBlock = stripe, and
dataDiskIdx = dataIdx if dataIdx < parityDiskIdx, otherwise dataIdx + 1. -/
theorem layoutSpec (r : RAID5) (b : Nat) :
    (r.layout b).stripe = b / 4 ∧
    (r.layout b).dataIdx = b % 4 ∧
    (r.layout b).parityDiskIdx = (r.layout b).stripe % 5 ∧
    (r.layout b).diskBlock = (r.layout b).stripe ∧
    (r.layout b).dataDiskIdx =
      (if (r.layout b).dataIdx < (r.layout b).parityDiskIdx then (r.layout b).dataIdx
       else (r.layout b).dataIdx + 1) := by
  refine ⟨rfl, rfl, rfl, rfl, ?_⟩
  simp only [RAID5.layout, numDisks, Nat.add_one_sub_one, ge_iff_le]
  by_cases h : b % 4 < b / 4 % 5
  · rw [if_pos h, if_neg (by omega)]
  · rw [if_neg h, if_pos (by omega)]

/-! ## Reading a fresh array -/

theorem readDisk_freshDisks {bs k : Nat} (hk : k < 5) (s : Nat) (hoff : 0 ≤ blockPos bs s) :
    readDisk (freshDisks bs) k s = .ok (List.replicate bs 0) := by
  rw [readDisk_eq (WF_freshDisks bs) hk s hoff]
  congr 1
  apply eq_of_getD (by rw [length_blockAt, List.length_replicate])
  intro i hi
  rw [length_blockAt] at hi
  rw [getD_blockAt, if_pos hi, getD_replicate_zero]
  exact diskByte_freshDisks bs k _

theorem physicalBlock_le (level : String) (b : Nat) : physicalBlock level b ≤ b := by
  unfold physicalBlock
  split
  · exact Nat.div_le_self b 5
  · split
    · exact Nat.le_refl b
    · exact Nat.div_le_self b 4

theorem fresh_Read {level pfx : String} {bs : Nat} {fs fs' : FS} {r : RAID}
    (hnew : NewRAID level pfx bs fs = (fs', .ok r)) (b : Nat) :
    r.Read b = readDisk (freshDisks bs) (if level = "0" then b % 5 else if level = "1" then 0
      else if level = "4" then b % 4 else slotDisk (b / 4 % 5) (b % 4))
      (physicalBlock level b) := by
  rcases NewRAID_ok hnew with ⟨rfl, rfl⟩ | ⟨rfl, rfl⟩ | ⟨rfl, rfl⟩ | ⟨rfl, rfl⟩
  · rfl
  · rfl
  · rfl
  · rfl

/-- C9, counterexample: on a fresh RAID 1 array of block size 4096 the read of block 2^51
fails, the byte offset 2^51 * 4096 = 2^63 wrapping to -2^63 in 64 bits. -/
theorem neverWrittenRead_counterexample :
    NewRAID "1" "raid1_test" blockSize emptyFS =
      ((NewRAID "1" "raid1_test" blockSize emptyFS).1,
        .ok (.raid1 { disks := freshDisks blockSize })) ∧
    (RAID.raid1 { disks := freshDisks blockSize }).Read (2 ^ 51) =
      .error (.invalidOffset (-(2 ^ 63))) :=
  ⟨rfl, rfl⟩

theorem Disk.ReadBlockUnder_none (d : Disk) (b : Nat) :
    d.ReadBlockUnder .none b = d.ReadBlock b := rfl

theorem Disk.ReadBlockUnder_ok {fault : ReadFault} {d : Disk} {b : Nat} {blk : List Byte}
    (h : d.ReadBlockUnder fault b = .ok blk) : fault = .none ∧ d.ReadBlock b = .ok blk := by
  unfold Disk.ReadBlockUnder at h
  by_cases hoff : d.offset b < 0
  · simp [hoff] at h
  · cases fault with
    | none => exact ⟨rfl, h⟩
    | seek errno => simp [hoff] at h
    | read errno => simp [hoff] at h

theorem readDiskUnder_ok {fault : ReadFault} {disks : List Disk} {k s : Nat} {blk : List Byte}
    (h : readDiskUnder fault disks k s = .ok blk) :
    fault = .none ∧ readDisk disks k s = .ok blk := by
  unfold readDiskUnder at h
  unfold readDisk
  cases hd : disks[k]? with
  | none => simp [hd] at h
  | some d =>
    simp only [hd] at h ⊢
    exact Disk.ReadBlockUnder_ok h

theorem RAID.ReadUnder_none (r : RAID) (b : Nat) : r.ReadUnder .none b = r.Read b := by
  cases r <;> rfl

theorem RAID.ReadUnder_ok {fault : ReadFault} {r : RAID} {b : Nat} {blk : List Byte}
    (h : r.ReadUnder fault b = .ok blk) : fault = .none ∧ r.Read b = .ok blk := by
  cases r <;> exact readDiskUnder_ok h

theorem Disk.ReadBlockUnder_neg (fault : ReadFault) (d : Disk) (b : Nat)
    (h : d.offset b < 0) : d.ReadBlockUnder fault b = .error (.invalidOffset (d.offset b)) := by
  unfold Disk.ReadBlockUnder
  simp only [h, if_true]

theorem readDiskUnder_neg {bs : Nat} {disks : List Disk} (hwf : WF bs disks) {k : Nat}
    (hk : k < 5) (fault : ReadFault) (s : Nat) (hoff : blockPos bs s < 0) :
    readDiskUnder fault disks k s = .error (.invalidOffset (blockPos bs s)) := by
  obtain ⟨d, hd, hbs, _⟩ := hwf.getElem? hk
  have ho : d.offset s = blockPos bs s := by unfold Disk.offset blockPos; rw [hbs]
  unfold readDiskUnder
  rw [hd]
  show d.ReadBlockUnder fault s = _
  rw [Disk.ReadBlockUnder_neg fault d s (by rw [ho]; exact hoff), ho]

theorem fresh_ReadUnder {level pfx : String} {bs : Nat} {fs fs' : FS} {r : RAID}
    (hnew : NewRAID level pfx bs fs = (fs', .ok r)) (fault : ReadFault) (b : Nat) :
    r.ReadUnder fault b = readDiskUnder fault (freshDisks bs)
      (if level = "0" then b % 5 else if level = "1" then 0
        else if level = "4" then b % 4 else slotDisk (b / 4 % 5) (b % 4))
      (physicalBlock level b) := by
  rcases NewRAID_ok hnew with ⟨rfl, rfl⟩ | ⟨rfl, rfl⟩ | ⟨rfl, rfl⟩ | ⟨rfl, rfl⟩
  · rfl
  · rfl
  · rfl
  · rfl

/-- C9, amended. Never-written read: for every level, every block number b and every
outcome of the operating-system calls, Read(b) on a freshly created array returns, when
it succeeds, a block of exactly blockSize bytes, all of them zero; it succeeds when its
Seek and Read calls do not fail and the 64-bit byte offset of the physical block is not
negative; and its Seek fails whenever that offset is negative. -/
theorem neverWrittenRead (level pfx : String) (bs : Nat) (fs fs' : FS) (r : RAID) (b : Nat)
    (fault : ReadFault) (hnew : NewRAID level pfx bs fs = (fs', .ok r)) :
    (∀ blk, r.ReadUnder fault b = .ok blk → blk = List.replicate bs 0) ∧
    (fault = .none → 0 ≤ blockPos bs (physicalBlock level b) →
      r.ReadUnder fault b = .ok (List.replicate bs 0)) ∧
    (blockPos bs (physicalBlock level b) < 0 →
      r.ReadUnder fault b = .error (.invalidOffset (blockPos bs (physicalBlock level b)))) := by
  have hk : (if level = "0" then b % 5 else if level = "1" then 0
      else if level = "4" then b % 4 else slotDisk (b / 4 % 5) (b % 4)) < 5 := by
    split
    · exact Nat.mod_lt b (by decide)
    · split
      · omega
      · split
        · have := Nat.mod_lt b (by decide : 0 < 4)
          omega
        · exact slotDisk_lt (Nat.mod_lt b (by decide))
  have hzero : 0 ≤ blockPos bs (physicalBlock level b) →
      r.Read b = .ok (List.replicate bs 0) := by
    intro hoff
    rw [fresh_Read hnew b, readDisk_freshDisks hk _ hoff]
  have hneg : blockPos bs (physicalBlock level b) < 0 →
      r.ReadUnder fault b = .error (.invalidOffset (blockPos bs (physicalBlock level b))) := by
    intro hoff
    rw [fresh_ReadUnder hnew fault b, readDiskUnder_neg (WF_freshDisks bs) hk fault _ hoff]
  refine ⟨?_, ?_, hneg⟩
  · intro blk h
    by_cases hoff : 0 ≤ blockPos bs (physicalBlock level b)
    · have h2 := (RAID.ReadUnder_ok h).2
      rw [hzero hoff] at h2
      exact (Except.ok.inj h2).symm
    · rw [hneg (not_le.mp hoff)] at h
      cases h
  · intro hf hoff
    rw [hf, RAID.ReadUnder_none, hzero hoff]

/-- C9, witness: block 7 of a fresh RAID 5 array of block size 2, no operating-system
call failing. -/
theorem neverWrittenRead_witness :
    NewRAID "5" "raid5_test" 2 emptyFS =
      ((NewRAID "5" "raid5_test" 2 emptyFS).1, .ok (.raid5 { disks := freshDisks 2 })) ∧
    (∀ blk, (RAID.raid5 { disks := freshDisks 2 }).ReadUnder .none 7 = .ok blk →
      blk = List.replicate 2 0) ∧
    (RAID.raid5 { disks := freshDisks 2 }).ReadUnder .none 7 = .ok [0, 0] :=
  have h := neverWrittenRead "5" "raid5_test" 2 emptyFS _ (.raid5 { disks := freshDisks 2 }) 7
    .none rfl
  ⟨rfl, h.1, h.2.1 rfl (by decide)⟩

/-! ## The factory -/

/-- C10. Factory: when the five files can be opened, NewRAID(level, prefix, blockSize)
returns an error exactly when level is not one of "0", "1", "4", "5", and then it
returns no array and leaves the file system as it was; for "0", "1", "4", "5" it
returns the striping, mirroring, dedicated-parity and rotating-parity array
respectively, each over five disks. -/
theorem factory (level pfx : String) (bs : Nat) (fs : FS)
    (hopen : ∀ i, i < numDisks → diskFilename pfx i ∉ fs.unopenable) :
    ((∃ e, (NewRAID level pfx bs fs).2 = .error e) ↔ level ∉ ["0", "1", "4", "5"]) ∧
    (level ∉ ["0", "1", "4", "5"] →
      NewRAID level pfx bs fs = (fs, .error (.unsupportedLevel level))) ∧
    (level = "0" → ∃ r0 : RAID0,
      (NewRAID level pfx bs fs).2 = .ok (.raid0 r0) ∧ r0.disks.length = numDisks) ∧
    (level = "1" → ∃ r1 : RAID1,
      (NewRAID level pfx bs fs).2 = .ok (.raid1 r1) ∧ r1.disks.length = numDisks) ∧
    (level = "4" → ∃ r4 : RAID4,
      (NewRAID level pfx bs fs).2 = .ok (.raid4 r4) ∧ r4.disks.length = numDisks) ∧
    (level = "5" → ∃ r5 : RAID5,
      (NewRAID level pfx bs fs).2 = .ok (.raid5 r5) ∧ r5.disks.length = numDisks) := by
  obtain ⟨fs1, hc⟩ := createDisks_succeeds pfx bs fs hopen
  have hlen : (freshDisks bs).length = numDisks := by simp [freshDisks]
  have h0 : level = "0" →
      NewRAID level pfx bs fs = (fs1, .ok (.raid0 { disks := freshDisks bs })) := by
    intro h
    simp only [NewRAID, h, if_true, NewRAID0, hc, asRAID]
  have h1 : level = "1" →
      NewRAID level pfx bs fs = (fs1, .ok (.raid1 { disks := freshDisks bs })) := by
    intro h
    subst h
    simp only [NewRAID, NewRAID1, hc, asRAID]
    rfl
  have h4 : level = "4" →
      NewRAID level pfx bs fs = (fs1, .ok (.raid4 { disks := freshDisks bs })) := by
    intro h
    subst h
    simp only [NewRAID, NewRAID4, hc, asRAID]
    rfl
  have h5 : level = "5" →
      NewRAID level pfx bs fs = (fs1, .ok (.raid5 { disks := freshDisks bs })) := by
    intro h
    subst h
    simp only [NewRAID, NewRAID5, hc, asRAID]
    rfl
  have hbad : level ∉ ["0", "1", "4", "5"] →
      NewRAID level pfx bs fs = (fs, .error (.unsupportedLevel level)) := by
    intro h
    simp only [List.mem_cons, List.mem_singleton, List.not_mem_nil, or_false, not_or] at h
    simp only [NewRAID, h.1, h.2.1, h.2.2.1, h.2.2.2, if_false]
  refine ⟨⟨?_, ?_⟩, hbad, ?_, ?_, ?_, ?_⟩
  · rintro ⟨e, he⟩ hmem
    simp only [List.mem_cons, List.mem_singleton, List.not_mem_nil, or_false] at hmem
    rcases hmem with h | h | h | h
    · rw [h0 h] at he; cases he
    · rw [h1 h] at he; cases he
    · rw [h4 h] at he; cases he
    · rw [h5 h] at he; cases he
  · intro h
    exact ⟨_, by rw [hbad h]⟩
  · intro h
    exact ⟨{ disks := freshDisks bs }, by rw [h0 h], hlen⟩
  · intro h
    exact ⟨{ disks := freshDisks bs }, by rw [h1 h], hlen⟩
  · intro h
    exact ⟨{ disks := freshDisks bs }, by rw [h4 h], hlen⟩
  · intro h
    exact ⟨{ disks := freshDisks bs }, by rw [h5 h], hlen⟩

/-- C10, witness: an unknown level over a file system that already has a file. -/
theorem factory_witness :
    (∀ i, i < numDisks → diskFilename "raid" i ∉
      ({ files := [("raid_disk0.dat", [1, 2, 3])], unopenable := [] } : FS).unopenable) ∧
    ((∃ e, (NewRAID "nonexistent-level" "raid" 4096
        { files := [("raid_disk0.dat", [1, 2, 3])], unopenable := [] }).2 = .error e) ↔
      "nonexistent-level" ∉ ["0", "1", "4", "5"]) ∧
    ("nonexistent-level" ∉ ["0", "1", "4", "5"] →
      NewRAID "nonexistent-level" "raid" 4096
          { files := [("raid_disk0.dat", [1, 2, 3])], unopenable := [] } =
        ({ files := [("raid_disk0.dat", [1, 2, 3])], unopenable := [] },
          .error (.unsupportedLevel "nonexistent-level"))) :=
  have h := factory "nonexistent-level" "raid" 4096
    { files := [("raid_disk0.dat", [1, 2, 3])], unopenable := [] }
    (fun _ _ => List.not_mem_nil _)
  ⟨fun _ _ => List.not_mem_nil _, h.1, h.2.1⟩

/-! ## The parity engine on any number of blocks -/

theorem length_foldl_bxor : ∀ (blocks : List (List Byte)) (out : List Byte),
    (∀ b ∈ blocks, b.length = out.length) → (blocks.foldl bxor out).length = out.length
  | [], _, _ => rfl
  | b :: rest, out, h => by
    have hb : b.length = out.length := h b (by simp)
    have hlen : (bxor out b).length = out.length := by rw [length_bxor]; omega
    rw [List.foldl_cons, length_foldl_bxor rest (bxor out b) (by
      intro c hc
      rw [hlen]
      exact h c (by simp [hc])), hlen]

theorem getD_foldl_bxor (i : Nat) : ∀ (blocks : List (List Byte)) (out : List Byte),
    (∀ b ∈ blocks, b.length = out.length) →
    (blocks.foldl bxor out).getD i 0 =
      (blocks.map (fun b => b.getD i 0)).foldl (fun x y => x ^^^ y) (out.getD i 0)
  | [], _, _ => rfl
  | b :: rest, out, h => by
    have hb : b.length = out.length := h b (by simp)
    have hlen : (bxor out b).length = out.length := by rw [length_bxor]; omega
    rw [List.foldl_cons, getD_foldl_bxor i rest (bxor out b) (by
      intro c hc
      rw [hlen]
      exact h c (by simp [hc])), getD_bxor out b hb.symm]
    rfl

theorem xorBlocks_eq (b0 : List Byte) (rest : List (List Byte))
    (h : ∀ b ∈ rest, b.length = b0.length) :
    ∃ P, xorBlocks (b0 :: rest) = .ok P ∧ P.length = b0.length ∧
      ∀ i, P.getD i 0 = xorColumn (b0 :: rest) i := by
  have hall : ∀ b ∈ b0 :: rest, b.length = (List.replicate b0.length (0 : Byte)).length := by
    intro b hb
    rw [List.length_replicate]
    rcases List.mem_cons.mp hb with h1 | h1
    · rw [h1]
    · exact h b h1
  refine ⟨(b0 :: rest).foldl bxor (List.replicate b0.length 0), ?_, ?_, ?_⟩
  · show xorLoop (b0 :: rest) (List.replicate b0.length 0) = _
    exact xorLoop_eq _ _ hall
  · rw [length_foldl_bxor _ _ hall, List.length_replicate]
  · intro i
    rw [getD_foldl_bxor i _ _ hall, getD_replicate_zero]
    rfl

/-- C11. Parity engine: for every non-empty sequence of blocks that all have the same
length L, xorBlocks returns a block of length L whose byte i, for every i < L, is the
XOR of byte i of every input block; a single input block is returned unchanged in
value. -/
theorem parityEngine (blocks : List (List Byte)) (L : Nat) (hne : blocks ≠ [])
    (hlen : ∀ b ∈ blocks, b.length = L) :
    ∃ P, xorBlocks blocks = .ok P ∧ P.length = L ∧
      (∀ i, i < L → P[i]? = some (xorColumn blocks i)) ∧
      (∀ a, blocks = [a] → P = a) := by
  cases blocks with
  | nil => exact absurd rfl hne
  | cons b0 rest =>
    have h0 : b0.length = L := hlen b0 (by simp)
    obtain ⟨P, hP, hPlen, hPget⟩ := xorBlocks_eq b0 rest (by
      intro b hb
      rw [h0]
      exact hlen b (by simp [hb]))
    refine ⟨P, hP, by rw [hPlen, h0], ?_, ?_⟩
    · intro i hi
      have hi2 : i < P.length := by rw [hPlen, h0]; exact hi
      rw [List.getElem?_eq_getElem hi2, ← hPget i, List.getD_eq_getElem P 0 hi2]
    · intro a ha
      simp only [List.cons.injEq] at ha
      obtain ⟨rfl, rfl⟩ := ha
      apply eq_of_getD hPlen
      intro i _
      rw [hPget i]
      simp [xorColumn]

/-- C11, witness: three blocks of three bytes. -/
theorem parityEngine_witness :
    [[1, 2, 3], [4, 5, 6], [7, 8, 9]] ≠ ([] : List (List Byte)) ∧
    (∀ b ∈ [[1, 2, 3], [4, 5, 6], [7, 8, 9]], b.length = 3) ∧
    ∃ P, xorBlocks [[1, 2, 3], [4, 5, 6], [7, 8, 9]] = .ok P ∧ P.length = 3 ∧
      (∀ i, i < 3 → P[i]? = some (xorColumn [[1, 2, 3], [4, 5, 6], [7, 8, 9]] i)) ∧
      (∀ a, [[1, 2, 3], [4, 5, 6], [7, 8, 9]] = [a] → P = a) :=
  ⟨by decide, by decide,
    parityEngine [[1, 2, 3], [4, 5, 6], [7, 8, 9]] 3 (by decide) (by decide)⟩

/-! ## The byte offset of a block -/

/-- C12, counterexample: with the block size 4096 the offset of block 2^51 is -2^63, not
the product 2^63, and block 2^52 has the offset 0 of block 0. -/
theorem offsetExact_counterexample :
    (diskOf []).offset (2 ^ 51) = -(2 ^ 63) ∧
    (diskOf []).offset (2 ^ 51) ≠ ((2 ^ 51 : Nat) : Int) * 4096 ∧
    (diskOf []).offset (2 ^ 52) = (diskOf []).offset 0 ∧ (2 ^ 52 : Nat) ≠ 0 := by
  refine ⟨by decide, by decide, by decide, by decide⟩

/-- C12, amended. For every block number below 2^51 the byte offset that WriteBlock and
ReadBlock compute with the block size 4096 is the exact product blockNum * 4096, it is
not negative, and the 4096-byte ranges of two distinct block numbers below 2^51 do not
overlap (in particular their offsets differ). -/
theorem offsetExact (f : List Byte) (blockNum : Nat) (h : blockNum < 2 ^ 51) :
    (diskOf f).offset blockNum = (blockNum : Int) * 4096 ∧
    0 ≤ (diskOf f).offset blockNum ∧
    ∀ other, other < 2 ^ 51 → other ≠ blockNum →
      (diskOf f).offset other + 4096 ≤ (diskOf f).offset blockNum ∨
      (diskOf f).offset blockNum + 4096 ≤ (diskOf f).offset other := by
  have key : ∀ n : Nat, n < 2 ^ 51 → (diskOf f).offset n = (n : Int) * 4096 := by
    intro n hn
    show toInt64 ((n : Int) * ((4096 : Nat) : Int)) = _
    unfold toInt64
    omega
  refine ⟨key blockNum h, by rw [key blockNum h]; omega, ?_⟩
  intro other ho hne
  rw [key blockNum h, key other ho]
  omega

/-- C12, witness: block 3. -/
theorem offsetExact_witness :
    3 < 2 ^ 51 ∧ (diskOf [1, 2]).offset 3 = ((3 : Nat) : Int) * 4096 ∧
    0 ≤ (diskOf [1, 2]).offset 3 ∧
    ∀ other, other < 2 ^ 51 → other ≠ 3 →
      (diskOf [1, 2]).offset other + 4096 ≤ (diskOf [1, 2]).offset 3 ∨
      (diskOf [1, 2]).offset 3 + 4096 ≤ (diskOf [1, 2]).offset other :=
  ⟨by decide, offsetExact [1, 2] 3 (by decide)⟩

/-! ## Reading a mirror -/

/-- C13. Mirror read is served from store 0 only: two RAID 1 arrays with the same store 0,
whatever their other stores are, return the same result (block or error) for
RAID1.Read(b), and that result is ReadBlock(b) on store 0. -/
theorem mirrorRead (r1 r2 : RAID1) (b : Nat) (h : r1.disks[0]? = r2.disks[0]?) :
    r1.Read b = r2.Read b ∧ ∀ d, r1.disks[0]? = some d → r1.Read b = d.ReadBlock b := by
  constructor
  · simp only [RAID1.Read, readDisk, h]
  · intro d hd
    simp only [RAID1.Read, readDisk, hd]

/-- C13, witness: two arrays that agree on store 0 only. -/
theorem mirrorRead_witness :
    (RAID1.mk exampleDisks).disks[0]? =
      (RAID1.mk [{ f := [1, 2, 3], blockSize := 2 }, { f := [8, 8], blockSize := 2 }]).disks[0]? ∧
    (RAID1.mk exampleDisks).Read 1 =
      (RAID1.mk [{ f := [1, 2, 3], blockSize := 2 }, { f := [8, 8], blockSize := 2 }]).Read 1 ∧
    ∀ d, (RAID1.mk exampleDisks).disks[0]? = some d →
      (RAID1.mk exampleDisks).Read 1 = d.ReadBlock 1 :=
  ⟨rfl, mirrorRead (RAID1.mk exampleDisks)
    (RAID1.mk [{ f := [1, 2, 3], blockSize := 2 }, { f := [8, 8], blockSize := 2 }]) 1 rfl⟩

/-! ## The rotation of the parity disk -/

/-- C16. Parity rotation is even: the parity disk RAID5.layout computes for stripe s is
s mod 5 for each of the four blocks of the stripe, the parity disk of stripe s+1 differs
from that of stripe s, and over the five consecutive stripes s..s+4 the parity disks are
a permutation of 0..4, every disk being the parity disk of exactly one of them. -/
theorem parityRotation (r : RAID5) (s : Nat) :
    (∀ i, i < 4 → (r.layout (4 * s + i)).stripe = s ∧
      (r.layout (4 * s + i)).parityDiskIdx = s % 5) ∧
    (r.layout (4 * (s + 1))).parityDiskIdx ≠ (r.layout (4 * s)).parityDiskIdx ∧
    ((List.range 5).map (fun k => (r.layout (4 * (s + k))).parityDiskIdx)).Perm
      [0, 1, 2, 3, 4] ∧
    (∀ k, k < numDisks →
      ∃ j, j < 5 ∧ (r.layout (4 * (s + j))).parityDiskIdx = k ∧
        ∀ j', j' < 5 → (r.layout (4 * (s + j'))).parityDiskIdx = k → j' = j) := by
  have hp : ∀ t, (r.layout (4 * t)).parityDiskIdx = t % 5 := by
    intro t
    simp only [RAID5.layout, numDisks, Nat.add_one_sub_one]
    omega
  refine ⟨?_, ?_, ?_, ?_⟩
  · intro i hi
    simp only [RAID5.layout, numDisks, Nat.add_one_sub_one]
    omega
  · rw [hp, hp]
    omega
  · have hr : List.range 5 = [0, 1, 2, 3, 4] := rfl
    simp only [hr, List.map_cons, List.map_nil, hp]
    have h5 : s % 5 < 5 := Nat.mod_lt s (by decide)
    have e0 : (s + 0) % 5 = s % 5 := by omega
    have e1 : (s + 1) % 5 = (s % 5 + 1) % 5 := by omega
    have e2 : (s + 2) % 5 = (s % 5 + 2) % 5 := by omega
    have e3 : (s + 3) % 5 = (s % 5 + 3) % 5 := by omega
    have e4 : (s + 4) % 5 = (s % 5 + 4) % 5 := by omega
    rw [e0, e1, e2, e3, e4]
    generalize s % 5 = m at h5
    interval_cases m <;> decide
  · intro k hk
    have hk5 : k < 5 := hk
    refine ⟨(k + 5 - s % 5) % 5, Nat.mod_lt _ (by decide), ?_, ?_⟩
    · rw [hp]
      omega
    · intro j' hj' h
      rw [hp] at h
      omega

/-! ## Reconstruction from parity -/

theorem xorColumn_perm {l1 l2 : List (List Byte)} (h : l1.Perm l2) (n : Nat) :
    xorColumn l1 n = xorColumn l2 n := by
  unfold xorColumn
  exact @List.Perm.foldl_eq Nat Nat (fun x y => x ^^^ y) _ _ _ (h.map (fun b => b.getD n 0)) 0

theorem xor_cancel3 (a x y z : Nat) : a ^^^ ((x ^^^ x) ^^^ ((y ^^^ y) ^^^ (z ^^^ z))) = a := by
  simp [Nat.xor_self]

/-- C17. Parity makes reconstruction possible: for four blocks D 0 .. D 3 of one length
with P = xorBlocks(D 0, D 1, D 2, D 3) and every i in 0..3, xorBlocks applied to P and
the three blocks D j with j other than i, in any order, returns D i. -/
theorem reconstruction (D : Nat → List Byte) (L : Nat) (P : List Byte) (i : Nat)
    (l : List (List Byte)) (hD : ∀ j, j < 4 → (D j).length = L)
    (hP : xorBlocks [D 0, D 1, D 2, D 3] = .ok P) (hi : i < 4)
    (hl : l.Perm (P :: ([0, 1, 2, 3].filter (fun j => j ≠ i)).map D)) :
    xorBlocks l = .ok (D i) := by
  -- the parity block
  obtain ⟨P', hP', hPlen, hPget⟩ := xorBlocks_eq (D 0) [D 1, D 2, D 3] (by
    intro b hb
    simp only [List.mem_cons, List.mem_singleton, List.not_mem_nil, or_false] at hb
    rcases hb with rfl | rfl | rfl
    · rw [hD 1 (by omega), hD 0 (by omega)]
    · rw [hD 2 (by omega), hD 0 (by omega)]
    · rw [hD 3 (by omega), hD 0 (by omega)])
  rw [hP] at hP'
  cases hP'
  rw [hD 0 (by omega)] at hPlen
  -- every block handed to the second call has length L
  have hmem : ∀ b ∈ l, b.length = L := by
    intro b hb
    have hb2 := hl.mem_iff.mp hb
    rcases List.mem_cons.mp hb2 with h1 | h1
    · rw [h1, hPlen]
    · obtain ⟨j, hj, rfl⟩ := List.mem_map.mp h1
      have hj4 : j < 4 := by
        have := (List.mem_filter.mp hj).1
        simp only [List.mem_cons, List.mem_singleton, List.not_mem_nil, or_false] at this
        omega
      exact hD j hj4
  cases l with
  | nil => exact absurd hl.symm (List.cons_ne_nil _ _ ∘ List.Perm.eq_nil)
  | cons b0 rest =>
    have h0 : b0.length = L := hmem b0 (by simp)
    obtain ⟨Q, hQ, hQlen, hQget⟩ := xorBlocks_eq b0 rest (by
      intro b hb
      rw [h0]
      exact hmem b (by simp [hb]))
    rw [hQ]
    congr 1
    apply eq_of_getD (by rw [hQlen, h0, hD i hi])
    intro n _
    rw [hQget n, xorColumn_perm hl n]
    have hPn := hPget n
    simp only [xorColumn, List.map_cons, List.map_nil, List.foldl_cons, List.foldl_nil,
      Nat.zero_xor] at hPn
    interval_cases i
    · have hf : [0, 1, 2, 3].filter (fun j => decide (j ≠ 0)) = [1, 2, 3] := by decide
      simp only [hf, xorColumn, List.map_cons, List.map_nil, List.foldl_cons, List.foldl_nil,
        Nat.zero_xor, hPn]
      rw [show (D 0).getD n 0 ^^^ (D 1).getD n 0 ^^^ (D 2).getD n 0 ^^^ (D 3).getD n 0 ^^^
          (D 1).getD n 0 ^^^ (D 2).getD n 0 ^^^ (D 3).getD n 0 =
        (D 0).getD n 0 ^^^ (((D 1).getD n 0 ^^^ (D 1).getD n 0) ^^^
          (((D 2).getD n 0 ^^^ (D 2).getD n 0) ^^^ ((D 3).getD n 0 ^^^ (D 3).getD n 0)))
        by ac_rfl, xor_cancel3]
    · have hf : [0, 1, 2, 3].filter (fun j => decide (j ≠ 1)) = [0, 2, 3] := by decide
      simp only [hf, xorColumn, List.map_cons, List.map_nil, List.foldl_cons, List.foldl_nil,
        Nat.zero_xor, hPn]
      rw [show (D 0).getD n 0 ^^^ (D 1).getD n 0 ^^^ (D 2).getD n 0 ^^^ (D 3).getD n 0 ^^^
          (D 0).getD n 0 ^^^ (D 2).getD n 0 ^^^ (D 3).getD n 0 =
        (D 1).getD n 0 ^^^ (((D 0).getD n 0 ^^^ (D 0).getD n 0) ^^^
          (((D 2).getD n 0 ^^^ (D 2).getD n 0) ^^^ ((D 3).getD n 0 ^^^ (D 3).getD n 0)))
        by ac_rfl, xor_cancel3]
    · have hf : [0, 1, 2, 3].filter (fun j => decide (j ≠ 2)) = [0, 1, 3] := by decide
      simp only [hf, xorColumn, List.map_cons, List.map_nil, List.foldl_cons, List.foldl_nil,
        Nat.zero_xor, hPn]
      rw [show (D 0).getD n 0 ^^^ (D 1).getD n 0 ^^^ (D 2).getD n 0 ^^^ (D 3).getD n 0 ^^^
          (D 0).getD n 0 ^^^ (D 1).getD n 0 ^^^ (D 3).getD n 0 =
        (D 2).getD n 0 ^^^ (((D 0).getD n 0 ^^^ (D 0).getD n 0) ^^^
          (((D 1).getD n 0 ^^^ (D 1).getD n 0) ^^^ ((D 3).getD n 0 ^^^ (D 3).getD n 0)))
        by ac_rfl, xor_cancel3]
    · have hf : [0, 1, 2, 3].filter (fun j => decide (j ≠ 3)) = [0, 1, 2] := by decide
      simp only [hf, xorColumn, List.map_cons, List.map_nil, List.foldl_cons, List.foldl_nil,
        Nat.zero_xor, hPn]
      rw [show (D 0).getD n 0 ^^^ (D 1).getD n 0 ^^^ (D 2).getD n 0 ^^^ (D 3).getD n 0 ^^^
          (D 0).getD n 0 ^^^ (D 1).getD n 0 ^^^ (D 2).getD n 0 =
        (D 3).getD n 0 ^^^ (((D 0).getD n 0 ^^^ (D 0).getD n 0) ^^^
          (((D 1).getD n 0 ^^^ (D 1).getD n 0) ^^^ ((D 2).getD n 0 ^^^ (D 2).getD n 0)))
        by ac_rfl, xor_cancel3]

/-- C17, witness: block 2 rebuilt from the parity and the blocks 3, 0 and 1. -/
theorem reconstruction_witness :
    (∀ j, j < 4 → (exampleBlock j).length = 2) ∧
    xorBlocks [exampleBlock 0, exampleBlock 1, exampleBlock 2, exampleBlock 3] = .ok [4, 0] ∧
    2 < 4 ∧
    [exampleBlock 3, [4, 0], exampleBlock 0, exampleBlock 1].Perm
      ([4, 0] :: ([0, 1, 2, 3].filter (fun j => j ≠ 2)).map exampleBlock) ∧
    xorBlocks [exampleBlock 3, [4, 0], exampleBlock 0, exampleBlock 1] = .ok (exampleBlock 2) :=
  ⟨fun _ _ => rfl, rfl, by decide, by decide,
    reconstruction exampleBlock 2 [4, 0] 2
      [exampleBlock 3, [4, 0], exampleBlock 0, exampleBlock 1] (fun _ _ => rfl) rfl
      (by decide) (by decide)⟩

/-! ## Failures in the middle of a write -/

theorem gatherLoop_range4_error (slot : Nat → Except Err (List Byte)) {i : Nat} {e : Err}
    (hi : i < 4) (h : slot i = .error e) :
    ∃ i0 e0, i0 ≤ i ∧ slot i0 = .error e0 ∧ (∀ j, j < i0 → ∃ blk, slot j = .ok blk) ∧
      gatherLoop slot (List.range 4) = .error e0 := by
  have hr : List.range 4 = [0, 1, 2, 3] := rfl
  rcases h0 : slot 0 with e0 | b0
  · exact ⟨0, e0, by omega, h0, fun j hj => absurd hj (by omega), by simp [hr, gatherLoop, h0]⟩
  · have n0 : i ≠ 0 := by
      rintro rfl
      rw [h0] at h
      cases h
    rcases h1 : slot 1 with e1 | b1
    · refine ⟨1, e1, by omega, h1, ?_, by simp [hr, gatherLoop, h0, h1]⟩
      intro j hj
      have hj0 : j = 0 := by omega
      subst hj0
      exact ⟨b0, h0⟩
    · have n1 : i ≠ 1 := by
        rintro rfl
        rw [h1] at h
        cases h
      rcases h2 : slot 2 with e2 | b2
      · refine ⟨2, e2, by omega, h2, ?_, by simp [hr, gatherLoop, h0, h1, h2]⟩
        intro j hj
        have hj0 : j = 0 ∨ j = 1 := by omega
        rcases hj0 with rfl | rfl
        · exact ⟨b0, h0⟩
        · exact ⟨b1, h1⟩
      · have n2 : i ≠ 2 := by
          rintro rfl
          rw [h2] at h
          cases h
        have i3 : i = 3 := by omega
        subst i3
        refine ⟨3, e, by omega, h, ?_, by simp [hr, gatherLoop, h0, h1, h2, h]⟩
        intro j hj
        have hj0 : j = 0 ∨ j = 1 ∨ j = 2 := by omega
        rcases hj0 with rfl | rfl | rfl
        · exact ⟨b0, h0⟩
        · exact ⟨b1, h1⟩
        · exact ⟨b2, h2⟩

theorem Disk.ReadBlock_ne_panic (d : Disk) (s : Nat) :
    d.ReadBlock s ≠ .error .indexOutOfRange := by
  unfold Disk.ReadBlock
  simp only []
  split <;> simp

theorem readDisk_ne_panic {disks : List Disk} {k : Nat} (hk : k < disks.length) (s : Nat) :
    readDisk disks k s ≠ .error .indexOutOfRange := by
  unfold readDisk
  rw [List.getElem?_eq_getElem hk]
  exact Disk.ReadBlock_ne_panic _ s

theorem stripeWrite_sibling_error {disks : List Disk} (hlen : disks.length = numDisks)
    {pp di i : Nat} (stripe : Nat) (data : List Byte) {e : Err} (hi : i < 4) (hne : i ≠ di)
    (h : readDisk disks (slotDisk pp i) stripe = .error e) :
    ∃ i0 e0, i0 ≤ i ∧ i0 ≠ di ∧ readDisk disks (slotDisk pp i0) stripe = .error e0 ∧
      (∀ j, j < i0 → j ≠ di → ∃ blk, readDisk disks (slotDisk pp j) stripe = .ok blk) ∧
      e0 ≠ .indexOutOfRange ∧ stripeWrite disks pp di stripe data = (disks, some e0) := by
  have hs : (fun j => if j = di then Except.ok data
      else readDisk disks (slotDisk pp j) stripe) i = .error e := by
    simp only [if_neg hne, h]
  obtain ⟨i0, e0, hle, herr, hbefore, hg⟩ := gatherLoop_range4_error
    (fun j => if j = di then Except.ok data else readDisk disks (slotDisk pp j) stripe) hi hs
  have hi0 : i0 ≠ di := by
    intro hh
    simp only [hh, if_true] at herr
    cases herr
  simp only [if_neg hi0] at herr
  refine ⟨i0, e0, hle, hi0, herr, ?_, ?_, ?_⟩
  · intro j hj hjne
    obtain ⟨blk, hblk⟩ := hbefore j hj
    simp only [if_neg hjne] at hblk
    exact ⟨blk, hblk⟩
  · intro hh
    rw [hh] at herr
    exact readDisk_ne_panic (by rw [hlen]; exact slotDisk_lt (by omega)) stripe herr
  · unfold stripeWrite
    simp only [hg]

/-- C14. Parity-scheme write aborts before mutation on a sibling read failure: for
RAID4.Write and RAID5.Write on an array of five stores, if the read of a data slot other
than the target slot fails, then Write returns the error of the first such read (the
failing slot of lowest index, the slots before it having been read) and leaves the
array, hence the contents of all five stores, exactly as it was. -/
theorem siblingReadFailure (r : RAID) (b : Nat) (data : List Byte) (i : Nat) (e : Err)
    (hp : r.hasParity = true) (hdisks : r.disks.length = numDisks) (hi : i < 4)
    (hne : i ≠ b % 4) (hfail : readDisk r.disks (siblingDisk r b i) (b / 4) = .error e) :
    ∃ i0 e0, i0 ≤ i ∧ i0 ≠ b % 4 ∧
      readDisk r.disks (siblingDisk r b i0) (b / 4) = .error e0 ∧
      (∀ j, j < i0 → j ≠ b % 4 →
        ∃ blk, readDisk r.disks (siblingDisk r b j) (b / 4) = .ok blk) ∧
      e0 ≠ .indexOutOfRange ∧ r.Write b data = (r, some e0) := by
  cases r with
  | raid0 r0 => simp [RAID.hasParity] at hp
  | raid1 r1 => simp [RAID.hasParity] at hp
  | raid4 r4 =>
    have h4 : ∀ j, j < 4 → slotDisk 4 j = j := fun j hj => slotDisk_four hj
    have hfail2 : readDisk r4.disks (slotDisk 4 i) (b / 4) = .error e := by
      rw [h4 i hi]; exact hfail
    obtain ⟨i0, e0, hle, hi0, herr, hbefore, hnp, hw⟩ :=
      stripeWrite_sibling_error hdisks (b / 4) data hi hne hfail2
    refine ⟨i0, e0, hle, hi0, ?_, ?_, hnp, ?_⟩
    · rw [h4 i0 (by omega)] at herr
      exact herr
    · intro j hj hjne
      obtain ⟨blk, hblk⟩ := hbefore j hj hjne
      rw [h4 j (by omega)] at hblk
      exact ⟨blk, hblk⟩
    · have hw2 : stripeWrite r4.disks 4 (b % 4) (b / 4) data = (r4.disks, some e0) := hw
      simp only [RAID.Write, RAID4_Write_eq, hw2]
  | raid5 r5 =>
    obtain ⟨i0, e0, hle, hi0, herr, hbefore, hnp, hw⟩ :=
      stripeWrite_sibling_error hdisks (b / 4) data hi hne hfail
    refine ⟨i0, e0, hle, hi0, herr, hbefore, hnp, ?_⟩
    have hw2 : stripeWrite r5.disks (b / 4 % 5) (b % 4) (b / 4) data = (r5.disks, some e0) := hw
    simp only [RAID.Write, RAID5_Write_eq, hw2]

/-- C14, witness: block 2^53 of a fresh RAID 4 array of block size 4096, whose stripe 2^51
has a negative byte offset on every store. -/
theorem siblingReadFailure_witness :
    (RAID.raid4 { disks := freshDisks blockSize }).hasParity = true ∧
    (RAID.raid4 { disks := freshDisks blockSize }).disks.length = numDisks ∧
    1 < 4 ∧ 1 ≠ 2 ^ 53 % 4 ∧
    readDisk (RAID.raid4 { disks := freshDisks blockSize }).disks
      (siblingDisk (.raid4 { disks := freshDisks blockSize }) (2 ^ 53) 1) (2 ^ 53 / 4) =
        .error (.invalidOffset (-(2 ^ 63))) ∧
    ∃ i0 e0, i0 ≤ 1 ∧ i0 ≠ 2 ^ 53 % 4 ∧
      readDisk (RAID.raid4 { disks := freshDisks blockSize }).disks
        (siblingDisk (.raid4 { disks := freshDisks blockSize }) (2 ^ 53) i0) (2 ^ 53 / 4) =
          .error e0 ∧
      (∀ j, j < i0 → j ≠ 2 ^ 53 % 4 →
        ∃ blk, readDisk (RAID.raid4 { disks := freshDisks blockSize }).disks
          (siblingDisk (.raid4 { disks := freshDisks blockSize }) (2 ^ 53) j) (2 ^ 53 / 4) =
            .ok blk) ∧
      e0 ≠ .indexOutOfRange ∧
      (RAID.raid4 { disks := freshDisks blockSize }).Write (2 ^ 53) [1, 2] =
        (.raid4 { disks := freshDisks blockSize }, some e0) :=
  ⟨rfl, rfl, by decide, by decide, rfl,
    siblingReadFailure (.raid4 { disks := freshDisks blockSize }) (2 ^ 53) [1, 2] 1
      (.invalidOffset (-(2 ^ 63))) rfl rfl (by decide) (by decide) (by rfl)⟩

theorem RAID1.writeLoop_fails (b : Nat) (X : List Byte) : ∀ (disks : List Disk) (k : Nat)
    (d : Disk) (e : Err),
    (∀ j, j < k → ∃ dj dj', disks[j]? = some dj ∧ dj.WriteBlock b X = .ok dj') →
    disks[k]? = some d → d.WriteBlock b X = .error e →
    (RAID1.writeLoop b X disks).2 = some e ∧
    (RAID1.writeLoop b X disks).1.length = disks.length ∧
    (∀ j, j < k → readDisk (RAID1.writeLoop b X disks).1 j b = .ok X) ∧
    (∀ j, k ≤ j → (RAID1.writeLoop b X disks).1[j]? = disks[j]?)
  | [], k, d, e, _, hk, _ => by simp at hk
  | d0 :: rest, 0, d, e, _, hk, hfail => by
    simp only [List.getElem?_cons_zero, Option.some.injEq] at hk
    subst hk
    have hrun : RAID1.writeLoop b X (d0 :: rest) = (d0 :: rest, some e) := by
      unfold RAID1.writeLoop
      simp only [hfail]
    rw [hrun]
    exact ⟨rfl, rfl, fun j hj => absurd hj (by omega), fun j _ => rfl⟩
  | d0 :: rest, k + 1, d, e, hpre, hk, hfail => by
    obtain ⟨dj, dj', h0, hw0⟩ := hpre 0 (by omega)
    simp only [List.getElem?_cons_zero, Option.some.injEq] at h0
    subst h0
    have ih := RAID1.writeLoop_fails b X rest k d e
      (fun j hj => by
        obtain ⟨a, a', ha, hwa⟩ := hpre (j + 1) (by omega)
        exact ⟨a, a', by simpa using ha, hwa⟩)
      (by simpa using hk) hfail
    unfold RAID1.writeLoop
    simp only [hw0]
    refine ⟨ih.1, by simp [ih.2.1], ?_, ?_⟩
    · intro j hj
      cases j with
      | zero =>
        simp only [readDisk, List.getElem?_cons_zero]
        exact Disk.ReadBlock_WriteBlock hw0
      | succ j =>
        have := ih.2.2.1 j (by omega)
        simpa [readDisk] using this
    · intro j hj
      cases j with
      | zero => omega
      | succ j =>
        have := ih.2.2.2 j (by omega)
        simpa using this

theorem Disk.WriteBlockUnder_ok {fault : WriteFault} {d d' : Disk} {b : Nat} {X : List Byte}
    (h : d.WriteBlockUnder fault b X = (d', none)) : d.WriteBlock b X = .ok d' := by
  unfold Disk.WriteBlockUnder at h
  unfold Disk.WriteBlock
  by_cases hlen : X.length = d.blockSize
  · by_cases hoff : d.offset b < 0
    · simp [hlen, hoff] at h
    · cases fault with
      | none =>
        simp only [hlen, ne_eq, not_true_eq_false, if_false, hoff, Prod.mk.injEq,
          and_true] at h ⊢
        rw [h]
      | seek errno => simp [hlen, hoff] at h
      | write written errno => simp [hlen, hoff] at h
      | sync errno => simp [hlen, hoff] at h
  · simp [hlen] at h

theorem Disk.WriteBlockUnder_none (d : Disk) (b : Nat) (X : List Byte) :
    d.WriteBlockUnder .none b X =
      (match d.WriteBlock b X with
        | .ok d' => (d', none)
        | .error e => (d, some e)) := by
  unfold Disk.WriteBlockUnder Disk.WriteBlock
  by_cases hlen : X.length = d.blockSize
  · by_cases hoff : d.offset b < 0
    · simp [hlen, hoff]
    · simp [hlen, hoff]
  · simp [hlen]

theorem RAID1.writeLoopUnder_none (b : Nat) (X : List Byte) : ∀ (i : Nat) (disks : List Disk),
    RAID1.writeLoopUnder (fun _ => .none) b X i disks = RAID1.writeLoop b X disks
  | _, [] => rfl
  | i, d :: rest => by
    unfold RAID1.writeLoopUnder RAID1.writeLoop
    rw [Disk.WriteBlockUnder_none]
    cases d.WriteBlock b X with
    | error e => rfl
    | ok d' =>
      simp only []
      rw [RAID1.writeLoopUnder_none b X (i + 1) rest]

theorem RAID1.WriteUnder_none (r : RAID1) (b : Nat) (X : List Byte) :
    r.WriteUnder (fun _ => .none) b X = r.Write b X := by
  unfold RAID1.WriteUnder RAID1.Write
  rw [RAID1.writeLoopUnder_none]

theorem RAID1.writeLoopUnder_fails (faults : Nat → WriteFault) (b : Nat) (X : List Byte) :
    ∀ (disks : List Disk) (i0 k : Nat) (d d' : Disk) (e : Err),
    (∀ j, j < k → ∃ dj dj', disks[j]? = some dj ∧
      dj.WriteBlockUnder (faults (i0 + j)) b X = (dj', none)) →
    disks[k]? = some d → d.WriteBlockUnder (faults (i0 + k)) b X = (d', some e) →
    (RAID1.writeLoopUnder faults b X i0 disks).2 = some e ∧
    (RAID1.writeLoopUnder faults b X i0 disks).1.length = disks.length ∧
    (∀ j, j < k → readDisk (RAID1.writeLoopUnder faults b X i0 disks).1 j b = .ok X) ∧
    (RAID1.writeLoopUnder faults b X i0 disks).1[k]? = some d' ∧
    (∀ j, k < j → (RAID1.writeLoopUnder faults b X i0 disks).1[j]? = disks[j]?)
  | [], i0, k, d, d', e, _, hk, _ => by simp at hk
  | d0 :: rest, i0, 0, d, d', e, _, hk, hfail => by
    simp only [List.getElem?_cons_zero, Option.some.injEq] at hk
    subst hk
    have hrun : RAID1.writeLoopUnder faults b X i0 (d0 :: rest) = (d' :: rest, some e) := by
      unfold RAID1.writeLoopUnder
      rw [Nat.add_zero] at hfail
      simp only [hfail]
    rw [hrun]
    refine ⟨rfl, rfl, fun j hj => absurd hj (by omega), by simp, ?_⟩
    intro j hj
    cases j with
    | zero => omega
    | succ j => simp
  | d0 :: rest, i0, k + 1, d, d', e, hpre, hk, hfail => by
    obtain ⟨dj, dj', h0, hw0⟩ := hpre 0 (by omega)
    simp only [List.getElem?_cons_zero, Option.some.injEq] at h0
    subst h0
    rw [Nat.add_zero] at hw0
    have ih := RAID1.writeLoopUnder_fails faults b X rest (i0 + 1) k d d' e
      (fun j hj => by
        obtain ⟨a, a', ha, hwa⟩ := hpre (j + 1) (by omega)
        refine ⟨a, a', by simpa using ha, ?_⟩
        rw [show i0 + 1 + j = i0 + (j + 1) by omega]
        exact hwa)
      (by simpa using hk)
      (by rw [show i0 + 1 + k = i0 + (k + 1) by omega]; exact hfail)
    have hrun : RAID1.writeLoopUnder faults b X i0 (d0 :: rest) =
        (dj' :: (RAID1.writeLoopUnder faults b X (i0 + 1) rest).1,
          (RAID1.writeLoopUnder faults b X (i0 + 1) rest).2) := by
      conv => lhs; unfold RAID1.writeLoopUnder
      simp only [hw0]
    rw [hrun]
    refine ⟨ih.1, by simp [ih.2.1], ?_, ?_, ?_⟩
    · intro j hj
      cases j with
      | zero =>
        simp only [readDisk, List.getElem?_cons_zero]
        exact Disk.ReadBlock_WriteBlock (Disk.WriteBlockUnder_ok hw0)
      | succ j =>
        have := ih.2.2.1 j (by omega)
        simpa [readDisk] using this
    · simpa using ih.2.2.2.1
    · intro j hj
      cases j with
      | zero => omega
      | succ j =>
        have := ih.2.2.2.2 j (by omega)
        simpa using this

/-- C15. Mirroring write fails fast without rollback: whatever the operating system does
to the calls of each store, if in RAID1.Write(b, X) the write to store k is the first one
to fail, then Write returns that error, the stores before k hold X at block b, store k is
as its failed write left it, and every store after k is left exactly as it was (its
write is never attempted). When no operating-system call fails this is RAID1.Write of
the source model. -/
theorem mirrorWriteFailure (r : RAID1) (b : Nat) (X : List Byte) (faults : Nat → WriteFault)
    (k : Nat) (d d' : Disk) (e : Err)
    (hpre : ∀ j, j < k → ∃ dj dj', r.disks[j]? = some dj ∧
      dj.WriteBlockUnder (faults j) b X = (dj', none))
    (hk : r.disks[k]? = some d) (hfail : d.WriteBlockUnder (faults k) b X = (d', some e)) :
    (r.WriteUnder faults b X).2 = some e ∧
    (r.WriteUnder faults b X).1.disks.length = r.disks.length ∧
    (∀ j, j < k → readDisk (r.WriteUnder faults b X).1.disks j b = .ok X) ∧
    (r.WriteUnder faults b X).1.disks[k]? = some d' ∧
    (∀ j, k < j → (r.WriteUnder faults b X).1.disks[j]? = r.disks[j]?) ∧
    r.WriteUnder (fun _ => .none) b X = r.Write b X := by
  have h := RAID1.writeLoopUnder_fails faults b X r.disks 0 k d d' e
    (fun j hj => by rw [Nat.zero_add]; exact hpre j hj) hk
    (by rw [Nat.zero_add]; exact hfail)
  exact ⟨h.1, h.2.1, h.2.2.1, h.2.2.2.1, h.2.2.2.2, RAID1.WriteUnder_none r b X⟩

/-- C15, witness: a block of the block size written to the array NewRAID creates for
level 1, the write to store 2 running out of space after one byte. -/
theorem mirrorWriteFailure_witness :
    NewRAID "1" "raid1_test" 2 emptyFS =
      ((NewRAID "1" "raid1_test" 2 emptyFS).1, .ok (.raid1 { disks := freshDisks 2 })) ∧
    [7, 9].length = 2 ∧
    (∀ j, j < 2 → ∃ dj dj', (RAID1.mk (freshDisks 2)).disks[j]? = some dj ∧
      dj.WriteBlockUnder (spaceRunsOutAtStore2 j) 3 [7, 9] = (dj', none)) ∧
    (RAID1.mk (freshDisks 2)).disks[2]? = some { f := [], blockSize := 2 } ∧
    Disk.WriteBlockUnder (spaceRunsOutAtStore2 2) { f := [], blockSize := 2 } 3 [7, 9] =
      ({ f := [0, 0, 0, 0, 0, 0, 7], blockSize := 2 }, some (.osError 28)) ∧
    ((RAID1.mk (freshDisks 2)).WriteUnder spaceRunsOutAtStore2 3 [7, 9]).2 =
      some (.osError 28) ∧
    (∀ j, j < 2 →
      readDisk ((RAID1.mk (freshDisks 2)).WriteUnder spaceRunsOutAtStore2 3 [7, 9]).1.disks j 3 =
        .ok [7, 9]) ∧
    ((RAID1.mk (freshDisks 2)).WriteUnder spaceRunsOutAtStore2 3 [7, 9]).1.disks[2]? =
      some { f := [0, 0, 0, 0, 0, 0, 7], blockSize := 2 } ∧
    (∀ j, 2 < j →
      ((RAID1.mk (freshDisks 2)).WriteUnder spaceRunsOutAtStore2 3 [7, 9]).1.disks[j]? =
        (RAID1.mk (freshDisks 2)).disks[j]?) :=
  have hpre : ∀ j, j < 2 → ∃ dj dj', (RAID1.mk (freshDisks 2)).disks[j]? = some dj ∧
      dj.WriteBlockUnder (spaceRunsOutAtStore2 j) 3 [7, 9] = (dj', none) := by
    intro j hj
    interval_cases j
    · exact ⟨_, _, rfl, rfl⟩
    · exact ⟨_, _, rfl, rfl⟩
  have h := mirrorWriteFailure (RAID1.mk (freshDisks 2)) 3 [7, 9] spaceRunsOutAtStore2 2
    { f := [], blockSize := 2 } { f := [0, 0, 0, 0, 0, 0, 7], blockSize := 2 } (.osError 28)
    hpre rfl rfl
  ⟨rfl, rfl, hpre, rfl, rfl, h.1, h.2.2.1, h.2.2.2.1, h.2.2.2.2.1⟩

/-! ## Writes and the blocks they do not address -/

theorem blockAt_congr {f g : List Byte} {p n : Nat}
    (h : ∀ i, i < n → byteAt f (p + i) = byteAt g (p + i)) : blockAt f p n = blockAt g p n := by
  apply eq_of_getD (by rw [length_blockAt, length_blockAt])
  intro i hi
  rw [length_blockAt] at hi
  rw [getD_blockAt, getD_blockAt, if_pos hi, if_pos hi, h i hi]

theorem readDisk_frame {bs : Nat} {disks disks' : List Disk} (hwf : WF bs disks)
    (hwf' : WF bs disks') {k : Nat} (hk : k < 5) (s : Nat) (hoff : 0 ≤ blockPos bs s)
    (h : ∀ i, i < bs → diskByte disks' k ((blockPos bs s).toNat + i) =
      diskByte disks k ((blockPos bs s).toNat + i)) :
    readDisk disks' k s = readDisk disks k s := by
  rw [readDisk_eq hwf hk s hoff, readDisk_eq hwf' hk s hoff]
  congr 1
  exact blockAt_congr h

theorem blockPos_toNat {bs s : Nat} (h : (s : Int) * (bs : Int) < 2 ^ 63) :
    (blockPos bs s).toNat = s * bs := by
  rw [blockPos_of_lt h]
  exact_mod_cast Int.toNat_natCast (s * bs)

theorem ranges_disjoint {bs s s' i : Nat} (hne : s ≠ s') (hi : i < bs) :
    ¬ (s * bs ≤ s' * bs + i ∧ s' * bs + i < s * bs + bs) := by
  rcases Nat.lt_or_gt_of_ne hne with h | h
  · have h1 : (s + 1) * bs ≤ s' * bs := Nat.mul_le_mul_right bs h
    rw [Nat.succ_mul] at h1
    omega
  · have h1 : (s' + 1) * bs ≤ s * bs := Nat.mul_le_mul_right bs h
    rw [Nat.succ_mul] at h1
    omega

theorem writeDisk_spec {bs : Nat} {disks disks' : List Disk} (hwf : WF bs disks) {k : Nat}
    (hk : k < 5) {s : Nat} {data : List Byte} (h : writeDisk disks k s data = (disks', none)) :
    data.length = bs ∧ 0 ≤ blockPos bs s ∧ WF bs disks' ∧
    ∀ k' j, diskByte disks' k' j =
      if k' = k ∧ (blockPos bs s).toNat ≤ j ∧ j < (blockPos bs s).toNat + bs
      then data.getD (j - (blockPos bs s).toNat) 0 else diskByte disks k' j := by
  obtain ⟨d, d', hd, hw, rfl⟩ := writeDisk_ok h
  obtain ⟨hlen, hoff, rfl⟩ := Disk.WriteBlock_ok hw
  obtain ⟨d2, hd2, hbs, hf⟩ := hwf.getElem? hk
  rw [hd] at hd2
  cases hd2
  have ho : d.offset s = blockPos bs s := by unfold Disk.offset blockPos; rw [hbs]
  rw [hbs] at hlen
  rw [ho] at hoff
  refine ⟨hlen, hoff, ?_, ?_⟩
  · rw [hbs]
    exact hwf.set k _
  · intro k' j
    unfold diskByte
    rw [diskFile_set]
    have hl : k < disks.length := by rw [hwf.1]; exact hk
    by_cases hkk : k' = k
    · subst hkk
      simp only [hl, and_self, if_true, true_and]
      rw [byteAt_fileWrite, ho, hf, hlen]
    · have hkk2 : ¬ (k = k' ∧ k < disks.length) := fun hh => hkk hh.1.symm
      rw [if_neg hkk2]
      simp only [hkk, false_and, if_false]

theorem RAID1.writeLoop_frame (bs b : Nat) (X : List Byte) : ∀ (disks disks' : List Disk),
    (∀ d ∈ disks, d.blockSize = bs) → RAID1.writeLoop b X disks = (disks', none) →
    disks'.length = disks.length ∧ (∀ d ∈ disks', d.blockSize = bs) ∧
    ∀ k j, ¬ ((blockPos bs b).toNat ≤ j ∧ j < (blockPos bs b).toNat + X.length) →
      diskByte disks' k j = diskByte disks k j
  | [], disks', _, h => by
    simp [RAID1.writeLoop] at h
    subst h
    exact ⟨rfl, by simp, fun _ _ _ => rfl⟩
  | d :: rest, disks', hbs, h => by
    unfold RAID1.writeLoop at h
    cases hw : d.WriteBlock b X with
    | error e => simp [hw] at h
    | ok d1 =>
      simp only [hw, Prod.mk.injEq] at h
      obtain ⟨ih1, ih2, ih3⟩ := RAID1.writeLoop_frame bs b X rest
        (RAID1.writeLoop b X rest).1 (fun d' hd' => hbs d' (by simp [hd'])) (Prod.ext rfl h.2)
      obtain ⟨_, _, rfl⟩ := Disk.WriteBlock_ok hw
      have hdbs : d.blockSize = bs := hbs d (by simp)
      have ho : d.offset b = blockPos bs b := by unfold Disk.offset blockPos; rw [hdbs]
      rw [← h.1]
      refine ⟨by simp [ih1], ?_, ?_⟩
      · intro d' hd'
        rcases List.mem_cons.mp hd' with h1 | h1
        · rw [h1]; exact hdbs
        · exact ih2 d' h1
      · intro k j hj
        cases k with
        | zero =>
          simp only [diskByte, diskFile, List.getElem?_cons_zero]
          rw [byteAt_fileWrite, ho, if_neg hj]
        | succ k =>
          have := ih3 k j hj
          simpa [diskByte, diskFile] using this

theorem stripeWrite_frame {bs : Nat} {disks disks' : List Disk} (hwf : WF bs disks)
    {pp di s : Nat} {X : List Byte} (hpp : pp < 5) (hdi : di < 4)
    (hw : stripeWrite disks pp di s X = (disks', none)) {pp' di' : Nat} (s' : Nat)
    (hdi' : di' < 4) (hsame : s' = s → pp' = pp) (hne : ¬ (s' = s ∧ di' = di))
    (hs : (s : Int) * (bs : Int) < 2 ^ 63) (hs' : (s' : Int) * (bs : Int) < 2 ^ 63) :
    readDisk disks' (slotDisk pp' di') s' = readDisk disks (slotDisk pp' di') s' := by
  obtain ⟨hlen, hoff⟩ := stripeWrite_ok hwf hdi hw
  obtain ⟨ds, hrun, hwf', hframe, hother, _, _⟩ := stripeWrite_spec hwf s hpp hdi hlen hoff
  rw [hw] at hrun
  cases hrun
  have hoff' : 0 ≤ blockPos bs s' := blockPos_nonneg_of_le (Nat.le_refl s') hs'
  apply readDisk_frame hwf hwf' (slotDisk_lt hdi') s' hoff'
  intro i hi
  by_cases hss : s' = s
  · have hpp2 : pp' = pp := hsame hss
    subst hpp2
    have hd : di' ≠ di := fun h => hne ⟨hss, h⟩
    exact hother _ _ (fun h => hd (slotDisk_inj h)) (slotDisk_ne_parity pp' di')
  · apply hframe
    rw [blockPos_toNat hs, blockPos_toNat hs']
    exact ranges_disjoint (fun h => hss h.symm) hi

theorem RAID1.writeLoop_length {b : Nat} {X : List Byte} {d : Disk} {rest disks' : List Disk}
    (h : RAID1.writeLoop b X (d :: rest) = (disks', none)) : X.length = d.blockSize := by
  unfold RAID1.writeLoop at h
  cases hw : d.WriteBlock b X with
  | error e => simp [hw] at h
  | ok d1 => exact (Disk.WriteBlock_ok hw).1

/-- C18, counterexample: on a fresh RAID 1 array of block size 4096 the successful write
of block 2^52 changes what the read of block 0 returns, the byte offset 2^52 * 4096 = 2^64
wrapping to 0 in 64 bits. -/
theorem writeIsolation_counterexample :
    (2 ^ 52 : Nat) ≠ 0 ∧ (List.replicate blockSize (1 : Byte)).length = blockSize ∧
    (RAID.raid1 { disks := freshDisks blockSize }).Read 0 =
      .ok (List.replicate blockSize 0) ∧
    ∃ r', (RAID.raid1 { disks := freshDisks blockSize }).Write (2 ^ 52)
        (List.replicate blockSize 1) = (r', none) ∧
      r'.Read 0 = .ok (List.replicate blockSize 1) ∧
      r'.Read 0 ≠ (RAID.raid1 { disks := freshDisks blockSize }).Read 0 := by
  have hpos : blockSize ≠ 0 := by decide
  have h52 : blockPos blockSize (2 ^ 52) = 0 := by
    unfold blockPos toInt64 blockSize
    norm_num
  have h00 : blockPos blockSize 0 = 0 := by
    unfold blockPos toInt64
    norm_num
  generalize blockSize = bs at hpos h52 h00 ⊢
  have hwf := WF_freshDisks bs
  have hX : (List.replicate bs (1 : Byte)).length = bs := List.length_replicate _ _
  have hoff : 0 ≤ blockPos bs (2 ^ 52) := by rw [h52]
  have hread0 : RAID.Read (.raid1 { disks := freshDisks bs }) 0 =
      .ok (List.replicate bs 0) :=
    @readDisk_freshDisks bs 0 (by omega) 0 (by rw [h00])
  obtain ⟨disks', h⟩ := RAID1.writeLoop_succeeds bs (2 ^ 52) _ hX hoff (freshDisks bs) hwf.2
  obtain ⟨hl1, hl2⟩ := RAID1.writeLoop_ok (2 ^ 52) _ (freshDisks bs) disks' h
  obtain ⟨_, hbs', _⟩ := RAID1.writeLoop_frame bs (2 ^ 52) _ (freshDisks bs) disks' hwf.2 h
  have hlen : 0 < disks'.length := by rw [hl1]; simp [freshDisks, numDisks]
  have hd0 : disks'[0].ReadBlock 0 = .ok (List.replicate bs 1) := by
    have h1 := hl2 _ (List.getElem_mem hlen)
    have hb : disks'[0].blockSize = bs := hbs' _ (List.getElem_mem hlen)
    have ho : disks'[0].offset 0 = disks'[0].offset (2 ^ 52) := by
      show blockPos disks'[0].blockSize 0 = blockPos disks'[0].blockSize (2 ^ 52)
      rw [hb, h52, h00]
    unfold Disk.ReadBlock at h1 ⊢
    rw [ho]
    exact h1
  have hread : RAID.Read (.raid1 { disks := disks' }) 0 = .ok (List.replicate bs 1) := by
    show readDisk disks' 0 0 = _
    unfold readDisk
    rw [List.getElem?_eq_getElem hlen]
    exact hd0
  refine ⟨by decide, hX, hread0, .raid1 { disks := disks' }, ?_, hread, ?_⟩
  · simp only [RAID.Write, RAID1.Write, h]
  · rw [hread, hread0]
    intro hh
    have h2 := (List.replicate_right_inj hpos).mp (Except.ok.inj hh)
    exact absurd h2 (by decide)

/-- C18, amended. Write isolation: on an array of five stores of one block size, for two
distinct logical block numbers b and b' whose physical blocks have byte offsets below
2^63, a successful Write(b, X) does not change the result of Read(b'); the layouts of
RAID 5, RAID 0 and RAID 4 map b and b' to distinct (store, physical block) locations, and
the parity location of the stripe of b is not the data location of b'. -/
theorem writeIsolation (bs : Nat) (r r' : RAID) (b b' : Nat) (X : List Byte)
    (hwf : WF bs r.disks) (hne : b ≠ b')
    (hb : (r.physicalBlock b : Int) * (bs : Int) < 2 ^ 63)
    (hb' : (r.physicalBlock b' : Int) * (bs : Int) < 2 ^ 63)
    (hw : r.Write b X = (r', none)) :
    r'.Read b' = r.Read b' ∧
    (∀ r5 : RAID5,
      ((r5.layout b).dataDiskIdx, (r5.layout b).diskBlock) ≠
        ((r5.layout b').dataDiskIdx, (r5.layout b').diskBlock) ∧
      ((r5.layout b).parityDiskIdx, (r5.layout b).diskBlock) ≠
        ((r5.layout b').dataDiskIdx, (r5.layout b').diskBlock)) ∧
    ((b % numDisks, b / numDisks) ≠ (b' % numDisks, b' / numDisks) ∧
      (b % 4, b / 4) ≠ (b' % 4, b' / 4) ∧ (4, b / 4) ≠ (b' % 4, b' / 4)) := by
  refine ⟨?_, ?_, ?_⟩
  · cases r with
    | raid0 r0 =>
      cases r' with
      | raid0 r0' =>
        simp only [RAID.Write, RAID0.Write, Prod.mk.injEq, RAID.raid0.injEq] at hw
        have hwd : writeDisk r0.disks (b % numDisks) (b / numDisks) X = (r0'.disks, none) := by
          rw [← hw.1]
          exact Prod.ext rfl hw.2
        have hk : b % numDisks < 5 := Nat.mod_lt b (by decide)
        have hk' : b' % numDisks < 5 := Nat.mod_lt b' (by decide)
        have hwf : WF bs r0.disks := hwf
        have hb : ((b / numDisks : Nat) : Int) * (bs : Int) < 2 ^ 63 := hb
        have hb' : ((b' / numDisks : Nat) : Int) * (bs : Int) < 2 ^ 63 := hb'
        obtain ⟨hlen, hoff, hwf', hbyte⟩ := writeDisk_spec hwf hk hwd
        have hoff' : 0 ≤ blockPos bs (b' / numDisks) :=
          blockPos_nonneg_of_le (Nat.le_refl _) hb'
        show readDisk r0'.disks (b' % numDisks) (b' / numDisks) =
          readDisk r0.disks (b' % numDisks) (b' / numDisks)
        apply readDisk_frame hwf hwf' hk' _ hoff'
        intro i hi
        rw [hbyte, if_neg]
        rintro ⟨hkk, hrange⟩
        have hs : b / numDisks ≠ b' / numDisks := by
          intro hh
          apply hne
          have e1 := Nat.div_add_mod b numDisks
          have e2 := Nat.div_add_mod b' numDisks
          rw [hh, ← hkk] at e1
          omega
        rw [blockPos_toNat hb, blockPos_toNat hb'] at hrange
        exact ranges_disjoint hs hi hrange
      | _ => simp [RAID.Write] at hw
    | raid1 r1 =>
      cases r' with
      | raid1 r1' =>
        simp only [RAID.Write, RAID1.Write, Prod.mk.injEq, RAID.raid1.injEq] at hw
        have hwl : RAID1.writeLoop b X r1.disks = (r1'.disks, none) := by
          rw [← hw.1]
          exact Prod.ext rfl hw.2
        have hwf : WF bs r1.disks := hwf
        have hb : (b : Int) * (bs : Int) < 2 ^ 63 := hb
        have hb' : (b' : Int) * (bs : Int) < 2 ^ 63 := hb'
        obtain ⟨hl, hbs', hframe⟩ := RAID1.writeLoop_frame bs b X r1.disks r1'.disks hwf.2 hwl
        have hwf' : WF bs r1'.disks := ⟨by rw [hl]; exact hwf.1, hbs'⟩
        have hXlen : X.length = bs := by
          obtain ⟨ds⟩ := r1
          cases ds with
          | nil => exact absurd hwf.1 (by simp [numDisks])
          | cons d rest =>
            rw [RAID1.writeLoop_length hwl]
            exact hwf.2 d (by simp)
        have hoff' : 0 ≤ blockPos bs b' := blockPos_nonneg_of_le (Nat.le_refl _) hb'
        show readDisk r1'.disks 0 b' = readDisk r1.disks 0 b'
        apply readDisk_frame hwf hwf' (by omega) _ hoff'
        intro i hi
        apply hframe
        rw [hXlen, blockPos_toNat hb, blockPos_toNat hb']
        exact ranges_disjoint hne hi
      | _ => simp [RAID.Write] at hw
    | raid4 r4 =>
      cases r' with
      | raid4 r4' =>
        simp only [RAID.Write, RAID4_Write_eq, Prod.mk.injEq, RAID.raid4.injEq] at hw
        have hws : stripeWrite r4.disks 4 (b % 4) (b / 4) X = (r4'.disks, none) := by
          rw [← hw.1]
          exact Prod.ext rfl hw.2
        have hfr := @stripeWrite_frame bs r4.disks r4'.disks hwf 4 (b % 4) (b / 4) X
          (by omega) (Nat.mod_lt b (by decide)) hws 4 (b' % 4) (b' / 4)
          (Nat.mod_lt b' (by decide)) (fun _ => rfl) (by omega) hb hb'
        rw [slotDisk_four (Nat.mod_lt b' (by decide))] at hfr
        exact hfr
      | _ => simp [RAID.Write] at hw
    | raid5 r5 =>
      cases r' with
      | raid5 r5' =>
        simp only [RAID.Write, RAID5_Write_eq, Prod.mk.injEq, RAID.raid5.injEq] at hw
        have hws : stripeWrite r5.disks (b / 4 % 5) (b % 4) (b / 4) X = (r5'.disks, none) := by
          rw [← hw.1]
          exact Prod.ext rfl hw.2
        exact @stripeWrite_frame bs r5.disks r5'.disks hwf (b / 4 % 5) (b % 4) (b / 4) X
          (Nat.mod_lt _ (by decide)) (Nat.mod_lt b (by decide)) hws (b' / 4 % 5) (b' % 4)
          (b' / 4) (Nat.mod_lt b' (by decide)) (fun h => by rw [h]) (by omega) hb hb'
      | _ => simp [RAID.Write] at hw
  · intro r5
    simp only [RAID5.layout, numDisks, Nat.add_one_sub_one, ge_iff_le, ne_eq, Prod.mk.injEq,
      not_and]
    constructor
    · intro h1 h2
      apply hne
      split at h1 <;> split at h1 <;> omega
    · intro h1 h2
      split at h1 <;> omega
  · simp only [numDisks, ne_eq, Prod.mk.injEq, not_and]
    refine ⟨?_, ?_, ?_⟩
    · intro h1 h2
      omega
    · intro h1 h2
      omega
    · intro h1
      have := Nat.mod_lt b' (by decide : 0 < 4)
      omega

/-- C18, witness: blocks 5 and 6 of one stripe of a RAID 5 array that already holds data. -/
theorem writeIsolation_witness :
    WF 2 (RAID.raid5 { disks := exampleDisks }).disks ∧ 5 ≠ 6 ∧
    (((RAID.raid5 { disks := exampleDisks }).physicalBlock 5 : Nat) : Int) * ((2 : Nat) : Int) <
      2 ^ 63 ∧
    (((RAID.raid5 { disks := exampleDisks }).physicalBlock 6 : Nat) : Int) * ((2 : Nat) : Int) <
      2 ^ 63 ∧
    (RAID.raid5 { disks := exampleDisks }).Write 5 [7, 9] =
      (((RAID.raid5 { disks := exampleDisks }).Write 5 [7, 9]).1, none) ∧
    ((RAID.raid5 { disks := exampleDisks }).Write 5 [7, 9]).1.Read 6 =
      (RAID.raid5 { disks := exampleDisks }).Read 6 ∧
    ((RAID.raid5 { disks := exampleDisks }).Write 5 [7, 9]).1.Read 5 = .ok [7, 9] :=
  ⟨⟨rfl, by decide⟩, by decide, by decide, by decide, rfl,
    (writeIsolation 2 (.raid5 { disks := exampleDisks })
      ((RAID.raid5 { disks := exampleDisks }).Write 5 [7, 9]).1 5 6 [7, 9]
      ⟨rfl, by decide⟩ (by decide) (by decide) (by decide) rfl).1, rfl⟩

/-! ## The outcomes of a write -/

theorem writeDisk_neg {bs : Nat} {disks : List Disk} (hwf : WF bs disks) {k : Nat} (hk : k < 5)
    (s : Nat) (data : List Byte) (hlen : data.length = bs) (hoff : blockPos bs s < 0) :
    writeDisk disks k s data = (disks, some (.invalidOffset (blockPos bs s))) := by
  obtain ⟨d, hd, hbs, _⟩ := hwf.getElem? hk
  have ho : d.offset s = blockPos bs s := by unfold Disk.offset blockPos; rw [hbs]
  unfold writeDisk
  rw [hd]
  simp only [Disk.WriteBlock, hbs, hlen, ne_eq, not_true_eq_false, if_false, ho, hoff, if_true]

theorem writeDisk_sizeMismatch {bs : Nat} {disks : List Disk} (hwf : WF bs disks) {k : Nat}
    (hk : k < 5) (s : Nat) (data : List Byte) (hlen : data.length ≠ bs) :
    writeDisk disks k s data = (disks, some (.sizeMismatch bs data.length)) := by
  obtain ⟨d, hd, hbs, _⟩ := hwf.getElem? hk
  unfold writeDisk
  rw [hd]
  simp only [Disk.WriteBlock, hbs, ne_eq, hlen, not_false_eq_true, if_true]

theorem RAID1_neg {bs : Nat} {r : RAID1} (hwf : WF bs r.disks) (b : Nat) (X : List Byte)
    (hlen : X.length = bs) (hoff : blockPos bs b < 0) :
    r.Write b X = (r, some (.invalidOffset (blockPos bs b))) := by
  obtain ⟨ds⟩ := r
  cases ds with
  | nil => exact absurd hwf.1 (by simp [numDisks])
  | cons d rest =>
    have hbs : d.blockSize = bs := hwf.2 d (by simp)
    have ho : d.offset b = blockPos bs b := by unfold Disk.offset blockPos; rw [hbs]
    unfold RAID1.Write RAID1.writeLoop
    simp only [Disk.WriteBlock, hbs, hlen, ne_eq, not_true_eq_false, if_false, ho, hoff, if_true]

theorem stripeWrite_neg {bs : Nat} {disks : List Disk} (hwf : WF bs disks) {pp di : Nat}
    (_hdi : di < 4) (s : Nat) (data : List Byte) (hoff : blockPos bs s < 0) :
    stripeWrite disks pp di s data = (disks, some (.invalidOffset (blockPos bs s))) := by
  have hex : ∃ i, i < 4 ∧ i ≠ di := by
    by_cases h : di = 0
    · exact ⟨1, by omega, by omega⟩
    · exact ⟨0, by omega, fun hh => h hh.symm⟩
  obtain ⟨i, hi, hne⟩ := hex
  obtain ⟨i0, e0, hle, _, herr, _, _, hw⟩ := stripeWrite_sibling_error hwf.1 s data hi hne
    (readDisk_error hwf (@slotDisk_lt pp i hi) s hoff)
  rw [readDisk_error hwf (@slotDisk_lt pp i0 (by omega)) s hoff] at herr
  cases herr
  exact hw

theorem xorLoop_ok_of_le : ∀ (blocks : List (List Byte)) (out : List Byte),
    (∀ b ∈ blocks, out.length ≤ b.length) →
    ∃ P, xorLoop blocks out = .ok P ∧ P.length = out.length
  | [], out, _ => ⟨out, rfl, rfl⟩
  | b :: rest, out, h => by
    have hb : out.length ≤ b.length := h b (by simp)
    have hlen : (bxor out b).length = out.length := by rw [length_bxor]; omega
    obtain ⟨P, hP, hPlen⟩ := xorLoop_ok_of_le rest (bxor out b) (by
      intro c hc
      rw [hlen]
      exact h c (by simp [hc]))
    refine ⟨P, ?_, by rw [hPlen, hlen]⟩
    unfold xorLoop
    rw [xorInto_eq out b hb]
    exact hP

theorem stripeWrite_sizeMismatch {bs : Nat} {disks : List Disk} (hwf : WF bs disks)
    {pp di : Nat} (hdi : di < 4) (s : Nat) (hoff : 0 ≤ blockPos bs s) (data : List Byte)
    (hlen : data.length ≠ bs)
    (hnp : ¬ ((di = 0 ∧ bs < data.length) ∨ (di ≠ 0 ∧ data.length < bs))) :
    stripeWrite disks pp di s data = (disks, some (.sizeMismatch bs data.length)) := by
  let blk : Nat → List Byte := fun i =>
    if i = di then data else blockAt (diskFile disks (slotDisk pp i)) (blockPos bs s).toNat bs
  have hslot : ∀ i, i < 4 →
      (fun i => if i = di then Except.ok data else readDisk disks (slotDisk pp i) s) i =
        .ok (blk i) := by
    intro i hi
    by_cases h : i = di
    · simp [blk, h]
    · simp only [blk, h, if_false]
      rw [readDisk_eq hwf (slotDisk_lt hi) s hoff]
  have hblen : ∀ i, i ≠ di → (blk i).length = bs := by
    intro i h
    simp [blk, h, length_blockAt]
  have hbdi : blk di = data := by simp [blk]
  have hgather := gatherLoop_four
    (fun i => if i = di then Except.ok data else readDisk disks (slotDisk pp i) s)
    (blk 0) (blk 1) (blk 2) (blk 3) (hslot 0 (by omega)) (hslot 1 (by omega))
    (hslot 2 (by omega)) (hslot 3 (by omega))
  have hle : ∀ i, i < 4 → (blk 0).length ≤ (blk i).length := by
    intro i hi
    by_cases h0 : di = 0
    · by_cases hi0 : i = di
      · rw [hi0, h0]
      · rw [hblen i hi0, ← h0, hbdi]
        omega
    · rw [hblen 0 (fun hh => h0 hh.symm)]
      by_cases hi0 : i = di
      · rw [hi0, hbdi]
        omega
      · rw [hblen i hi0]
  obtain ⟨P, hP, _⟩ := xorLoop_ok_of_le [blk 0, blk 1, blk 2, blk 3]
    (List.replicate (blk 0).length 0) (by
      intro b hb
      rw [List.length_replicate]
      simp only [List.mem_cons, List.mem_singleton, List.not_mem_nil, or_false] at hb
      rcases hb with rfl | rfl | rfl | rfl
      · exact hle 0 (by omega)
      · exact hle 1 (by omega)
      · exact hle 2 (by omega)
      · exact hle 3 (by omega))
  have hx : xorBlocks [blk 0, blk 1, blk 2, blk 3] = .ok P := hP
  unfold stripeWrite
  simp only [hgather, hx, writeDisk_sizeMismatch hwf (@slotDisk_lt pp di hdi) s data hlen]

/-- The outcome of a write of a block of the block size on an array of five stores of
that block size: success when the byte offset of the physical block is not negative,
the seek error and an unchanged array otherwise. -/
theorem RAID.Write_outcome {bs : Nat} (r : RAID) (hwf : WF bs r.disks) (b : Nat)
    (X : List Byte) (hX : X.length = bs) :
    (0 ≤ blockPos bs (r.physicalBlock b) → ∃ r', r.Write b X = (r', none)) ∧
    (blockPos bs (r.physicalBlock b) < 0 →
      r.Write b X = (r, some (.invalidOffset (blockPos bs (r.physicalBlock b))))) := by
  cases r with
  | raid0 r0 =>
    have hwf : WF bs r0.disks := hwf
    have hk : b % numDisks < 5 := Nat.mod_lt b (by decide)
    constructor
    · intro hoff
      have hoff : 0 ≤ blockPos bs (b / numDisks) := hoff
      simp only [RAID.Write, RAID0.Write, writeDisk_eq hwf hk _ X hX hoff]
      exact ⟨_, rfl⟩
    · intro hoff
      have hoff : blockPos bs (b / numDisks) < 0 := hoff
      simp only [RAID.Write, RAID0.Write, writeDisk_neg hwf hk _ X hX hoff]
      rfl
  | raid1 r1 =>
    have hwf : WF bs r1.disks := hwf
    constructor
    · intro hoff
      obtain ⟨disks', h⟩ := RAID1.writeLoop_succeeds bs b X hX hoff r1.disks hwf.2
      exact ⟨.raid1 { disks := disks' }, by simp only [RAID.Write, RAID1.Write, h]⟩
    · intro hoff
      have hoff : blockPos bs b < 0 := hoff
      simp only [RAID.Write, RAID1_neg hwf b X hX hoff]
      rfl
  | raid4 r4 =>
    have hwf : WF bs r4.disks := hwf
    constructor
    · intro hoff
      obtain ⟨disks', h, _⟩ := stripeWrite_spec hwf (b / 4) (by omega : 4 < 5)
        (Nat.mod_lt b (by decide : 0 < 4)) hX hoff
      exact ⟨.raid4 { disks := disks' }, by simp only [RAID.Write, RAID4_Write_eq, h]⟩
    · intro hoff
      have hoff : blockPos bs (b / 4) < 0 := hoff
      simp only [RAID.Write, RAID4_Write_eq,
        @stripeWrite_neg bs r4.disks hwf 4 (b % 4) (Nat.mod_lt b (by decide)) (b / 4) X hoff]
      rfl
  | raid5 r5 =>
    have hwf : WF bs r5.disks := hwf
    constructor
    · intro hoff
      obtain ⟨disks', h, _⟩ := stripeWrite_spec hwf (b / 4)
        (Nat.mod_lt (b / 4) (by decide : 0 < 5)) (Nat.mod_lt b (by decide : 0 < 4)) hX hoff
      exact ⟨.raid5 { disks := disks' }, by simp only [RAID.Write, RAID5_Write_eq, h]⟩
    · intro hoff
      have hoff : blockPos bs (b / 4) < 0 := hoff
      simp only [RAID.Write, RAID5_Write_eq,
        @stripeWrite_neg bs r5.disks hwf (b / 4 % 5) (b % 4) (Nat.mod_lt b (by decide)) (b / 4)
          X hoff]
      rfl

/-! ## Index safety -/

/-- C19. Index safety: on an array of five stores of one block size, for every logical
block number and every block of the block size, neither Write nor Read of any level ends
in an index-out-of-range panic (no store index outside 0..4 and, in xorBlocks, no byte
index outside a gathered block); the store indices the four levels compute are below 5;
and for RAID 5 the data store is never the parity store and the four data slots of a
stripe are mapped one-to-one onto the four stores other than the parity store. -/
theorem indexSafety (bs : Nat) (r : RAID) (b : Nat) (X : List Byte) (hwf : WF bs r.disks)
    (hX : X.length = bs) :
    (r.Write b X).2 ≠ some .indexOutOfRange ∧
    r.Read b ≠ .error .indexOutOfRange ∧
    (b % numDisks < numDisks ∧ b % 4 < numDisks ∧ 4 < numDisks) ∧
    (∀ r5 : RAID5,
      (r5.layout b).dataDiskIdx < numDisks ∧ (r5.layout b).parityDiskIdx < numDisks ∧
      (r5.layout b).dataDiskIdx ≠ (r5.layout b).parityDiskIdx ∧
      ∀ k, k < numDisks → k ≠ (r5.layout b).parityDiskIdx →
        ∃ i, i < 4 ∧ (r5.layout (4 * (b / 4) + i)).dataDiskIdx = k ∧
          ∀ i', i' < 4 → (r5.layout (4 * (b / 4) + i')).dataDiskIdx = k → i' = i) := by
  refine ⟨?_, ?_, ⟨Nat.mod_lt b (by decide), ?_, by decide⟩, ?_⟩
  · obtain ⟨hok, hneg⟩ := RAID.Write_outcome r hwf b X hX
    by_cases hoff : 0 ≤ blockPos bs (r.physicalBlock b)
    · obtain ⟨r', h⟩ := hok hoff
      rw [h]
      simp
    · rw [hneg (not_le.mp hoff)]
      simp
  · cases r with
    | raid0 r0 =>
      have h5 : r0.disks.length = 5 := hwf.1
      exact readDisk_ne_panic (by rw [h5]; exact Nat.mod_lt b (by decide)) _
    | raid1 r1 =>
      have h5 : r1.disks.length = 5 := hwf.1
      exact readDisk_ne_panic (by rw [h5]; omega) _
    | raid4 r4 =>
      have h5 : r4.disks.length = 5 := hwf.1
      exact readDisk_ne_panic (by
        rw [h5]
        have := Nat.mod_lt b (by decide : 0 < 4)
        omega) _
    | raid5 r5 =>
      have h5 : r5.disks.length = 5 := hwf.1
      exact readDisk_ne_panic (by
        rw [h5]
        exact @slotDisk_lt (b / 4 % 5) (b % 4) (Nat.mod_lt b (by decide))) _
  · have := Nat.mod_lt b (by decide : 0 < 4)
    show b % 4 < 5
    omega
  · intro r5
    have hl : ∀ c, (r5.layout c).dataDiskIdx = slotDisk (c / 4 % 5) (c % 4) := fun _ => rfl
    have hp : (r5.layout b).parityDiskIdx = b / 4 % 5 := rfl
    have hm : b / 4 % 5 < 5 := Nat.mod_lt _ (by decide)
    have hst : ∀ i, i < 4 → (r5.layout (4 * (b / 4) + i)).dataDiskIdx =
        slotDisk (b / 4 % 5) i := by
      intro i hi
      rw [hl]
      have h1 : (4 * (b / 4) + i) / 4 = b / 4 := by omega
      have h2 : (4 * (b / 4) + i) % 4 = i := by omega
      rw [h1, h2]
    refine ⟨?_, ?_, ?_, ?_⟩
    · rw [hl]
      exact slotDisk_lt (Nat.mod_lt b (by decide))
    · rw [hp]
      exact hm
    · rw [hl, hp]
      exact slotDisk_ne_parity _ _
    · intro k hk hkp
      rw [hp] at hkp
      have hk5 : k < 5 := hk
      refine ⟨if k < b / 4 % 5 then k else k - 1, ?_, ?_, ?_⟩
      · split <;> omega
      · rw [hst _ (by split <;> omega)]
        unfold slotDisk
        split <;> split <;> omega
      · intro i' hi' h
        rw [hst i' hi'] at h
        unfold slotDisk at h
        split at h <;> split <;> omega

/-- C19, witness: block 7 of a RAID 4 array that already holds data. -/
theorem indexSafety_witness :
    WF 2 (RAID.raid4 { disks := exampleDisks }).disks ∧ [7, 9].length = 2 ∧
    ((RAID.raid4 { disks := exampleDisks }).Write 7 [7, 9]).2 ≠ some .indexOutOfRange ∧
    (RAID.raid4 { disks := exampleDisks }).Read 7 ≠ .error .indexOutOfRange :=
  have h := indexSafety 2 (.raid4 { disks := exampleDisks }) 7 [7, 9] ⟨rfl, by decide⟩ rfl
  ⟨⟨rfl, by decide⟩, rfl, h.1, h.2.1⟩

/-! ## Rejected writes -/

/-- C20. Rejected writes are atomic: on an array of five stores of one block size, a
Write with a block of another length never succeeds and returns the array, hence the
contents of all five stores, exactly as it was. RAID 0 and RAID 1 return the
size-mismatch error (of the first store written); RAID 4 and RAID 5 return the
size-mismatch error of the data-store write, before any parity write, unless the seek of
a sibling read failed before it or xorBlocks ran out of a block. -/
theorem rejectedWriteAtomic (bs : Nat) (r : RAID) (b : Nat) (X : List Byte)
    (hwf : WF bs r.disks) (hX : X.length ≠ bs) :
    (r.Write b X).1 = r ∧
    (r.Write b X).2 ≠ none ∧
    (r.hasParity = false → (r.Write b X).2 = some (.sizeMismatch bs X.length)) ∧
    (r.hasParity = true → (r.Write b X).2 = some (
      if blockPos bs (b / 4) < 0 then .invalidOffset (blockPos bs (b / 4))
      else if (b % 4 = 0 ∧ bs < X.length) ∨ (b % 4 ≠ 0 ∧ X.length < bs) then .indexOutOfRange
      else .sizeMismatch bs X.length)) := by
  have hstripe : ∀ (disks : List Disk) (pp : Nat), WF bs disks →
      stripeWrite disks pp (b % 4) (b / 4) X = (disks, some (
        if blockPos bs (b / 4) < 0 then .invalidOffset (blockPos bs (b / 4))
        else if (b % 4 = 0 ∧ bs < X.length) ∨ (b % 4 ≠ 0 ∧ X.length < bs) then .indexOutOfRange
        else .sizeMismatch bs X.length)) := by
    intro disks pp hw
    have hdi : b % 4 < 4 := Nat.mod_lt b (by decide)
    by_cases hoff : blockPos bs (b / 4) < 0
    · rw [if_pos hoff]
      exact stripeWrite_neg hw hdi (b / 4) X hoff
    · rw [if_neg hoff]
      by_cases hp : (b % 4 = 0 ∧ bs < X.length) ∨ (b % 4 ≠ 0 ∧ X.length < bs)
      · rw [if_pos hp]
        exact stripeWrite_panics hw hdi (b / 4) (not_lt.mp hoff) X hp
      · rw [if_neg hp]
        exact stripeWrite_sizeMismatch hw hdi (b / 4) (not_lt.mp hoff) X hX hp
  cases r with
  | raid0 r0 =>
    have hwf : WF bs r0.disks := hwf
    have h : RAID.Write (.raid0 r0) b X = (.raid0 r0, some (.sizeMismatch bs X.length)) := by
      simp only [RAID.Write, RAID0_sizeMismatch hwf b X hX]
    rw [h]
    exact ⟨rfl, by simp, fun _ => rfl, fun hh => by simp [RAID.hasParity] at hh⟩
  | raid1 r1 =>
    have hwf : WF bs r1.disks := hwf
    have h : RAID.Write (.raid1 r1) b X = (.raid1 r1, some (.sizeMismatch bs X.length)) := by
      simp only [RAID.Write, RAID1_sizeMismatch hwf b X hX]
    rw [h]
    exact ⟨rfl, by simp, fun _ => rfl, fun hh => by simp [RAID.hasParity] at hh⟩
  | raid4 r4 =>
    have hwf : WF bs r4.disks := hwf
    have h : RAID.Write (.raid4 r4) b X = (.raid4 r4, some (
        if blockPos bs (b / 4) < 0 then .invalidOffset (blockPos bs (b / 4))
        else if (b % 4 = 0 ∧ bs < X.length) ∨ (b % 4 ≠ 0 ∧ X.length < bs) then .indexOutOfRange
        else .sizeMismatch bs X.length)) := by
      simp only [RAID.Write, RAID4_Write_eq, hstripe r4.disks 4 hwf]
    rw [h]
    exact ⟨rfl, by simp, fun hh => by simp [RAID.hasParity] at hh, fun _ => rfl⟩
  | raid5 r5 =>
    have hwf : WF bs r5.disks := hwf
    have h : RAID.Write (.raid5 r5) b X = (.raid5 r5, some (
        if blockPos bs (b / 4) < 0 then .invalidOffset (blockPos bs (b / 4))
        else if (b % 4 = 0 ∧ bs < X.length) ∨ (b % 4 ≠ 0 ∧ X.length < bs) then .indexOutOfRange
        else .sizeMismatch bs X.length)) := by
      simp only [RAID.Write, RAID5_Write_eq, hstripe r5.disks (b / 4 % 5) hwf]
    rw [h]
    exact ⟨rfl, by simp, fun hh => by simp [RAID.hasParity] at hh, fun _ => rfl⟩

/-- C20, witness: a block of one byte for block 4 (data slot 0) of a RAID 5 array of block
size 2 that already holds data: the data-store write is rejected. -/
theorem rejectedWriteAtomic_witness :
    WF 2 (RAID.raid5 { disks := exampleDisks }).disks ∧ [7].length ≠ 2 ∧
    ((RAID.raid5 { disks := exampleDisks }).Write 4 [7]).1 = .raid5 { disks := exampleDisks } ∧
    ((RAID.raid5 { disks := exampleDisks }).Write 4 [7]).2 = some (.sizeMismatch 2 1) :=
  have h := rejectedWriteAtomic 2 (.raid5 { disks := exampleDisks }) 4 [7] ⟨rfl, by decide⟩
    (by decide)
  ⟨⟨rfl, by decide⟩, by decide, h.1, rfl⟩

end Raid
